import Mathlib

/-!
# go-config: field resolution engine

A shallow embedding of the Go package `config` (`config.go`, `parameter.go`,
`env.go`, `setter.go`) and theorems about it.

Conventions of the embedding.

* A Go `error` result is an `Option Error`: `none` is `nil`.
* Code that mutates state is a function from the state before to the result
  and the state after.  A converter (`setter`) is closed over the storage of
  one field; its state is that field's value.
* A Go `map[string]V` is an association list with distinct keys, in insertion
  order.  The order in which a `range` statement visits the keys is not fixed
  by the language; it is supplied by the `Runtime`.
* Go strings are sequences of Unicode code points (valid UTF-8).
* Functions of the Go standard library that the package calls and that are
  not modelled here are fields of `Runtime`.
-/

set_option autoImplicit false

namespace GoConfig

/-! ## Errors -/

/-- The sentinel carried by a `*strconv.NumError`. -/
inductive NumErr where
  | ErrSyntax
  | ErrRange
  deriving DecidableEq, Repr

/-- Go error values produced by the package and by the libraries it calls. -/
inductive Error where
  /-- `ErrUnsupportedType` of `setter.go`. -/
  | ErrUnsupportedType
  /-- `*strconv.NumError` with its `Func`, `Num` and `Err`. -/
  | NumError (fn : String) (num : String) (err : NumErr)
  /-- `errors.New(msg)`, `fmt.Errorf` without a `%w` verb, and the errors of
  library functions that are not modelled further. -/
  | New (msg : String)
  /-- `fmt.Errorf` with a `%w` verb: `msg` is the text before `: %w`. -/
  | Wrap (msg : String) (err : Error)
  /-- `*multierror.Error` with its `Errors`. -/
  | Multi (errs : List Error)

mutual
/-- The errors a value wraps, itself included (`errors.Is` walks this chain;
a `*multierror.Error` unwraps to each of its members). -/
def Error.chain : Error → List Error
  | .Wrap msg err => .Wrap msg err :: err.chain
  | .Multi errs => .Multi errs :: Error.chainList errs
  | e => [e]
/-- The chains of the members of a `*multierror.Error`, concatenated. -/
def Error.chainList : List Error → List Error
  | [] => []
  | e :: es => e.chain ++ Error.chainList es
end

/-- Accumulator of `multierror.Append`: the `Errors` of the `*multierror.Error`
built so far (a `nil` pointer and an empty list are not distinguished, as
`ErrorOrNil` does not distinguish them). -/
def Append (errs : List Error) (err : Option Error) : List Error :=
  match err with
  | none => errs
  | some (.Multi es) => errs ++ es
  | some e => errs ++ [e]

/-- `(*multierror.Error).ErrorOrNil`. -/
def ErrorOrNil (errs : List Error) : Option Error :=
  match errs with
  | [] => none
  | e :: es => some (.Multi (e :: es))

/-! ## Strings -/

/-- `unicode.IsSpace`. -/
def isSpace (c : Char) : Bool :=
  let n := c.toNat
  (9 ≤ n && n ≤ 13) || n = 32 || n = 0x85 || n = 0xA0 || n = 0x1680 ||
  (0x2000 ≤ n && n ≤ 0x200A) || n = 0x2028 || n = 0x2029 || n = 0x202F ||
  n = 0x205F || n = 0x3000

/-- `strings.TrimSpace`. -/
def TrimSpace (s : String) : String :=
  String.mk ((s.toList.dropWhile isSpace).reverse.dropWhile isSpace).reverse

/-- Splitting a list of characters at every occurrence of `sep`. -/
def splitChars (sep : Char) : List Char → List (List Char)
  | [] => [[]]
  | c :: cs =>
    if c = sep then [] :: splitChars sep cs
    else
      match splitChars sep cs with
      | [] => [[c]]
      | tok :: toks => (c :: tok) :: toks

/-- `strings.Split(s, sep)` for a separator of one character. -/
def Split (s : String) (sep : Char) : List String :=
  (splitChars sep s.toList).map String.mk

/-- The UTF-8 encoding of one code point. -/
def utf8Char (c : Char) : List Nat :=
  let n := c.toNat
  if n < 0x80 then [n]
  else if n < 0x800 then [0xC0 + n / 0x40, 0x80 + n % 0x40]
  else if n < 0x10000 then [0xE0 + n / 0x1000, 0x80 + n / 0x40 % 0x40, 0x80 + n % 0x40]
  else [0xF0 + n / 0x40000, 0x80 + n / 0x1000 % 0x40, 0x80 + n / 0x40 % 0x40, 0x80 + n % 0x40]

/-- `[]byte(s)`. -/
def bytes (s : String) : List Nat :=
  s.toList.flatMap utf8Char

/-- `strconv.ParseBool`. -/
def ParseBool (str : String) : Except Error Bool :=
  if str = "1" ∨ str = "t" ∨ str = "T" ∨ str = "true" ∨ str = "TRUE" ∨ str = "True" then
    .ok true
  else if str = "0" ∨ str = "f" ∨ str = "F" ∨ str = "false" ∨ str = "FALSE" ∨ str = "False" then
    .ok false
  else
    .error (.NumError "ParseBool" str .ErrSyntax)

/-- The `lower` of `strconv`: `c | ('x' - 'X')` on a byte. -/
def lower (c : Nat) : Nat :=
  c ||| 0x20

/-- `strconv.underscoreOK`, on the bytes of the literal: underscores separate
digits only (a base prefix counts as a digit). -/
def underscoreOK (s0 : List Nat) : Bool :=
  let s := match s0 with
    | c :: rest => if c = 45 ∨ c = 43 then rest else s0
    | [] => s0
  let pfx : Bool := match s with
    | c0 :: c1 :: _ => c0 = 48 && (lower c1 = 98 || lower c1 = 111 || lower c1 = 120)
    | _ => false
  let hex : Bool := match s with
    | _ :: c1 :: _ => pfx && lower c1 = 120
    | _ => false
  let body := if pfx then s.drop 2 else s
  -- saw: 94 beginning, 48 digit, 95 underscore, 33 none of the above
  let step : Option Nat → Nat → Option Nat := fun st c =>
    match st with
    | none => none
    | some saw =>
      if (48 ≤ c ∧ c ≤ 57) ∨ (hex = true ∧ 97 ≤ lower c ∧ lower c ≤ 102) then some 48
      else if c = 95 then (if saw ≠ 48 then none else some 95)
      else if saw = 95 then none
      else some 33
  match body.foldl step (some (if pfx then 48 else 94)) with
  | none => false
  | some saw => saw ≠ 95

/-- The digit loop of `strconv.ParseUint` on the bytes after the base prefix:
`n` is the value so far, `underscores` whether an underscore was met. -/
def parseDigits (base : Nat) (base0 : Bool) (maxVal : Nat) :
    List Nat → Nat → Bool → Except NumErr (Nat × Bool)
  | [], n, underscores => .ok (n, underscores)
  | c :: cs, n, underscores =>
    if c = 95 ∧ base0 = true then parseDigits base base0 maxVal cs n true
    else
      let d : Option Nat :=
        if 48 ≤ c ∧ c ≤ 57 then some (c - 48)
        else if 97 ≤ lower c ∧ lower c ≤ 122 then some (lower c - 97 + 10)
        else none
      match d with
      | none => .error .ErrSyntax
      | some d =>
        if d ≥ base then .error .ErrSyntax
        else if n ≥ (2 ^ 64 - 1) / base + 1 then .error .ErrRange
        else
          let n := n * base % 2 ^ 64
          let n1 := (n + d) % 2 ^ 64
          if n1 < n ∨ n1 > maxVal then .error .ErrRange
          else parseDigits base base0 maxVal cs n1 underscores

/-- The body of `strconv.ParseUint(s, 0, bitSize)` on the bytes of `s`, for
`1 ≤ bitSize ≤ 64`; the error is the `Err` of the `*NumError`. -/
def parseUintBytes (s0 : List Nat) (bitSize : Nat) : Except NumErr Nat :=
  match s0 with
  | [] => .error .ErrSyntax
  | c0 :: rest =>
    let pick : Nat × List Nat :=
      if c0 = 48 then
        match rest with
        | c1 :: c2 :: tl =>
          if lower c1 = 98 then (2, c2 :: tl)
          else if lower c1 = 111 then (8, c2 :: tl)
          else if lower c1 = 120 then (16, c2 :: tl)
          else (8, rest)
        | _ => (8, rest)
      else (10, s0)
    match parseDigits pick.1 true (2 ^ bitSize - 1) pick.2 0 false with
    | .error e => .error e
    | .ok (n, underscores) =>
      if underscores = true ∧ underscoreOK s0 = false then .error .ErrSyntax else .ok n

/-- `strconv.ParseUint(s, 0, bitSize)` for `1 ≤ bitSize ≤ 64`. -/
def ParseUint (s : String) (bitSize : Nat) : Except Error Nat :=
  match parseUintBytes (bytes s) bitSize with
  | .error e => .error (.NumError "ParseUint" s e)
  | .ok n => .ok n

/-- `strconv.ParseInt(s, 0, bitSize)` for `1 ≤ bitSize ≤ 64`. -/
def ParseInt (s : String) (bitSize : Nat) : Except Error Int :=
  match bytes s with
  | [] => .error (.NumError "ParseInt" s .ErrSyntax)
  | c0 :: rest =>
    let neg : Bool := c0 = 45
    let body := if c0 = 43 ∨ c0 = 45 then rest else c0 :: rest
    match parseUintBytes body bitSize with
    | .error .ErrSyntax => .error (.NumError "ParseInt" s .ErrSyntax)
    | .error .ErrRange => .error (.NumError "ParseInt" s .ErrRange)
    | .ok un =>
      let cutoff := 2 ^ (bitSize - 1)
      if neg = false ∧ un ≥ cutoff then .error (.NumError "ParseInt" s .ErrRange)
      else if neg = true ∧ un > cutoff then .error (.NumError "ParseInt" s .ErrRange)
      else .ok (if neg then -(un : Int) else (un : Int))

/-! ## Types and values -/

/-- The signed integer kinds of `reflect.Kind`. -/
inductive IntKind where
  | Int | Int8 | Int16 | Int32 | Int64
  deriving DecidableEq, Repr

/-- The unsigned integer kinds of `reflect.Kind` that `getSetter` lists. -/
inductive UintKind where
  | Uint | Uint8 | Uint16 | Uint32 | Uint64
  deriving DecidableEq, Repr

/-- The floating point kinds of `reflect.Kind`. -/
inductive FloatKind where
  | Float32 | Float64
  deriving DecidableEq, Repr

/-- The remaining kinds of `reflect.Kind`. -/
inductive OtherKind where
  | Invalid | Uintptr | Complex64 | Complex128 | Array | Chan | Func
  | Interface | Map | Pointer | Struct | UnsafePointer
  deriving DecidableEq, Repr

/-- All of `reflect.Kind`. -/
inductive Kind where
  | Invalid | Bool | Int | Int8 | Int16 | Int32 | Int64
  | Uint | Uint8 | Uint16 | Uint32 | Uint64 | Uintptr
  | Float32 | Float64 | Complex64 | Complex128
  | Array | Chan | Func | Interface | Map | Pointer | Slice | String | Struct
  | UnsafePointer
  deriving DecidableEq, Repr

/-- What the package reads of a `reflect.Type`: its kind, for a signed
integer type its `PkgPath()` and `Name()`, for a slice type its `Elem()`. -/
inductive Typ where
  | String
  | Bool
  | Float (kind : FloatKind)
  | Int (kind : IntKind) (pkgPath : String) (name : String)
  | Uint (kind : UintKind)
  | Slice (elem : Typ)
  | Other (kind : OtherKind)
  deriving DecidableEq, Repr

/-- `IntKind` as a `reflect.Kind`. -/
def IntKind.toKind : IntKind → Kind
  | .Int => .Int | .Int8 => .Int8 | .Int16 => .Int16 | .Int32 => .Int32 | .Int64 => .Int64

/-- `UintKind` as a `reflect.Kind`. -/
def UintKind.toKind : UintKind → Kind
  | .Uint => .Uint | .Uint8 => .Uint8 | .Uint16 => .Uint16 | .Uint32 => .Uint32
  | .Uint64 => .Uint64

/-- `FloatKind` as a `reflect.Kind`. -/
def FloatKind.toKind : FloatKind → Kind
  | .Float32 => .Float32 | .Float64 => .Float64

/-- `OtherKind` as a `reflect.Kind`. -/
def OtherKind.toKind : OtherKind → Kind
  | .Invalid => .Invalid | .Uintptr => .Uintptr | .Complex64 => .Complex64
  | .Complex128 => .Complex128 | .Array => .Array | .Chan => .Chan | .Func => .Func
  | .Interface => .Interface | .Map => .Map | .Pointer => .Pointer | .Struct => .Struct
  | .UnsafePointer => .UnsafePointer

/-- `reflect.Type.Kind`. -/
def Typ.Kind : Typ → Kind
  | .String => .String
  | .Bool => .Bool
  | .Float k => k.toKind
  | .Int k _ _ => k.toKind
  | .Uint k => k.toKind
  | .Slice _ => .Slice
  | .Other k => k.toKind

/-- The contents of the storage of a field or of a slice element.  A float is
kept as its IEEE 754 bit pattern; `Slice none` is the nil slice; `Other` is the
storage of a kind the package has no converter for. -/
inductive Value where
  | String (s : String)
  | Bool (b : Bool)
  | Int (n : Int)
  | Uint (n : Nat)
  | Float (bits : Nat)
  | Slice (items : Option (List Value))
  | Other

/-- The zero value of a type, as `reflect.MakeSlice` fills a new slice. -/
def Typ.zero : Typ → Value
  | .String => .String ""
  | .Bool => .Bool false
  | .Float _ => .Float 0
  | .Int _ _ _ => .Int 0
  | .Uint _ => .Uint 0
  | .Slice _ => .Slice none
  | .Other _ => .Other

/-- The standard library and operating system as the package sees them. -/
structure Runtime where
  /-- `strconv.IntSize`, the width of `int` and `uint`: 32 or 64. -/
  IntSize : Nat
  /-- `strconv.ParseFloat(s, bitSize)`; the result is the IEEE 754 bit pattern
  of the float64 returned. -/
  ParseFloat : String → Nat → Except Error Nat
  /-- `time.ParseDuration(s)`, in nanoseconds. -/
  ParseDuration : String → Except Error Int
  /-- `strings.ToUpper`. -/
  ToUpper : String → String
  /-- `os.Getenv`. -/
  Getenv : String → String
  /-- The order in which `range paramMap` in `process` visits the source tag
  keys at the field reached by the given index path. -/
  scanOrder : List Nat → List String → List String
  /-- The order in which `range paramMap` in `EnvSource.Process` visits the
  lookup keys. -/
  envOrder : List String → List String

/-- `reflect.Type.Bits` of a signed integer kind. -/
def IntKind.Bits (rt : Runtime) : IntKind → Nat
  | .Int => rt.IntSize | .Int8 => 8 | .Int16 => 16 | .Int32 => 32 | .Int64 => 64

/-- `reflect.Type.Bits` of an unsigned integer kind. -/
def UintKind.Bits (rt : Runtime) : UintKind → Nat
  | .Uint => rt.IntSize | .Uint8 => 8 | .Uint16 => 16 | .Uint32 => 32 | .Uint64 => 64

/-- `reflect.Type.Bits` of a floating point kind. -/
def FloatKind.Bits : FloatKind → Nat
  | .Float32 => 32 | .Float64 => 64

/-! ## setter.go -/

/-- The Go type `setter func(string) error`: a closure over the storage `f` of
one field.  Its argument is the raw string and the contents of `f` before the
call; its result is the error returned and the contents of `f` after. -/
abbrev setter := String → Value → Option Error × Value

/-- `stringSetter`. -/
def stringSetter : setter :=
  fun s _ => (none, .String s)

/-- `intSetter`. -/
def intSetter (rt : Runtime) (kind : IntKind) (pkgPath name : String) : setter :=
  fun s f =>
    let r : Except Error Int :=
      if kind = .Int64 ∧ pkgPath = "time" ∧ name = "Duration" then rt.ParseDuration s
      else ParseInt s (kind.Bits rt)
    match r with
    | .error err => (some err, f)
    | .ok val => (none, .Int val)

/-- `uintSetter`. -/
def uintSetter (rt : Runtime) (kind : UintKind) : setter :=
  fun s f =>
    match ParseUint s (kind.Bits rt) with
    | .error err => (some err, f)
    | .ok val => (none, .Uint val)

/-- `boolSetter`. -/
def boolSetter : setter :=
  fun s f =>
    match ParseBool s with
    | .error err => (some err, f)
    | .ok b => (none, .Bool b)

/-- `floatSetter`. -/
def floatSetter (rt : Runtime) (kind : FloatKind) : setter :=
  fun s f =>
    match rt.ParseFloat s kind.Bits with
    | .error err => (some err, f)
    | .ok fl => (none, .Float fl)

/-- The loop of `sliceSetter` over the tokens `vals`: element `i` of the new
slice `sl` starts as the zero value `zero`; `getElem` is the result of
`getSetter(sl.Index(i))`, the same for every element as it depends on the
element type only.  The result is the elements of `sl` after the loop, or the
error the loop returns with. -/
def sliceSetter.loop (getElem : Except Error setter) (zero : Value) :
    List String → Except Error (List Value)
  | [] => .ok []
  | val :: vals =>
    match getElem with
    | .error err => .error err
    | .ok fs =>
      match fs val zero with
      | (some err, _) => .error err
      | (none, v) =>
        match sliceSetter.loop getElem zero vals with
        | .error err => .error err
        | .ok vs => .ok (v :: vs)

/-- `sliceSetter` for a slice type with element type `elem`; `getElem` is
what `getSetter` returns on an element of the slice. -/
def sliceSetter (elem : Typ) (getElem : Except Error setter) : setter :=
  fun s f =>
    if elem.Kind = .Uint8 then
      (none, .Slice (some ((bytes s).map Value.Uint)))
    else if (TrimSpace s).length > 0 then
      match sliceSetter.loop getElem elem.zero (Split s ',') with
      | .error err => (some err, f)
      | .ok sl => (none, .Slice (some sl))
    else
      (none, .Slice (some []))

/-- `getSetter`, on the type of the field `f` it closes the converter over. -/
def getSetter (rt : Runtime) : Typ → Except Error setter
  | .String => .ok stringSetter
  | .Bool => .ok boolSetter
  | .Float kind => .ok (floatSetter rt kind)
  | .Int kind pkgPath name => .ok (intSetter rt kind pkgPath name)
  | .Uint kind => .ok (uintSetter rt kind)
  | .Slice elem => .ok (sliceSetter elem (getSetter rt elem))
  | .Other _ => .error .ErrUnsupportedType

/-! ## parameter.go -/

/-- The struct tag keys `defaultTag`, `requiredTag` and `ignoreTag`. -/
def defaultTag : String := "default"

/-- See `defaultTag`. -/
def requiredTag : String := "required"

/-- See `defaultTag`. -/
def ignoreTag : String := "ignore"

/-- What the package reads of a `reflect.StructField`: `Name` and the
key/value pairs of the conventional struct tag `Tag`, in the order written. -/
structure StructField where
  Name : String
  Tag : List (String × String)
  deriving DecidableEq, Repr

/-- `reflect.StructTag.Lookup`: the value of the first pair with the key. -/
def StructField.Lookup (sf : StructField) (key : String) : Option String :=
  match sf.Tag.find? (fun kv => kv.1 = key) with
  | none => none
  | some kv => some kv.2

/-- `reflect.StructTag.Get`. -/
def StructField.Get (sf : StructField) (key : String) : String :=
  match sf.Lookup key with
  | none => ""
  | some v => v

/-- The interface `Parameter`, its methods acting on a state `σ`. -/
structure Parameter (σ : Type) where
  NoValue : σ → Option Error × σ
  SetValue : String → σ → Option Error × σ

/-- The struct `parameter`; `setFn` is the converter, acting on a state `σ`. -/
structure parameter (σ : Type) where
  fieldName : String
  tagKey : String
  tagValue : String
  required : Bool
  defaultValue : String
  setFn : String → σ → Option Error × σ

/-- `parameter.set`. -/
def parameter.set {σ : Type} (p : parameter σ) (val : String) : σ → Option Error × σ :=
  fun w =>
    match p.setFn val w with
    | (some err, w1) => (some (.Wrap ("error setting value for field " ++ p.fieldName) err), w1)
    | (none, w1) => (none, w1)

/-- `parameter.NoValue`. -/
def parameter.NoValue {σ : Type} (p : parameter σ) : σ → Option Error × σ :=
  fun w =>
    if p.required = true ∧ p.defaultValue = "" then
      (some (.New ("error: field " ++ p.fieldName ++
        " was specified as required, but was not found via key " ++ p.tagValue ++
        " in source " ++ p.tagKey)), w)
    else if p.defaultValue ≠ "" then
      p.set p.defaultValue w
    else
      (none, w)

/-- `parameter.SetValue`. -/
def parameter.SetValue {σ : Type} (p : parameter σ) (val : String) : σ → Option Error × σ :=
  fun w =>
    if val = "" then p.NoValue w
    else p.set val w

/-- A `*parameter` as a `Parameter`. -/
def parameter.toParameter {σ : Type} (p : parameter σ) : Parameter σ :=
  { NoValue := p.NoValue, SetValue := p.SetValue }

/-- `newParameter`. -/
def newParameter {σ : Type} (sf : StructField) (setFn : String → σ → Option Error × σ)
    (tagKey tagValue : String) : Parameter σ :=
  let required : Bool :=
    match ParseBool (sf.Get requiredTag) with
    | .ok b => b
    | .error _ => false
  parameter.toParameter
    { fieldName := sf.Name
      tagKey := tagKey
      tagValue := tagValue
      required := required
      defaultValue := sf.Get defaultTag
      setFn := setFn }

/-! ## Observing the calls of a converter -/

/-- A converter that, besides doing what `f` does, appends the raw string it
is called with to a log kept next to the state. -/
def recording {σ : Type} (f : String → σ → Option Error × σ) :
    String → σ × List String → Option Error × (σ × List String) :=
  fun val w => ((f val w.1).1, ((f val w.1).2, w.2 ++ [val]))

/-- The parameter `p` with its converter replaced by the recording one. -/
def parameter.recorded {σ : Type} (p : parameter σ) : parameter (σ × List String) :=
  { fieldName := p.fieldName
    tagKey := p.tagKey
    tagValue := p.tagValue
    required := p.required
    defaultValue := p.defaultValue
    setFn := recording p.setFn }

/-! ## Maps -/

/-- A Go `map[string]V`: its entries, with distinct keys, in insertion order. -/
abbrev GoMap (V : Type) := List (String × V)

/-- The read `m[key]` with its `ok` flag. -/
def GoMap.get? {V : Type} (m : GoMap V) (key : String) : Option V :=
  match m with
  | [] => none
  | (k, v) :: rest => if k = key then some v else GoMap.get? rest key

/-- The assignment `m[key] = v`. -/
def GoMap.set {V : Type} (m : GoMap V) (key : String) (v : V) : GoMap V :=
  match m with
  | [] => [(key, v)]
  | (k, v0) :: rest => if k = key then (k, v) :: rest else (k, v0) :: GoMap.set rest key v

/-- The keys of a map. -/
def GoMap.keys {V : Type} (m : GoMap V) : List String :=
  m.map Prod.fst

/-- The entries a `range m` statement visits, in the order it visits them,
when the runtime picks the key order `order`. -/
def GoMap.range {V : Type} (order : List String → List String) (m : GoMap V) :
    List (String × V) :=
  (order m.keys).filterMap fun key =>
    match m.get? key with
    | none => none
    | some v => some (key, v)

/-! ## env.go -/

/-- The struct `EnvSource`. -/
structure EnvSource where
  Prefix : String
  StrictCase : Bool
  deriving DecidableEq, Repr

/-- `EnvSource.TagKey`. -/
def EnvSource.TagKey (_e : EnvSource) : String := "env"

/-- `EnvSource.getEnvVar`. -/
def EnvSource.getEnvVar (rt : Runtime) (e : EnvSource) (key : String) : String :=
  let key := if e.Prefix ≠ "" then e.Prefix ++ key else key
  let key := if e.StrictCase = false then rt.ToUpper key else key
  rt.Getenv key

/-- The inner loop of `EnvSource.Process`: `SetValue(val)` on each parameter
in turn, returning at the first error. -/
def setEach {σ : Type} (val : String) : List (Parameter σ) → σ → Option Error × σ
  | [], w => (none, w)
  | param :: params, w =>
    match param.SetValue val w with
    | (some err, w1) => (some err, w1)
    | (none, w1) => setEach val params w1

/-- The outer loop of `EnvSource.Process` over the entries visited. -/
def EnvSource.Process.loop {σ : Type} (rt : Runtime) (e : EnvSource) :
    List (String × List (Parameter σ)) → σ → Option Error × σ
  | [], w => (none, w)
  | (key, params) :: rest, w =>
    match setEach (e.getEnvVar rt key) params w with
    | (some err, w1) => (some err, w1)
    | (none, w1) => EnvSource.Process.loop rt e rest w1

/-- `EnvSource.Process`. -/
def EnvSource.Process {σ : Type} (rt : Runtime) (e : EnvSource)
    (paramMap : GoMap (List (Parameter σ))) : σ → Option Error × σ :=
  EnvSource.Process.loop rt e (paramMap.range rt.envOrder)

/-! ## config.go -/

/-- The interface `Source`: a `*EnvSource`, or a value of any other type with
its `TagKey()` and its `Process` method. -/
inductive Source (σ : Type) where
  | env (e : EnvSource)
  | other (tagKey : String) (process : GoMap (List (Parameter σ)) → σ → Option Error × σ)

/-- `Source.TagKey`. -/
def Source.TagKey {σ : Type} : Source σ → String
  | .env e => e.TagKey
  | .other tagKey _ => tagKey

/-- `Source.Process`. -/
def Source.Process {σ : Type} (rt : Runtime) :
    Source σ → GoMap (List (Parameter σ)) → σ → Option Error × σ
  | .env e => e.Process rt
  | .other _ process => process

/-- The type assertion `s.(*EnvSource)`. -/
def Source.isEnvSource {σ : Type} : Source σ → Bool
  | .env _ => true
  | .other _ _ => false

/-- A field of a record as `process` sees it through `reflect`.

* `leaf typ val`: a field of type `typ`, not of struct kind, whose storage
  holds `val`; a nil interface field is `leaf (Typ.Other OtherKind.Interface) Value.Other`.
* `struct fields`: a field of struct kind with its own fields.
* `iface held`: a non-nil interface field holding a pointer to a record with
  the fields `held`.

Every field is exported, and an interface holds nothing but a pointer to a
record: on other inputs `reflect` panics. -/
inductive Node where
  | leaf (typ : Typ) (val : Value)
  | struct (fields : List (StructField × Node))
  | iface (held : List (StructField × Node))

/-- The record `params` points to: its fields in declaration order. -/
abbrev Record := List (StructField × Node)

mutual
/-- Running `f` on the storage of the leaf reached from a field by the index
path; nothing happens when the path does not end at a leaf. -/
def Node.update (f : Value → Option Error × Value) : Node → List Nat → Option Error × Node
  | .leaf typ val, [] => ((f val).1, .leaf typ (f val).2)
  | .leaf typ val, _ :: _ => (none, .leaf typ val)
  | .struct fields, path => ((updateRecord f fields path).1, .struct (updateRecord f fields path).2)
  | .iface held, path => ((updateRecord f held path).1, .iface (updateRecord f held path).2)
/-- Running `f` on the storage of the leaf reached from a record by the index
path: the head of the path is the index of a field of the record. -/
def updateRecord (f : Value → Option Error × Value) :
    List (StructField × Node) → List Nat → Option Error × List (StructField × Node)
  | [], _ => (none, [])
  | fld :: rest, [] => (none, fld :: rest)
  | (sf, n) :: rest, 0 :: path => ((n.update f path).1, (sf, (n.update f path).2) :: rest)
  | fld :: rest, (i + 1) :: path =>
    ((updateRecord f rest (i :: path)).1, fld :: (updateRecord f rest (i :: path)).2)
end

mutual
/-- The field reached from the fields of a node by a non-empty index path,
with its `StructField`. -/
def Node.fieldAt? : Node → List Nat → Option (StructField × Node)
  | .leaf _ _, _ => none
  | .struct fields, path => fieldAt? fields path
  | .iface held, path => fieldAt? held path
/-- The field reached from a record by a non-empty index path, with its
`StructField`: the head of the path is the index of a field of the record. -/
def fieldAt? : List (StructField × Node) → List Nat → Option (StructField × Node)
  | [], _ => none
  | _ :: _, [] => none
  | (sf, n) :: _, [0] => some (sf, n)
  | (_, n) :: _, 0 :: j :: path => n.fieldAt? (j :: path)
  | _ :: rest, (i + 1) :: path => fieldAt? rest (i :: path)
end

/-- The state a call of `Process` acts on: the record `params` points to and
whatever else the sources keep (`ext`). -/
structure World (X : Type) where
  record : Record
  ext : X

/-- The converter `setFn` closed over the field at `path` of the record. -/
def fieldSetter {X : Type} (path : List Nat) (setFn : setter) :
    String → World X → Option Error × World X :=
  fun s w =>
    ((updateRecord (setFn s) w.record path).1,
      { w with record := (updateRecord (setFn s) w.record path).2 })

/-- The map `paramMap` of `Process`: source tag key to lookup key to parameters. -/
abbrev ParamMap (X : Type) := GoMap (GoMap (List (Parameter (World X))))

/-- The test on the `ignore` tag in `process`: the tag is present and parses
as true. -/
def ignored (sf : StructField) : Bool :=
  match sf.Lookup ignoreTag with
  | none => false
  | some ignoreValue =>
    match ParseBool ignoreValue with
    | .ok ignoreValueBool => ignoreValueBool
    | .error _ => false

/-- The loop over `paramMap` in `process`, on the tag keys in the order
visited: the first one the field has a tag for, with the tag's value. -/
def findTag (sf : StructField) : List String → Option (String × String)
  | [] => none
  | tagKey :: rest =>
    match sf.Lookup tagKey with
    | none => findTag sf rest
    | some tagValue => some (tagKey, tagValue)

/-- The statement `sourceParams[tagValue] = append(sourceParams[tagValue], param)`
on the entry `paramMap[tagKey]`. -/
def register {X : Type} (paramMap : ParamMap X) (tagKey tagValue : String)
    (param : Parameter (World X)) : ParamMap X :=
  match paramMap.get? tagKey with
  | none => paramMap
  | some sourceParams =>
    paramMap.set tagKey
      (sourceParams.set tagValue
        ((match sourceParams.get? tagValue with
          | none => []
          | some ps => ps) ++ [param]))

mutual
/-- One iteration of the `for` loop of `process`, on the field `sf` whose
index path is `path`; `errs` are the errors appended so far. -/
def processField {X : Type} (rt : Runtime) (sourceKeys : List String) (sf : StructField) :
    Node → List Nat → ParamMap X → List Error → List Error × ParamMap X
  | .iface held, path, paramMap, errs =>
    ((match ErrorOrNil (processFields rt sourceKeys held path 0 paramMap []).1 with
      | some err => Append errs (some (.Wrap "error processing interface" err))
      | none => errs),
     (processFields rt sourceKeys held path 0 paramMap []).2)
  | .struct fields, path, paramMap, errs =>
    ((match ErrorOrNil (processFields rt sourceKeys fields path 0 paramMap []).1 with
      | some err => Append errs (some (.Wrap "error processing struct" err))
      | none => errs),
     (processFields rt sourceKeys fields path 0 paramMap []).2)
  | .leaf typ _, path, paramMap, errs =>
    if ignored sf = true then (errs, paramMap)
    else
      match getSetter rt typ with
      | .error err => (Append errs (some (.Wrap "error getting set function" err)), paramMap)
      | .ok setFn =>
        match findTag sf ((paramMap.range (rt.scanOrder path)).map Prod.fst) with
        | some (tagKey, tagValue) =>
          (errs, register paramMap tagKey tagValue
            (newParameter sf (fieldSetter path setFn) tagKey tagValue))
        | none =>
          match ParseBool (sf.Get requiredTag) with
          | .ok true =>
            (Append errs (some (.New ("error: the field " ++ sf.Name ++
              " was marked as required, but did not specify a struct tag for one of the provided sources: "
              ++ String.intercalate ", " sourceKeys))), paramMap)
          | _ => (errs, paramMap)
/-- The `for` loop of `process` from index `i` on: `fields` are the fields
from that index on of the record whose index path is `path`. -/
def processFields {X : Type} (rt : Runtime) (sourceKeys : List String) :
    List (StructField × Node) → List Nat → Nat → ParamMap X → List Error →
      List Error × ParamMap X
  | [], _, _, paramMap, errs => (errs, paramMap)
  | (sf, n) :: rest, path, i, paramMap, errs =>
    processFields rt sourceKeys rest path (i + 1)
      (processField rt sourceKeys sf n (path ++ [i]) paramMap errs).2
      (processField rt sourceKeys sf n (path ++ [i]) paramMap errs).1
end

/-- The function `process` on the record at index path `path` (the empty path
for the record `Process` is called with). -/
def process {X : Type} (rt : Runtime) (path : List Nat) (params : Record)
    (paramMap : ParamMap X) (sourceKeys : List String) : Option Error × ParamMap X :=
  (ErrorOrNil (processFields rt sourceKeys params path 0 paramMap []).1,
    (processFields rt sourceKeys params path 0 paramMap []).2)

/-- The loop of `processSources`. -/
def processSources.loop {X : Type} (rt : Runtime) (paramMap : ParamMap X) :
    List (Source (World X)) → List Error → World X → List Error × World X
  | [], errs, w => (errs, w)
  | s :: rest, errs, w =>
    match paramMap.get? s.TagKey with
    | none => processSources.loop rt paramMap rest errs w
    | some params =>
      if params.length = 0 then processSources.loop rt paramMap rest errs w
      else
        processSources.loop rt paramMap rest (Append errs (s.Process rt params w).1)
          (s.Process rt params w).2

/-- `processSources`. -/
def processSources {X : Type} (rt : Runtime) (sources : List (Source (World X)))
    (paramMap : ParamMap X) : World X → Option Error × World X :=
  fun w =>
    (ErrorOrNil (processSources.loop rt paramMap sources [] w).1,
      (processSources.loop rt paramMap sources [] w).2)

/-- The loop of `Process` that fills `paramMap` with an empty map per source:
the map, or the tag key met a second time. -/
def initParamMap {X : Type} : List (Source (World X)) → ParamMap X → Except String (ParamMap X)
  | [], paramMap => .ok paramMap
  | s :: rest, paramMap =>
    match paramMap.get? s.TagKey with
    | some _ => .error s.TagKey
    | none => initParamMap rest (paramMap.set s.TagKey [])

/-- The sources `Process` works with: those passed, and a `&EnvSource{}` after
them when none of them is a `*EnvSource`. -/
def withEnvSource {σ : Type} (sources : List (Source σ)) : List (Source σ) :=
  if sources.any Source.isEnvSource = true then sources
  else sources ++ [Source.env { Prefix := "", StrictCase := false }]

/-- `Process(params, sources...)`, `params` pointing to the record of the
state. -/
def Process {X : Type} (rt : Runtime) (sources : List (Source (World X))) :
    World X → Option Error × World X :=
  fun w =>
    match initParamMap (withEnvSource sources) [] with
    | .error key =>
      (some (.New ("error: multiple sources provided with the tag key " ++ key)), w)
    | .ok paramMap =>
      match process rt [] w.record paramMap ((withEnvSource sources).map Source.TagKey) with
      | (some err, _) => (some err, w)
      | (none, paramMap) => processSources rt (withEnvSource sources) paramMap w

/-! ## Stating the properties -/

/-- The parameter `P`, registered as number `i` under the lookup key `key`,
made to log each call of `SetValue` with the value passed. -/
def traced {σ : Type} (key : String) (i : Nat) (P : Parameter σ) :
    Parameter (σ × List (String × Nat × String)) :=
  { NoValue := fun w => ((P.NoValue w.1).1, ((P.NoValue w.1).2, w.2))
    SetValue := fun val w =>
      ((P.SetValue val w.1).1, ((P.SetValue val w.1).2, w.2 ++ [(key, i, val)])) }

/-- The parameters registered under `key`, numbered from `i`, each traced. -/
def tracedList {σ : Type} (key : String) :
    List (Parameter σ) → Nat → List (Parameter (σ × List (String × Nat × String)))
  | [], _ => []
  | P :: Ps, i => traced key i P :: tracedList key Ps (i + 1)

/-- The entries of a map of parameters, every parameter traced. -/
def tracedMap {σ : Type} (m : List (String × List (Parameter σ))) :
    List (String × List (Parameter (σ × List (String × Nat × String)))) :=
  m.map fun kv => (kv.1, tracedList kv.1 kv.2 0)

/-- The parameter `P`, registered as number `i` under the lookup key `key`,
made to log each call of `SetValue` with the value passed and the error the
call returned. -/
def noted {σ : Type} (key : String) (i : Nat) (P : Parameter σ) :
    Parameter (σ × List ((String × Nat × String) × Option Error)) :=
  { NoValue := fun w => ((P.NoValue w.1).1, ((P.NoValue w.1).2, w.2))
    SetValue := fun val w =>
      ((P.SetValue val w.1).1,
        ((P.SetValue val w.1).2, w.2 ++ [((key, i, val), (P.SetValue val w.1).1)])) }

/-- The parameters registered under `key`, numbered from `i`, each noted. -/
def notedList {σ : Type} (key : String) :
    List (Parameter σ) → Nat →
      List (Parameter (σ × List ((String × Nat × String) × Option Error)))
  | [], _ => []
  | P :: Ps, i => noted key i P :: notedList key Ps (i + 1)

/-- The entries of a map of parameters, every parameter noted. -/
def notedMap {σ : Type} (m : List (String × List (Parameter σ))) :
    List (String × List (Parameter (σ × List ((String × Nat × String) × Option Error)))) :=
  m.map fun kv => (kv.1, notedList kv.1 kv.2 0)

/-- One call per parameter of the entries, in order: parameter `i` of `key`
with the value of the environment variable of `key`. -/
def envCalls {σ : Type} (rt : Runtime) (e : EnvSource)
    (entries : List (String × List (Parameter σ))) : List (String × Nat × String) :=
  entries.flatMap fun kv => (List.range' 0 kv.2.length).map fun i => (kv.1, i, e.getEnvVar rt kv.1)

/-- The errors returned by the calls `s.Process(params)` that `processSources`
makes, in the order of the calls: one entry per source that has at least one
registered lookup key, each call starting from the state the call before it
left. -/
def resolveResults {X : Type} (rt : Runtime) (paramMap : ParamMap X) :
    List (Source (World X)) → World X → List (Option Error)
  | [], _ => []
  | s :: rest, w =>
    match paramMap.get? s.TagKey with
    | none => resolveResults rt paramMap rest w
    | some params =>
      if params.length = 0 then resolveResults rt paramMap rest w
      else (s.Process rt params w).1 :: resolveResults rt paramMap rest (s.Process rt params w).2

/-- The result step as the specification words it: the errors of traversal
and the errors of source resolution, all combined into one multi-error, the
sources being resolved whether or not traversal recorded an error. -/
def specAggregatedError {X : Type} (rt : Runtime) (sources : List (Source (World X)))
    (w : World X) : Option Error :=
  match initParamMap (withEnvSource sources) [] with
  | .error key => some (.New ("error: multiple sources provided with the tag key " ++ key))
  | .ok paramMap =>
    ErrorOrNil
      ((resolveResults rt
          (processFields rt ((withEnvSource sources).map Source.TagKey) w.record [] 0
            paramMap []).2
          (withEnvSource sources) w).foldl Append
        (processFields rt ((withEnvSource sources).map Source.TagKey) w.record [] 0
          paramMap []).1)

/-- The kinds `getSetter` has a case for. -/
def setterKinds : List Kind :=
  [.String, .Bool, .Float32, .Float64, .Int, .Int8, .Int16, .Int32, .Int64,
   .Uint, .Uint8, .Uint16, .Uint32, .Uint64, .Slice]

/-- The scalar types `getSetter` has a converter for: text, boolean, floats,
signed and unsigned integers. -/
def isScalar : Typ → Bool
  | .String => true
  | .Bool => true
  | .Float _ => true
  | .Int _ _ _ => true
  | .Uint _ => true
  | .Slice _ => false
  | .Other _ => false

/-- The state transformer `f` leaves every leaf field at `path` as it finds
it. -/
def KeepsField {X : Type} (path : List Nat) (f : World X → Option Error × World X) : Prop :=
  ∀ w sf typ val, fieldAt? w.record path = some (sf, .leaf typ val) →
    fieldAt? (f w).2.record path = some (sf, .leaf typ val)

/-- Neither method of the parameter touches the leaf field at `path`. -/
def Parameter.KeepsField {X : Type} (path : List Nat) (P : Parameter (World X)) : Prop :=
  GoConfig.KeepsField path P.NoValue ∧ ∀ val, GoConfig.KeepsField path (P.SetValue val)

/-- The source reaches the leaf field at `path` through the parameters it is
handed only: when none of them touches the field, neither does its `Process`. -/
def Source.KeepsField {X : Type} (rt : Runtime) (path : List Nat) (s : Source (World X)) :
    Prop :=
  ∀ params : GoMap (List (Parameter (World X))),
    (∀ key ps, (key, ps) ∈ params → ∀ P ∈ ps, P.KeepsField path) →
      GoConfig.KeepsField path (s.Process rt params)

/-- No parameter registered in `paramMap` touches the leaf field at `path`. -/
def paramMapKeeps {X : Type} (path : List Nat) (paramMap : ParamMap X) : Prop :=
  ∀ tagKey sourceParams, (tagKey, sourceParams) ∈ paramMap →
    ∀ key ps, (key, ps) ∈ sourceParams → ∀ P ∈ ps, Parameter.KeepsField path P

/-- The field `sf` is ignored, or has no tag for any of the tag keys `keys`. -/
def noSourceTag (keys : List String) (sf : StructField) : Prop :=
  ignored sf = true ∨ ∀ key ∈ keys, sf.Lookup key = none

/-- The field `sf` with node `n`, or the field reached from it by a non-empty
index path. -/
def fieldBelow (sf : StructField) (n : Node) : List Nat → Option (StructField × Node)
  | [] => some (sf, n)
  | i :: path => n.fieldAt? (i :: path)

/-! ## shared_test.go -/

/-- The loop of `mockSource.Process` of `shared_test.go` over the entries of
its input, visited in insertion order. -/
def mockSource.Process {σ : Type} (vars : List (String × String)) :
    List (String × List (Parameter σ)) → σ → Option Error × σ
  | [], w => (none, w)
  | (k, params) :: rest, w =>
    match setEach (match GoMap.get? vars k with | none => "" | some v => v) params w with
    | (some err, w1) => (some err, w1)
    | (none, w1) => mockSource.Process vars rest w1

/-- The test double `mockSource` of `shared_test.go`; the state the sources
keep is the list of the tag keys of the mock sources whose `Process` has run. -/
def mockSource (tagKey : String) (vars : List (String × String)) :
    Source (World (List String)) :=
  .other tagKey fun input w => mockSource.Process vars input { w with ext := w.ext ++ [tagKey] }

/-! ## Sample inputs -/

/-- Upper-casing of ASCII letters: what `strings.ToUpper` does on ASCII text. -/
def asciiUpper (s : String) : String :=
  String.mk (s.toList.map Char.toUpper)

/-- A 64-bit runtime whose environment holds the variables `env`, that visits
map keys in insertion order, and that knows the float and duration literals
used in the package's tests. -/
def sampleRuntime (env : List (String × String)) : Runtime :=
  { IntSize := 64
    ParseFloat := fun s _ =>
      if s = "3.14159" then .ok 0x400921F9F01B866E
      else .error (.NumError "ParseFloat" s .ErrSyntax)
    ParseDuration := fun s =>
      if s = "10s" then .ok 10000000000
      else .error (.New ("time: invalid duration " ++ s))
    ToUpper := asciiUpper
    Getenv := fun key =>
      match GoMap.get? env key with
      | none => ""
      | some v => v
    scanOrder := fun _ keys => keys
    envOrder := fun keys => keys }

/-- A parameter for an `int` field `Port` looked up as `PORT` in the
environment, its converter acting on the field's storage. -/
def portParam (required : Bool) (defaultValue : String) : parameter Value :=
  { fieldName := "Port"
    tagKey := "env"
    tagValue := "PORT"
    required := required
    defaultValue := defaultValue
    setFn := intSetter (sampleRuntime []) .Int "" "int" }

/-- A record with a required field that names no source and a required field
looked up in the environment. -/
def untaggedAndEnvRecord : Record :=
  [ ({ Name := "Name", Tag := [("required", "true")] }, .leaf .String (.String "")),
    ({ Name := "Port", Tag := [("env", "PORT"), ("required", "true")] },
      .leaf (.Int .Int "" "int") (.Int 0)) ]

/-- A record with a map field and a field looked up in the source `mock`. -/
def mapAndMockRecord : Record :=
  [ ({ Name := "Labels", Tag := [] }, .leaf (.Other .Map) .Other),
    ({ Name := "Host", Tag := [("mock", "host")] }, .leaf .String (.String "")) ]

/-- Two string fields looked up under the same environment variable: `A` is
required, `B` has the default `x`. -/
def sharedKeyRecord : Record :=
  [ ({ Name := "A", Tag := [("env", "KEY"), ("required", "true")] }, .leaf .String (.String "")),
    ({ Name := "B", Tag := [("env", "KEY"), ("default", "x")] }, .leaf .String (.String "")) ]

/-- The lookup keys `process` registers for `sharedKeyRecord` under `env`. -/
def sharedKeyParams : GoMap (List (Parameter (World Unit))) :=
  [ ("KEY",
      [ newParameter { Name := "A", Tag := [("env", "KEY"), ("required", "true")] }
          (fieldSetter [0] stringSetter) "env" "KEY",
        newParameter { Name := "B", Tag := [("env", "KEY"), ("default", "x")] }
          (fieldSetter [1] stringSetter) "env" "KEY" ]) ]

/-- A record whose only field is a nested record tagged `ignore:"true"`, with
a sub-field looked up in the environment. -/
def ignoredStructRecord : Record :=
  [ ({ Name := "Nested", Tag := [("ignore", "true")] },
      .struct
        [ ({ Name := "Inner", Tag := [("env", "INNER")] }, .leaf .String (.String "")) ]) ]

/-- A record with an `int` field that is ignored and also tagged for the
environment, required and defaulted, next to a field looked up in the
environment. -/
def ignoredLeafRecord : Record :=
  [ ({ Name := "TestTrueIgnore",
       Tag := [("ignore", "true"), ("env", "PORT"), ("required", "true"), ("default", "7")] },
      .leaf (.Int .Int "" "int") (.Int 0)),
    ({ Name := "Host", Tag := [("env", "HOST")] }, .leaf .String (.String "")) ]

/-- A record with a required field tagged for the source `mock` only, inside a
nested record, next to a field looked up in the environment. -/
def mockTaggedRecord : Record :=
  [ ({ Name := "Host", Tag := [("env", "HOST")] }, .leaf .String (.String "")),
    ({ Name := "Db", Tag := [] },
      .struct
        [ ({ Name := "TestStr", Tag := [("mock", "test-str"), ("required", "true")] },
            .leaf .String (.String "")) ]) ]

/-- A record with an optional field tagged for the source `mock` only, next
to a field looked up in the environment. -/
def optionalMockRecord : Record :=
  [ ({ Name := "Host", Tag := [("env", "HOST")] }, .leaf .String (.String "")),
    ({ Name := "TestStr", Tag := [("mock", "test-str")] }, .leaf .String (.String "")) ]

/-! ## ssm/ssm.go -/

/-- `strings.HasPrefix`. -/
def HasPrefix (s pfx : String) : Bool :=
  pfx.toList.isPrefixOf s.toList

/-- What package `ssm` reads of a `types.Parameter`: the pointers `Name` and
`Value`, `none` for a nil pointer. -/
structure StoreParameter where
  Name : Option String
  Value : Option String
  deriving DecidableEq, Repr

/-- The interface `ParamStore`: `GetParameters` on the `Names` of its input,
acting on the state `τ` of the store; the result is the `Parameters` of the
output, or the error. -/
abbrev ParamStore (τ : Type) := List String → τ → Except Error (List StoreParameter) × τ

/-- The standard library as package `ssm` sees it. -/
structure ssm.Runtime where
  /-- `strings.ToLower`. -/
  ToLower : String → String
  /-- The order in which `range paramMap` in `Source.Process` visits the keys. -/
  paramOrder : List String → List String
  /-- The order in which `range handlers` in `Source.Process` visits the keys. -/
  handlerOrder : List String → List String

/-- The struct `Source` of package `ssm`. -/
structure ssm.Source (τ : Type) where
  Prefix : String
  Ssm : ParamStore τ

/-- `Source.TagKey` of package `ssm`. -/
def ssm.Source.TagKey {τ : Type} (_s : ssm.Source τ) : String := "ssm"

/-- The function `contains` of package `ssm`. -/
def ssm.contains (haystack : List String) (needle : String) : Bool :=
  match haystack with
  | [] => false
  | v :: rest => if v = needle then true else ssm.contains rest needle

/-- The function `getParamName` of package `ssm`; `ToLower` is
`strings.ToLower`, `pfx` the argument `prefix`. -/
def ssm.getParamName (ToLower : String → String) (tagValue pfx : String) : String :=
  match Split (TrimSpace (ToLower tagValue)) ',' with
  | [] => ""
  | result :: modifiers =>
    if ((if (result :: modifiers).length > 1 then ssm.contains modifiers "absolute" else false)
        || HasPrefix result pfx) = true then
      result
    else
      pfx ++ result

/-- The first loop of `Source.getParameters`, with `i` its counter and
`parameters` what it has appended so far.  `fuel` bounds the number of
iterations left; `getParameters` passes `len(names)`, which is never used up
while `i < len(names)`. -/
def ssm.Source.getParameters.loop {τ : Type} (s : ssm.Source τ) (names : List String) :
    Nat → Nat → List StoreParameter → τ → Except Error (List StoreParameter) × τ
  | 0, _, parameters, t => (.ok parameters, t)
  | fuel + 1, i, parameters, t =>
    if i < names.length then
      match s.Ssm ((names.drop i).take
          ((if i + 10 > names.length then names.length else i + 10) - i)) t with
      | (.error err, t1) => (.error (.Wrap "error fetching items from param store" err), t1)
      | (.ok response, t1) =>
        ssm.Source.getParameters.loop s names fuel (i + 10) (parameters ++ response) t1
    else (.ok parameters, t)

/-- The second loop of `Source.getParameters`: `result[*p.Name] = *p.Value`
for every parameter with both pointers set. -/
def ssm.Source.getParameters.merge : List StoreParameter → GoMap String → GoMap String
  | [], result => result
  | p :: ps, result =>
    match p.Name, p.Value with
    | some name, some value => ssm.Source.getParameters.merge ps (result.set name value)
    | _, _ => ssm.Source.getParameters.merge ps result

/-- `Source.getParameters` of package `ssm`. -/
def ssm.Source.getParameters {τ : Type} (s : ssm.Source τ) (names : List String) :
    τ → Except Error (GoMap String) × τ :=
  fun t =>
    match ssm.Source.getParameters.loop s names names.length 0 [] t with
    | (.error err, t1) => (.error err, t1)
    | (.ok parameters, t1) => (.ok (ssm.Source.getParameters.merge parameters []), t1)

/-- The first loop of `Source.Process` of package `ssm` over the entries
visited: the `names` and `handlers` it builds. -/
def ssm.Source.Process.collect {σ : Type} (ToLower : String → String) (pfx : String) :
    List (String × List (Parameter σ)) → List String → GoMap (List (Parameter σ)) →
      List String × GoMap (List (Parameter σ))
  | [], names, handlers => (names, handlers)
  | (name, params) :: rest, names, handlers =>
    ssm.Source.Process.collect ToLower pfx rest
      (names ++ [ssm.getParamName ToLower name pfx])
      (handlers.set (ssm.getParamName ToLower name pfx) params)

/-- The last loop of `Source.Process` of package `ssm` over the entries of
`handlers` visited. -/
def ssm.Source.Process.loop {σ : Type} (parameters : GoMap String) :
    List (String × List (Parameter σ)) → σ → Option Error × σ
  | [], w => (none, w)
  | (name, params) :: rest, w =>
    match setEach (match parameters.get? name with | none => "" | some val => val) params w with
    | (some err, w1) => (some err, w1)
    | (none, w1) => ssm.Source.Process.loop parameters rest w1

/-- `Source.Process` of package `ssm`: the parameters act on a state `σ`, the
store on a state `τ`. -/
def ssm.Source.Process {σ τ : Type} (rt : ssm.Runtime) (s : ssm.Source τ)
    (paramMap : GoMap (List (Parameter σ))) : σ × τ → Option Error × (σ × τ) :=
  fun w =>
    match s.getParameters
        (ssm.Source.Process.collect rt.ToLower s.Prefix (paramMap.range rt.paramOrder) [] []).1
        w.2 with
    | (.error err, t1) => (some (.Wrap "error getting parameters" err), (w.1, t1))
    | (.ok parameters, t1) =>
      ((ssm.Source.Process.loop parameters
          (GoMap.range rt.handlerOrder
            (ssm.Source.Process.collect rt.ToLower s.Prefix
              (paramMap.range rt.paramOrder) [] []).2) w.1).1,
       ((ssm.Source.Process.loop parameters
          (GoMap.range rt.handlerOrder
            (ssm.Source.Process.collect rt.ToLower s.Prefix
              (paramMap.range rt.paramOrder) [] []).2) w.1).2, t1))

/-! ## ssm/ssm_test.go -/

/-- Lower-casing of ASCII letters: what `strings.ToLower` does on ASCII text. -/
def asciiLower (s : String) : String :=
  String.mk (s.toList.map Char.toLower)

/-- A runtime for package `ssm` that visits map keys in insertion order. -/
def ssm.sampleRuntime : ssm.Runtime :=
  { ToLower := asciiLower
    paramOrder := fun keys => keys
    handlerOrder := fun keys => keys }

/-- The test double `mockSsm` with `err` nil: it answers with the parameters
it has for the names asked; its state is the list of the batches asked. -/
def mockSsm (params : List (String × String)) : ParamStore (List (List String)) :=
  fun names t =>
    (.ok (names.filterMap fun n =>
        match GoMap.get? params n with
        | none => none
        | some p => some { Name := some n, Value := some p }),
      t ++ [names])

/-- The test double `mockSsm` with `err` set. -/
def mockSsmErr (err : Error) : ParamStore (List (List String)) :=
  fun names t => (.error err, t ++ [names])

/-- Whether `processSources` invokes the source: `paramMap` has an entry for
its tag key with at least one lookup key. -/
def hasLookupKeys {X : Type} (paramMap : ParamMap X) (s : Source (World X)) : Bool :=
  match paramMap.get? s.TagKey with
  | none => false
  | some params => params.length != 0

/-- One invocation by `processSources`: the source's `Process` runs on its
entry of `paramMap`, in the state `acc.2`, and what it returns is appended to
the errors `acc.1`. -/
def invoke {X : Type} (rt : Runtime) (paramMap : ParamMap X) (acc : List Error × World X)
    (s : Source (World X)) : List Error × World X :=
  match paramMap.get? s.TagKey with
  | none => acc
  | some params => (Append acc.1 (s.Process rt params acc.2).1, (s.Process rt params acc.2).2)

/-- A record with one field for each of the sources `a`, `b` and the
environment: the first is required. -/
def threeSourceRecord : Record :=
  [ ({ Name := "A", Tag := [("a", "ka"), ("required", "true")] }, .leaf .String (.String "")),
    ({ Name := "B", Tag := [("b", "kb")] }, .leaf .String (.String "")),
    ({ Name := "E", Tag := [("env", "KE")] }, .leaf .String (.String "")) ]

/-- A record with one field for the source `quiet`. -/
def quietRecord : Record :=
  [ ({ Name := "Host", Tag := [("quiet", "host")] }, .leaf .String (.String "")) ]

/-- A source whose `Process` touches nothing and returns a
`*multierror.Error` without errors in it. -/
def quietSource : Source (World Unit) :=
  .other "quiet" fun _ w => (some (.Multi []), w)

/-! ## Observing the calls of a store -/

/-- A call of `GetParameters` as the store sees it: the `Names` of the input
and what the call returned. -/
abbrev StoreCall := List String × Except Error (List StoreParameter)

/-- The `Parameters` of the output of a call, none for a call that failed. -/
def StoreCall.parameters (c : StoreCall) : List StoreParameter :=
  match c.2 with
  | .ok response => response
  | .error _ => []

/-- Whether the call returned an error. -/
def StoreCall.failed (c : StoreCall) : Bool :=
  match c.2 with
  | .ok _ => false
  | .error _ => true

/-- The store `store`, made to log each call of `GetParameters` with the
names passed and what it returned. -/
def watched {τ : Type} (store : ParamStore τ) : ParamStore (τ × List StoreCall) :=
  fun names t =>
    ((store names t.1).1, ((store names t.1).2, t.2 ++ [(names, (store names t.1).1)]))

/-- The source `s` with its store watched. -/
def ssm.Source.watched {τ : Type} (s : ssm.Source τ) : ssm.Source (τ × List StoreCall) :=
  { Prefix := s.Prefix, Ssm := GoConfig.watched s.Ssm }

/-- The groups of `specBatches`, `fuel` bounding their number. -/
def specBatches.go : Nat → List String → List (List String)
  | 0, _ => []
  | fuel + 1, names =>
    if names.length = 0 then []
    else names.take 10 :: specBatches.go fuel (names.drop 10)

/-- The batches as the specification words them: the names in groups of at
most 10, in order, every group but the last of 10. -/
def specBatches (names : List String) : List (List String) :=
  specBatches.go names.length names

/-- The value the specification's merged mapping holds for `name`: that of the
last entry of the responses that has this name and a value. -/
def lastValue (name : String) (ps : List StoreParameter) : Option String :=
  ps.reverse.findSome? fun p =>
    match p.Name, p.Value with
    | some n, some v => if n = name then some v else none
    | _, _ => none

/-- A store whose first call answers like `mockSsm` and whose later calls
fail with `err`; its state is the list of the batches asked. -/
def flakySsm (params : List (String × String)) (err : Error) : ParamStore (List (List String)) :=
  fun names t =>
    match t with
    | [] => mockSsm params names t
    | _ :: _ => mockSsmErr err names t

/-- The names `n0` to `n11`. -/
def twelveNames : List String :=
  ["n0", "n1", "n2", "n3", "n4", "n5", "n6", "n7", "n8", "n9", "n10", "n11"]

/-- The parameter `P`, made to log each call of its methods: `none` for a
call of `NoValue`, `some val` for a call of `SetValue(val)`. -/
def audited {σ : Type} (P : Parameter σ) : Parameter (σ × List (Option String)) :=
  { NoValue := fun w => ((P.NoValue w.1).1, ((P.NoValue w.1).2, w.2 ++ [none]))
    SetValue := fun val w =>
      ((P.SetValue val w.1).1, ((P.SetValue val w.1).2, w.2 ++ [some val])) }

/-- The entries of a map of parameters, every parameter audited. -/
def auditedMap {σ : Type} (m : List (String × List (Parameter σ))) :
    List (String × List (Parameter (σ × List (Option String)))) :=
  m.map fun kv => (kv.1, kv.2.map audited)

/-- A parameter that accepts every call and does nothing. -/
def idleParam : Parameter Unit :=
  { NoValue := fun w => (none, w)
    SetValue := fun _ w => (none, w) }

/-- One idle parameter under each of the twelve names. -/
def twelveParams : GoMap (List (Parameter Unit)) :=
  twelveNames.map fun n => (n, [idleParam])

/-- A record with two fields looked up in the remote store under tag values
that differ in case only, the first of them required. -/
def collidingRecord : Record :=
  [ ({ Name := "A", Tag := [("ssm", "KEY"), ("required", "true")] }, .leaf .String (.String "")),
    ({ Name := "B", Tag := [("ssm", "key")] }, .leaf .String (.String "")) ]

/-- The lookup keys `process` registers for `collidingRecord` under `ssm`. -/
def collidingParams : GoMap (List (Parameter (World Unit))) :=
  [ ("KEY",
      [ newParameter { Name := "A", Tag := [("ssm", "KEY"), ("required", "true")] }
          (fieldSetter [0] stringSetter) "ssm" "KEY" ]),
    ("key",
      [ newParameter { Name := "B", Tag := [("ssm", "key")] }
          (fieldSetter [1] stringSetter) "ssm" "key" ]) ]

/-- The field `Port int` looked up as `PORT` in the environment, required,
with the default `8080`. -/
def portField : StructField :=
  { Name := "Port", Tag := [("env", "PORT"), ("default", "8080"), ("required", "true")] }

/-- A required string field looked up in the environment whose default
annotation is the empty string. -/
def emptyDefaultRecord : Record :=
  [ ({ Name := "Name", Tag := [("env", "NAME"), ("default", ""), ("required", "true")] },
      .leaf .String (.String "")) ]

/-- An optional string field looked up in the environment whose default
annotation is the empty string, holding `old`. -/
def emptyDefaultHeldRecord : Record :=
  [ ({ Name := "Name", Tag := [("env", "NAME"), ("default", "")] },
      .leaf .String (.String "old")) ]

/-- The decimal literal of an integer: a minus sign for a negative number,
then the decimal digits without leading zeros (`strconv.FormatInt(n, 10)`). -/
def decimalLiteral (n : Int) : String :=
  Int.repr n

/-- The number a sequence of bytes that are decimal digits stands for, after
the digits that gave `acc`. -/
def digitsValue (acc : Nat) (bs : List Nat) : Nat :=
  bs.foldl (fun a c => a * 10 + (c - 48)) acc

/-! ## Comparing two records -/

/-- Two maps with the same keys in the same order, whose values are related
by `R` key by key. -/
def GoMap.Rel {V W : Type} (R : V → W → Prop) (m : GoMap V) (n : GoMap W) : Prop :=
  List.Forall₂ (fun e f => e.1 = f.1 ∧ R e.2 f.2) m n

/-- The parameter `Q` does to a state what `P` does to a related state: the
same error is returned and the states after the call are related again. -/
def Parameter.Sim {σ τ : Type} (Rel : σ → τ → Prop) (P : Parameter σ) (Q : Parameter τ) : Prop :=
  ∀ w v, Rel w v →
    ((P.NoValue w).1 = (Q.NoValue v).1 ∧ Rel (P.NoValue w).2 (Q.NoValue v).2) ∧
    ∀ val, (P.SetValue val w).1 = (Q.SetValue val v).1 ∧
      Rel (P.SetValue val w).2 (Q.SetValue val v).2

/-- The parameters registered for one source, lookup key by lookup key, are
the same in number and related one by one. -/
def ParamsSim {σ τ : Type} (Rel : σ → τ → Prop) (m : GoMap (List (Parameter σ)))
    (n : GoMap (List (Parameter τ))) : Prop :=
  GoMap.Rel (List.Forall₂ (Parameter.Sim Rel)) m n

/-- Two `paramMap`s with the same source tag keys and, under each, the same
lookup keys with related parameters. -/
def ParamMapSim {X : Type} (Rel : World X → World X → Prop) (m n : ParamMap X) : Prop :=
  GoMap.Rel (ParamsSim Rel) m n

/-- The source treats related parameters and related states alike, under the
runtimes `rt` and `rt2`. -/
def Source.Respects {X : Type} (rt rt2 : Runtime) (Rel : World X → World X → Prop)
    (s : Source (World X)) : Prop :=
  ∀ params params2 w v, ParamsSim Rel params params2 → Rel w v →
    (s.Process rt params w).1 = (s.Process rt2 params2 v).1 ∧
    Rel (s.Process rt params w).2 (s.Process rt2 params2 v).2

/-- The record `rn` has, as field number `k`, a nested record `sfP` with `m`
fields, and `rf` is `rn` with the fields of the nested record declared in its
place: the fields of both hold the same values. -/
def Nests (k m : Nat) (sfP : StructField) (rn rf : Record) : Prop :=
  ∃ pre subs post, pre.length = k ∧ subs.length = m ∧
    rn = pre ++ (sfP, .struct subs) :: post ∧ rf = pre ++ (subs ++ post)

/-- `Nests` on the records of two states that agree on what the sources keep. -/
def WorldNests {X : Type} (k m : Nat) (sfP : StructField) (w v : World X) : Prop :=
  Nests k m sfP w.record v.record ∧ w.ext = v.ext

/-- The index path `p` in a record with a nested record and the index path
`q` in the record with the nested fields declared in place lead to the same
field: a converter run at the one and at the other returns the same error and
leaves the records corresponding. -/
def PathSim (k m : Nat) (sfP : StructField) (p q : List Nat) : Prop :=
  ∀ (f : Value → Option Error × Value) (rn rf : Record), Nests k m sfP rn rf →
    (updateRecord f rn p).1 = (updateRecord f rf q).1 ∧
    Nests k m sfP (updateRecord f rn p).2 (updateRecord f rf q).2

/-- A record with the nested record `TestStruct` between two fields, as in
the test `ComplexNestedFields`: the nested field is required and looked up in
the environment. -/
def nestedRecord : Record :=
  [ ({ Name := "Host", Tag := [("env", "HOST")] }, .leaf .String (.String "")),
    ({ Name := "TestStruct", Tag := [] },
      .struct
        [ ({ Name := "NestedStr", Tag := [("env", "test-str"), ("required", "true")] },
            .leaf .String (.String "")) ]),
    ({ Name := "Port", Tag := [("env", "PORT"), ("default", "8080")] },
      .leaf (.Int .Int "" "int") (.Int 0)) ]

/-- The record `nestedRecord` with the field of `TestStruct` declared at the
top level. -/
def flatRecord : Record :=
  [ ({ Name := "Host", Tag := [("env", "HOST")] }, .leaf .String (.String "")),
    ({ Name := "NestedStr", Tag := [("env", "test-str"), ("required", "true")] },
      .leaf .String (.String "")),
    ({ Name := "Port", Tag := [("env", "PORT"), ("default", "8080")] },
      .leaf (.Int .Int "" "int") (.Int 0)) ]

/-- The sum of `f` over the values of a map. -/
def GoMap.total {V : Type} (f : V → Nat) (m : GoMap V) : Nat :=
  (m.map fun e => f e.2).sum

/-- The number of parameters registered in `paramMap`, over all source
groupings and lookup keys. -/
def paramCount {X : Type} (paramMap : ParamMap X) : Nat :=
  GoMap.total (GoMap.total List.length) paramMap

/-- A field of map type tagged for the environment. -/
def mapField : StructField × Node :=
  ({ Name := "Labels", Tag := [("env", "LABELS")] }, .leaf (.Other .Map) .Other)

/-- An `int` field tagged for the environment and marked `ignore:"true"`. -/
def ignoredEnvField : StructField × Node :=
  ({ Name := "Port", Tag := [("env", "PORT"), ("ignore", "true")] },
    .leaf (.Int .Int "" "int") (.Int 0))

/-- A string field tagged for the source `mock` and for the environment. -/
def twoTagField : StructField :=
  { Name := "Host", Tag := [("mock", "host"), ("env", "HOST")] }

mutual
/-- The errors of one field as the specification words them: an ignored field
records none; a field without a converter records the registry's error; a
field with a converter and a tag for one of the sources records none; a field
with a converter and no such tag records an error when it is required; a
nested record or non-empty interface records one error wrapping those of its
fields, when they record any. -/
def specFieldErrors (rt : Runtime) (sourceKeys : List String) (sf : StructField) :
    Node → List Error
  | .leaf typ _ =>
    if ignored sf = true then []
    else
      match getSetter rt typ with
      | .error err => [.Wrap "error getting set function" err]
      | .ok _ =>
        if sourceKeys.any (fun key => (sf.Lookup key).isSome) = true then []
        else
          match ParseBool (sf.Get requiredTag) with
          | .ok true =>
            [.New ("error: the field " ++ sf.Name ++
              " was marked as required, but did not specify a struct tag for one of the provided sources: "
              ++ String.intercalate ", " sourceKeys)]
          | _ => []
  | .struct fields =>
    match ErrorOrNil (specFieldsErrors rt sourceKeys fields) with
    | some err => [.Wrap "error processing struct" err]
    | none => []
  | .iface held =>
    match ErrorOrNil (specFieldsErrors rt sourceKeys held) with
    | some err => [.Wrap "error processing interface" err]
    | none => []
/-- The errors of the fields of a record as the specification words them:
those of each field, in the order of the fields. -/
def specFieldsErrors (rt : Runtime) (sourceKeys : List String) :
    List (StructField × Node) → List Error
  | [] => []
  | (sf, n) :: rest => specFieldErrors rt sourceKeys sf n ++ specFieldsErrors rt sourceKeys rest
end

/-- A record with a map, a tagged field whose variable is set, a required
field without a source tag, and a nested record holding a channel. -/
def unsupportedRecord : Record :=
  [ ({ Name := "Labels", Tag := [] }, .leaf (.Other .Map) .Other),
    ({ Name := "Host", Tag := [("env", "HOST")] }, .leaf .String (.String "")),
    ({ Name := "Name", Tag := [("required", "true")] }, .leaf .String (.String "")),
    ({ Name := "Inner", Tag := [] },
      .struct [ ({ Name := "Events", Tag := [] }, .leaf (.Other .Chan) .Other) ]) ]

/-- A record whose only field is a map. -/
def mapRecord : Record :=
  [ ({ Name := "Labels", Tag := [] }, .leaf (.Other .Map) .Other) ]

/-- A record with a required field that names no source, a field looked up in
the source `mock` and a field looked up in the environment. -/
def abortRecord : Record :=
  [ ({ Name := "Name", Tag := [("required", "true")] }, .leaf .String (.String "")),
    ({ Name := "Host", Tag := [("mock", "host")] }, .leaf .String (.String "")),
    ({ Name := "Port", Tag := [("env", "PORT")] }, .leaf (.Int .Int "" "int") (.Int 0)) ]

/-! # Theorems -/

/-! ## parameter.go -/

theorem parameter.set_eq {σ : Type} (p : parameter σ) (val : String) (w : σ) :
    p.set val w =
      ((p.setFn val w).1.map (Error.Wrap ("error setting value for field " ++ p.fieldName)),
        (p.setFn val w).2) := by
  unfold parameter.set
  rcases h : p.setFn val w with ⟨_ | err, w1⟩ <;> rfl

theorem parameter.NoValue_missing {σ : Type} (p : parameter σ) (w : σ)
    (hr : p.required = true) (hd : p.defaultValue = "") :
    p.NoValue w =
      (some (.New ("error: field " ++ p.fieldName ++
        " was specified as required, but was not found via key " ++ p.tagValue ++
        " in source " ++ p.tagKey)), w) := by
  simp [parameter.NoValue, hr, hd]

theorem parameter.NoValue_default {σ : Type} (p : parameter σ) (w : σ)
    (hd : p.defaultValue ≠ "") : p.NoValue w = p.set p.defaultValue w := by
  simp [parameter.NoValue, hd]

theorem parameter.NoValue_skip {σ : Type} (p : parameter σ) (w : σ)
    (hr : p.required = false) (hd : p.defaultValue = "") : p.NoValue w = (none, w) := by
  simp [parameter.NoValue, hr, hd]

theorem parameter.SetValue_empty {σ : Type} (p : parameter σ) (w : σ) :
    p.SetValue "" w = p.NoValue w := by
  simp [parameter.SetValue]

theorem parameter.SetValue_nonempty {σ : Type} (p : parameter σ) (val : String) (w : σ)
    (hv : val ≠ "") : p.SetValue val w = p.set val w := by
  simp [parameter.SetValue, hv]

/-- Recording the calls of the converter changes neither the error a call of
`set` returns nor what it does to the state. -/
theorem parameter.recorded_set {σ : Type} (p : parameter σ) (val : String) (w : σ)
    (log : List String) :
    p.recorded.set val (w, log) = ((p.set val w).1, ((p.set val w).2, log ++ [val])) := by
  rw [parameter.set_eq, parameter.set_eq]
  rfl

/-- C1. `NoValue`, run with a converter that records its calls in `log`:
a required parameter without default returns an error and the converter is
not called; with a non-empty default the converter is called exactly once,
with the default, and `NoValue` fails iff that call fails; a parameter neither
required nor defaulted returns nil, no call made and the state untouched. -/
theorem NoValue_policy {σ : Type} (p : parameter σ) (w : σ) (log : List String) :
    (p.required = true ∧ p.defaultValue = "" →
      (p.recorded.NoValue (w, log)).1.isSome = true ∧
      (p.recorded.NoValue (w, log)).2 = (w, log)) ∧
    (p.defaultValue ≠ "" →
      (p.recorded.NoValue (w, log)).2 =
        ((p.setFn p.defaultValue w).2, log ++ [p.defaultValue]) ∧
      (p.recorded.NoValue (w, log)).1.isSome = (p.setFn p.defaultValue w).1.isSome) ∧
    (p.required = false ∧ p.defaultValue = "" →
      p.recorded.NoValue (w, log) = (none, (w, log))) := by
  refine ⟨?_, ?_, ?_⟩
  · rintro ⟨hr, hd⟩
    rw [parameter.NoValue_missing _ _ (by exact hr) (by exact hd)]
    exact ⟨rfl, rfl⟩
  · intro hd
    rw [parameter.NoValue_default _ _ (by exact hd), parameter.set_eq]
    refine ⟨rfl, ?_⟩
    simp [parameter.recorded, recording]
  · rintro ⟨hr, hd⟩
    exact parameter.NoValue_skip _ _ hr hd

/-- C1 at three `int` parameters: required without default; default `8080`
(stored, one call); default `80a` (the call fails, so does `NoValue`); neither. -/
theorem NoValue_policy_witness :
    ((((portParam true "").recorded.NoValue (Value.Int 0, [])).1.isSome = true ∧
      ((portParam true "").recorded.NoValue (Value.Int 0, [])).2 = (Value.Int 0, [])) ∧
     (((portParam true "8080").recorded.NoValue (Value.Int 0, [])).2 =
        (Value.Int 8080, ["8080"])) ∧
     (((portParam false "80a").recorded.NoValue (Value.Int 0, [])).1.isSome = true) ∧
     ((portParam false "").recorded.NoValue (Value.Int 0, []) = (none, (Value.Int 0, [])))) :=
  ⟨(NoValue_policy (portParam true "") (Value.Int 0) []).1 ⟨rfl, rfl⟩,
   ((NoValue_policy (portParam true "8080") (Value.Int 0) []).2.1 (by decide)).1,
   ((NoValue_policy (portParam false "80a") (Value.Int 0) []).2.1 (by decide)).2,
   (NoValue_policy (portParam false "") (Value.Int 0) []).2.2 ⟨rfl, rfl⟩⟩

/-- C2. `SetValue(val)`, run with a converter that records its calls in `log`:
for the empty string it is `NoValue()`; for a non-empty one the converter is
called exactly once, with `val`, the error returned is the converter's error
wrapped with the field name (nil iff the converter succeeds), and neither the
default string nor the required flag has any influence. -/
theorem SetValue_contract {σ : Type} (p : parameter σ) (val : String) (w : σ)
    (log : List String) :
    (val = "" → p.recorded.SetValue val (w, log) = p.recorded.NoValue (w, log)) ∧
    (val ≠ "" →
      (p.recorded.SetValue val (w, log)).2 = ((p.setFn val w).2, log ++ [val]) ∧
      (p.recorded.SetValue val (w, log)).1 =
        (p.setFn val w).1.map (Error.Wrap ("error setting value for field " ++ p.fieldName)) ∧
      ∀ q : parameter σ, q.fieldName = p.fieldName → q.setFn = p.setFn →
        q.SetValue val w = p.SetValue val w) := by
  refine ⟨?_, ?_⟩
  · rintro rfl
    exact parameter.SetValue_empty _ _
  · intro hv
    rw [parameter.SetValue_nonempty _ _ _ hv, parameter.set_eq]
    refine ⟨rfl, rfl, ?_⟩
    intro q hn hf
    rw [parameter.SetValue_nonempty _ _ _ hv, parameter.SetValue_nonempty _ _ _ hv,
      parameter.set_eq, parameter.set_eq, hn, hf]

/-- C2 at an `int` parameter with default `8080`: the empty string goes to
`NoValue`; `9090` is stored by one call; `90x` fails, the error wraps the
converter's error with the field name, and the default is not used. -/
theorem SetValue_contract_witness :
    ((portParam true "8080").recorded.SetValue "" (Value.Int 0, []) =
        (portParam true "8080").recorded.NoValue (Value.Int 0, [])) ∧
    (((portParam true "8080").recorded.SetValue "9090" (Value.Int 0, [])).2 =
        (Value.Int 9090, ["9090"])) ∧
    (((portParam true "8080").recorded.SetValue "90x" (Value.Int 0, [])) =
        (some (Error.Wrap "error setting value for field Port"
          (Error.NumError "ParseInt" "90x" NumErr.ErrSyntax)), (Value.Int 0, ["90x"]))) :=
  ⟨(SetValue_contract (portParam true "8080") "" (Value.Int 0) []).1 rfl,
   ((SetValue_contract (portParam true "8080") "9090" (Value.Int 0) []).2 (by decide)).1,
   Prod.ext ((SetValue_contract (portParam true "8080") "90x" (Value.Int 0) []).2 (by decide)).2.1
     ((SetValue_contract (portParam true "8080") "90x" (Value.Int 0) []).2 (by decide)).1⟩

/-! ## Maps: lemmas -/

theorem GoMap.get?_eq_none_iff {V : Type} (m : GoMap V) (key : String) :
    m.get? key = none ↔ key ∉ m.keys := by
  induction m with
  | nil => simp [GoMap.get?, GoMap.keys]
  | cons kv rest ih =>
    obtain ⟨k, v⟩ := kv
    by_cases h : k = key
    · simp [GoMap.get?, GoMap.keys, h]
    · have ih' : GoMap.get? rest key = none ↔ key ∉ List.map Prod.fst rest := ih
      simp [GoMap.get?, GoMap.keys, h, ih', Ne.symm h]

theorem GoMap.get?_mem {V : Type} (m : GoMap V) (key : String) (v : V)
    (h : m.get? key = some v) : (key, v) ∈ m := by
  induction m with
  | nil => simp [GoMap.get?] at h
  | cons kv rest ih =>
    obtain ⟨k, v0⟩ := kv
    by_cases hk : k = key
    · simp [GoMap.get?, hk] at h
      simp [hk, h]
    · simp [GoMap.get?, hk] at h
      exact List.mem_cons_of_mem _ (ih h)

theorem GoMap.keys_set_of_not_mem {V : Type} (m : GoMap V) (key : String) (v : V)
    (h : key ∉ m.keys) : (m.set key v).keys = m.keys ++ [key] := by
  induction m with
  | nil => simp [GoMap.set, GoMap.keys]
  | cons kv rest ih =>
    obtain ⟨k, v0⟩ := kv
    have hk : k ≠ key := by
      intro e; apply h; simp [GoMap.keys, e]
    have hr : key ∉ GoMap.keys rest := by
      intro e; apply h; simp only [GoMap.keys, List.map_cons, List.mem_cons]; exact Or.inr e
    have := ih hr
    simp only [GoMap.keys] at this
    simp [GoMap.set, GoMap.keys, hk, this]

theorem GoMap.keys_set_of_mem {V : Type} (m : GoMap V) (key : String) (v : V)
    (h : key ∈ m.keys) : (m.set key v).keys = m.keys := by
  induction m with
  | nil => simp [GoMap.keys] at h
  | cons kv rest ih =>
    obtain ⟨k, v0⟩ := kv
    by_cases hk : k = key
    · simp [GoMap.set, GoMap.keys, hk]
    · have hr : key ∈ GoMap.keys rest := by
        simp only [GoMap.keys, List.map_cons, List.mem_cons] at h
        rcases h with h | h
        · exact absurd h.symm hk
        · exact h
      have := ih hr
      simp only [GoMap.keys] at this
      simp [GoMap.set, GoMap.keys, hk, this]

/-! ## Process: the source set -/

theorem initParamMap_ok {X : Type} (sources : List (Source (World X))) (paramMap : ParamMap X)
    (hnew : ∀ s ∈ sources, s.TagKey ∉ paramMap.keys)
    (hnodup : (sources.map Source.TagKey).Nodup) :
    ∃ pm, initParamMap sources paramMap = .ok pm ∧
      pm.keys = paramMap.keys ++ sources.map Source.TagKey := by
  induction sources generalizing paramMap with
  | nil => exact ⟨paramMap, rfl, by simp⟩
  | cons s rest ih =>
    have hs : s.TagKey ∉ paramMap.keys := hnew s (List.mem_cons_self _ _)
    have hget : paramMap.get? s.TagKey = none := (GoMap.get?_eq_none_iff _ _).2 hs
    rw [List.map_cons, List.nodup_cons] at hnodup
    have hkeys := GoMap.keys_set_of_not_mem paramMap s.TagKey ([] : GoMap (List (Parameter (World X)))) hs
    obtain ⟨pm, hpm, hk⟩ := ih (paramMap.set s.TagKey []) (by
      intro t ht
      rw [hkeys]
      intro hmem
      rcases List.mem_append.1 hmem with h | h
      · exact hnew t (List.mem_cons_of_mem _ ht) h
      · have : t.TagKey = s.TagKey := by simpa using h
        exact hnodup.1 (this ▸ List.mem_map_of_mem _ ht)) hnodup.2
    refine ⟨pm, ?_, ?_⟩
    · simp only [initParamMap, hget]
      exact hpm
    · rw [hk, hkeys]; simp

theorem initParamMap_error {X : Type} (sources : List (Source (World X))) (paramMap : ParamMap X)
    (h : ¬ ((∀ s ∈ sources, s.TagKey ∉ paramMap.keys) ∧ (sources.map Source.TagKey).Nodup)) :
    ∃ key, key ∈ sources.map Source.TagKey ∧ initParamMap sources paramMap = .error key := by
  induction sources generalizing paramMap with
  | nil => simp at h
  | cons s rest ih =>
    by_cases hs : s.TagKey ∈ paramMap.keys
    · have hget : paramMap.get? s.TagKey ≠ none := fun e => (GoMap.get?_eq_none_iff _ _).1 e hs
      refine ⟨s.TagKey, by simp, ?_⟩
      cases hg : paramMap.get? s.TagKey with
      | none => exact absurd hg hget
      | some v => simp [initParamMap, hg]
    · have hget : paramMap.get? s.TagKey = none := (GoMap.get?_eq_none_iff _ _).2 hs
      have hkeys := GoMap.keys_set_of_not_mem paramMap s.TagKey ([] : GoMap (List (Parameter (World X)))) hs
      obtain ⟨key, hk, he⟩ := ih (paramMap.set s.TagKey []) (by
        rintro ⟨h1, h2⟩
        apply h
        refine ⟨?_, ?_⟩
        · intro t ht
          rcases List.mem_cons.1 ht with rfl | ht
          · exact hs
          · intro hmem
            exact h1 t ht (by rw [hkeys]; exact List.mem_append_left _ hmem)
        · rw [List.map_cons, List.nodup_cons]
          refine ⟨?_, h2⟩
          intro hmem
          obtain ⟨t, ht, hte⟩ := List.mem_map.1 hmem
          exact h1 t ht (by rw [hkeys, hte]; simp))
      refine ⟨key, List.mem_cons_of_mem _ hk, ?_⟩
      simp only [initParamMap, hget]
      exact he

/-! ## multierror: lemmas -/

theorem ErrorOrNil_eq_none_iff (errs : List Error) : ErrorOrNil errs = none ↔ errs = [] := by
  cases errs <;> simp [ErrorOrNil]

theorem ErrorOrNil_eq_some (errs : List Error) (err : Error) (h : ErrorOrNil errs = some err) :
    err = .Multi errs ∧ errs ≠ [] := by
  cases errs with
  | nil => simp [ErrorOrNil] at h
  | cons e es =>
    simp only [ErrorOrNil, Option.some.injEq] at h
    exact ⟨h.symm, by simp⟩

theorem Append_eq_nil_iff (errs : List Error) (err : Option Error) :
    Append errs err = [] ↔ errs = [] ∧ (err = none ∨ err = some (.Multi [])) := by
  cases err with
  | none => simp [Append]
  | some e => cases e <;> simp [Append]

theorem foldl_Append_eq_nil_iff (rs : List (Option Error)) (errs : List Error) :
    rs.foldl Append errs = [] ↔
      errs = [] ∧ ∀ r ∈ rs, r = none ∨ r = some (.Multi []) := by
  induction rs generalizing errs with
  | nil => simp
  | cons r rest ih =>
    rw [List.foldl_cons, ih, Append_eq_nil_iff]
    constructor
    · rintro ⟨⟨h1, h2⟩, h3⟩
      refine ⟨h1, ?_⟩
      intro r' hr'
      rcases List.mem_cons.1 hr' with rfl | hr'
      · exact h2
      · exact h3 r' hr'
    · rintro ⟨h1, h2⟩
      exact ⟨⟨h1, h2 r (List.mem_cons_self _ _)⟩, fun r' hr' => h2 r' (List.mem_cons_of_mem _ hr')⟩

/-! ## processSources -/

theorem processSources.loop_errs {X : Type} (rt : Runtime) (paramMap : ParamMap X)
    (sources : List (Source (World X))) (errs : List Error) (w : World X) :
    (processSources.loop rt paramMap sources errs w).1 =
      (resolveResults rt paramMap sources w).foldl Append errs := by
  induction sources generalizing errs w with
  | nil => rfl
  | cons s rest ih =>
    simp only [processSources.loop, resolveResults]
    cases paramMap.get? s.TagKey with
    | none => exact ih errs w
    | some params =>
      by_cases hl : params.length = 0
      · simp only [hl, if_true]; exact ih errs w
      · simp only [hl, if_false, List.foldl_cons]; exact ih _ _

/-! ## Process -/

theorem Process_of_duplicate {X : Type} (rt : Runtime) (sources : List (Source (World X)))
    (w : World X) (key : String) (h : initParamMap (withEnvSource sources) [] = .error key) :
    Process rt sources w =
      (some (.New ("error: multiple sources provided with the tag key " ++ key)), w) := by
  simp only [Process, h]

theorem Process_of_traversal_error {X : Type} (rt : Runtime)
    (sources : List (Source (World X))) (w : World X) (paramMap : ParamMap X) (err : Error)
    (h : initParamMap (withEnvSource sources) [] = .ok paramMap)
    (ht : (process rt [] w.record paramMap ((withEnvSource sources).map Source.TagKey)).1 =
      some err) :
    Process rt sources w = (some err, w) := by
  simp only [Process, h]
  rcases hp : process rt [] w.record paramMap ((withEnvSource sources).map Source.TagKey) with
    ⟨e, pm⟩
  rw [hp] at ht
  simp only at ht
  subst ht
  rfl

theorem Process_of_traversal_ok {X : Type} (rt : Runtime)
    (sources : List (Source (World X))) (w : World X) (paramMap : ParamMap X)
    (h : initParamMap (withEnvSource sources) [] = .ok paramMap)
    (ht : (process rt [] w.record paramMap ((withEnvSource sources).map Source.TagKey)).1 =
      none) :
    Process rt sources w =
      processSources rt (withEnvSource sources)
        (process rt [] w.record paramMap ((withEnvSource sources).map Source.TagKey)).2 w := by
  simp only [Process, h]
  rcases hp : process rt [] w.record paramMap ((withEnvSource sources).map Source.TagKey) with
    ⟨e, pm⟩
  rw [hp] at ht
  simp only at ht
  subst ht
  rfl

theorem initParamMap_of_nodup {X : Type} (sources : List (Source (World X)))
    (h : (sources.map Source.TagKey).Nodup) :
    ∃ pm, initParamMap sources ([] : ParamMap X) = .ok pm ∧
      pm.keys = sources.map Source.TagKey := by
  obtain ⟨pm, h1, h2⟩ := initParamMap_ok sources [] (by simp [GoMap.keys]) h
  exact ⟨pm, h1, by simpa [GoMap.keys] using h2⟩

/-- C4. When two of the sources `Process` works with (those passed, and the
environment source it adds) have the same tag key, `Process` returns the
duplicate-key error and the state is the one before the call: the record is
not touched and no state any source keeps has changed, whatever the sources'
`Process` methods would do. -/
theorem Process_duplicate_tag_key {X : Type} (rt : Runtime)
    (sources : List (Source (World X))) (w : World X)
    (h : ¬ ((withEnvSource sources).map Source.TagKey).Nodup) :
    ∃ key, key ∈ (withEnvSource sources).map Source.TagKey ∧
      Process rt sources w =
        (some (.New ("error: multiple sources provided with the tag key " ++ key)), w) := by
  obtain ⟨key, hk, he⟩ := initParamMap_error (withEnvSource sources) ([] : ParamMap X)
    (fun hh => h hh.2)
  exact ⟨key, hk, Process_of_duplicate rt sources w key he⟩

/-- C4 at two mock sources with the tag key `mock`: the record, which has a
map field traversal would report, and the log of source calls are unchanged. -/
theorem Process_duplicate_tag_key_witness :
    ¬ ((withEnvSource [mockSource "mock" [("host", "a")], mockSource "mock" [("host", "b")]]).map
        Source.TagKey).Nodup ∧
    ∃ key, key ∈ (withEnvSource
        [mockSource "mock" [("host", "a")], mockSource "mock" [("host", "b")]]).map Source.TagKey ∧
      Process (sampleRuntime []) [mockSource "mock" [("host", "a")], mockSource "mock" [("host", "b")]]
          { record := mapAndMockRecord, ext := [] } =
        (some (.New ("error: multiple sources provided with the tag key " ++ key)),
          { record := mapAndMockRecord, ext := [] }) :=
  ⟨by decide, Process_duplicate_tag_key _ _ _ (by decide)⟩

theorem withEnvSource_of_env {σ : Type} (sources : List (Source σ))
    (h : sources.any Source.isEnvSource = true) : withEnvSource sources = sources := by
  simp only [withEnvSource, h, if_true]

theorem withEnvSource_of_no_env {σ : Type} (sources : List (Source σ))
    (h : sources.any Source.isEnvSource = false) :
    withEnvSource sources = sources ++ [Source.env { Prefix := "", StrictCase := false }] := by
  simp [withEnvSource, h]

/-- With distinct tag keys the error of `Process`, if any, is a multi-error:
that of traversal or that of source resolution. -/
theorem Process_error_of_nodup {X : Type} (rt : Runtime) (sources : List (Source (World X)))
    (w : World X) (h : ((withEnvSource sources).map Source.TagKey).Nodup) (err : Error)
    (he : (Process rt sources w).1 = some err) : ∃ errs, err = .Multi errs := by
  obtain ⟨pm, hpm, _⟩ := initParamMap_of_nodup (withEnvSource sources) h
  cases ht : (process rt [] w.record pm ((withEnvSource sources).map Source.TagKey)).1 with
  | some e =>
    rw [Process_of_traversal_error rt sources w pm e hpm ht] at he
    simp only [Option.some.injEq] at he
    subst he
    exact ⟨_, (ErrorOrNil_eq_some _ _ ht).1⟩
  | none =>
    rw [Process_of_traversal_ok rt sources w pm hpm ht] at he
    exact ⟨_, (ErrorOrNil_eq_some _ _ he).1⟩

/-- C3, amended. For sources with distinct tag keys: when traversal records
an error, `Process` returns exactly that error and the state is left as it
was, no source being resolved; when traversal records none, the error of
`Process` combines the errors returned by the `Process` calls of the sources
that have registered lookup keys.  The result is nil exactly when traversal
recorded no error and every such call returned nil or an empty multi-error. -/
theorem Process_error_combination {X : Type} (rt : Runtime)
    (sources : List (Source (World X))) (w : World X)
    (h : ((withEnvSource sources).map Source.TagKey).Nodup) :
    ∃ paramMap : ParamMap X, initParamMap (withEnvSource sources) [] = .ok paramMap ∧
      (∀ err,
        (process rt [] w.record paramMap ((withEnvSource sources).map Source.TagKey)).1 = some err →
          Process rt sources w = (some err, w)) ∧
      ((process rt [] w.record paramMap ((withEnvSource sources).map Source.TagKey)).1 = none →
        (Process rt sources w).1 =
          ErrorOrNil ((resolveResults rt
            (process rt [] w.record paramMap ((withEnvSource sources).map Source.TagKey)).2
            (withEnvSource sources) w).foldl Append [])) ∧
      ((Process rt sources w).1 = none ↔
        (process rt [] w.record paramMap ((withEnvSource sources).map Source.TagKey)).1 = none ∧
        ∀ r ∈ resolveResults rt
            (process rt [] w.record paramMap ((withEnvSource sources).map Source.TagKey)).2
            (withEnvSource sources) w,
          r = none ∨ r = some (.Multi [])) := by
  obtain ⟨pm, hpm, _⟩ := initParamMap_of_nodup (withEnvSource sources) h
  refine ⟨pm, hpm, ?_, ?_, ?_⟩
  · intro err ht
    exact Process_of_traversal_error rt sources w pm err hpm ht
  · intro ht
    rw [Process_of_traversal_ok rt sources w pm hpm ht]
    simp only [processSources, processSources.loop_errs]
  · cases ht : (process rt [] w.record pm ((withEnvSource sources).map Source.TagKey)).1 with
    | some e =>
      rw [Process_of_traversal_error rt sources w pm e hpm ht]
      simp
    | none =>
      rw [Process_of_traversal_ok rt sources w pm hpm ht]
      simp only [processSources, processSources.loop_errs, ErrorOrNil_eq_none_iff,
        foldl_Append_eq_nil_iff, true_and]

/-- C3, amended, at the record with a required field naming no source: the
traversal error is the whole result and the state is untouched. -/
theorem Process_error_combination_witness :
    ((withEnvSource ([] : List (Source (World Unit)))).map Source.TagKey).Nodup ∧
    ∃ paramMap : ParamMap Unit, initParamMap (withEnvSource []) [] = .ok paramMap ∧
      (∀ err,
        (process (sampleRuntime []) [] untaggedAndEnvRecord paramMap
            ((withEnvSource ([] : List (Source (World Unit)))).map Source.TagKey)).1 = some err →
          Process (sampleRuntime []) [] { record := untaggedAndEnvRecord, ext := () } =
            (some err, { record := untaggedAndEnvRecord, ext := () })) :=
  ⟨by decide,
   (Process_error_combination (sampleRuntime []) [] { record := untaggedAndEnvRecord, ext := () }
      (by decide)).imp fun _ hp => ⟨hp.1, hp.2.1⟩⟩

/-- C3 fails as stated. The record has a required field `Name` that names no
source and a required field `Port` looked up in the environment, which is
empty.  The specification's combination holds the traversal error for `Name`
and the error the environment source returns for `Port`; `Process` returns the
traversal error alone. -/
theorem Process_drops_source_errors :
    (Process (sampleRuntime []) [] { record := untaggedAndEnvRecord, ext := () }).1 =
        some (.Multi [.New ("error: the field Name was marked as required, but did not specify " ++
          "a struct tag for one of the provided sources: env")]) ∧
    specAggregatedError (sampleRuntime []) [] { record := untaggedAndEnvRecord, ext := () } =
        some (.Multi [.New ("error: the field Name was marked as required, but did not specify " ++
          "a struct tag for one of the provided sources: env"),
          .New ("error: field Port was specified as required, but was not found via key PORT " ++
            "in source env")]) ∧
    (Process (sampleRuntime []) [] { record := untaggedAndEnvRecord, ext := () }).1 ≠
      specAggregatedError (sampleRuntime []) [] { record := untaggedAndEnvRecord, ext := () } := by
  refine ⟨rfl, rfl, ?_⟩
  intro h
  have h1 : (Process (sampleRuntime []) [] { record := untaggedAndEnvRecord, ext := () }).1 =
      some (.Multi [.New ("error: the field Name was marked as required, but did not specify " ++
          "a struct tag for one of the provided sources: env")]) := rfl
  rw [h1] at h
  have h2 := congrArg (fun e => match e with
    | some (Error.Multi errs) => errs.length
    | _ => 0) h
  revert h2
  decide

/-- C5, amended. `Process` adds a default `EnvSource` after the caller's
sources exactly when none of them is a `*EnvSource`; for a caller's list with
distinct tag keys in which some source is a `*EnvSource` or none has the tag
key `env`, `Process` does not return the duplicate-key error. -/
theorem Process_env_source_injection {X : Type} (rt : Runtime)
    (sources : List (Source (World X))) (w : World X) :
    (sources.any Source.isEnvSource = false →
      withEnvSource sources = sources ++ [Source.env { Prefix := "", StrictCase := false }]) ∧
    (sources.any Source.isEnvSource = true → withEnvSource sources = sources) ∧
    ((sources.map Source.TagKey).Nodup →
      (sources.any Source.isEnvSource = true ∨ "env" ∉ sources.map Source.TagKey) →
      ∀ key, (Process rt sources w).1 ≠
        some (.New ("error: multiple sources provided with the tag key " ++ key))) := by
  refine ⟨withEnvSource_of_no_env sources, withEnvSource_of_env sources, ?_⟩
  intro hnd hor key he
  have hnd' : ((withEnvSource sources).map Source.TagKey).Nodup := by
    cases ha : sources.any Source.isEnvSource with
    | true => rw [withEnvSource_of_env sources ha]; exact hnd
    | false =>
      rw [withEnvSource_of_no_env sources ha, List.map_append]
      rcases hor with hor | hor
      · rw [ha] at hor; cases hor
      · refine List.Nodup.append hnd (by simp) ?_
        simp only [List.map_cons, List.map_nil, Source.TagKey, EnvSource.TagKey,
          List.disjoint_singleton]
        exact hor
  obtain ⟨errs, hm⟩ := Process_error_of_nodup rt sources w hnd' _ he
  cases hm

/-- C5, amended, at an explicit `EnvSource` with a prefix and a mock source. -/
theorem Process_env_source_injection_witness :
    (([Source.env { Prefix := "PREFIX_", StrictCase := false }, mockSource "mock" []].map
        Source.TagKey).Nodup) ∧
    ∀ key, (Process (sampleRuntime [])
        [Source.env { Prefix := "PREFIX_", StrictCase := false }, mockSource "mock" []]
        { record := mapAndMockRecord, ext := [] }).1 ≠
      some (.New ("error: multiple sources provided with the tag key " ++ key)) :=
  ⟨by decide,
   (Process_env_source_injection (sampleRuntime [])
      [Source.env { Prefix := "PREFIX_", StrictCase := false }, mockSource "mock" []]
      { record := mapAndMockRecord, ext := [] }).2.2 (by decide) (Or.inl rfl)⟩

/-- C5 fails as stated. The caller passes one source, of a type other than
`*EnvSource`, whose tag key is `env`: `Process` still adds an `EnvSource` and
returns the duplicate-key error. -/
theorem Process_rejects_custom_env_source :
    ([mockSource "env" [("PORT", "8080")]].map Source.TagKey).Nodup ∧
    withEnvSource [mockSource "env" [("PORT", "8080")]] =
      [mockSource "env" [("PORT", "8080")], Source.env { Prefix := "", StrictCase := false }] ∧
    Process (sampleRuntime []) [mockSource "env" [("PORT", "8080")]]
        { record := untaggedAndEnvRecord, ext := [] } =
      (some (.New "error: multiple sources provided with the tag key env"),
        { record := untaggedAndEnvRecord, ext := [] }) :=
  ⟨by decide, rfl, rfl⟩

/-! ## env.go -/

theorem GoMap.keys_map {V W : Type} (m : GoMap V) (f : String → V → W) :
    GoMap.keys (m.map fun kv => (kv.1, f kv.1 kv.2)) = m.keys := by
  simp [GoMap.keys, List.map_map, Function.comp_def]

theorem GoMap.get?_map {V W : Type} (m : GoMap V) (f : String → V → W) (key : String) :
    GoMap.get? (m.map fun kv => (kv.1, f kv.1 kv.2)) key = (m.get? key).map (f key) := by
  induction m with
  | nil => rfl
  | cons kv rest ih =>
    obtain ⟨k, v⟩ := kv
    by_cases h : k = key
    · subst h; simp [GoMap.get?]
    · simp only [List.map_cons, GoMap.get?, h, if_false]
      exact ih

theorem GoMap.range_map {V W : Type} (order : List String → List String) (m : GoMap V)
    (f : String → V → W) :
    GoMap.range order (m.map fun kv => (kv.1, f kv.1 kv.2)) =
      (m.range order).map fun kv => (kv.1, f kv.1 kv.2) := by
  simp only [GoMap.range, GoMap.keys_map, List.map_filterMap]
  congr 1
  funext key
  rw [GoMap.get?_map]
  cases m.get? key <;> rfl

theorem setEach_traced {σ : Type} (key val : String) (params : List (Parameter σ)) (i : Nat)
    (w : σ) (log : List (String × Nat × String)) :
    (setEach val (tracedList key params i) (w, log)).1 = (setEach val params w).1 ∧
    (setEach val (tracedList key params i) (w, log)).2.1 = (setEach val params w).2 ∧
    ∃ pre, pre <+: (List.range' i params.length).map (fun j => (key, j, val)) ∧
      (setEach val (tracedList key params i) (w, log)).2.2 = log ++ pre ∧
      ((setEach val params w).1 = none →
        pre = (List.range' i params.length).map (fun j => (key, j, val))) := by
  induction params generalizing i w log with
  | nil => exact ⟨rfl, rfl, [], by simp, by simp [setEach, tracedList], fun _ => by simp⟩
  | cons P Ps ih =>
    simp only [tracedList, setEach, traced]
    rcases hP : P.SetValue val w with ⟨_ | err, w1⟩
    · simp only
      obtain ⟨h1, h2, pre, hpre, hlog, hall⟩ := ih (i + 1) w1 (log ++ [(key, i, val)])
      refine ⟨h1, h2, (key, i, val) :: pre, ?_, ?_, ?_⟩
      · simp only [List.length_cons, List.range'_succ, List.map_cons]
        exact (List.prefix_cons_inj _).2 hpre
      · rw [hlog]; simp
      · intro hn
        rw [hall hn]
        simp [List.range'_succ]
    · simp only
      refine ⟨trivial, trivial, [(key, i, val)], ?_, rfl, ?_⟩
      · simp only [List.length_cons, List.range'_succ, List.map_cons]
        exact (List.prefix_cons_inj _).2 (List.nil_prefix)
      · intro hn; cases hn

theorem EnvSource.Process.loop_traced {σ : Type} (rt : Runtime) (e : EnvSource)
    (entries : List (String × List (Parameter σ))) (w : σ) (log : List (String × Nat × String)) :
    (EnvSource.Process.loop rt e (tracedMap entries) (w, log)).1 =
      (EnvSource.Process.loop rt e entries w).1 ∧
    (EnvSource.Process.loop rt e (tracedMap entries) (w, log)).2.1 =
      (EnvSource.Process.loop rt e entries w).2 ∧
    ∃ pre, pre <+: envCalls rt e entries ∧
      (EnvSource.Process.loop rt e (tracedMap entries) (w, log)).2.2 = log ++ pre ∧
      ((EnvSource.Process.loop rt e entries w).1 = none → pre = envCalls rt e entries) := by
  induction entries generalizing w log with
  | nil => exact ⟨rfl, rfl, [], by simp, by simp [tracedMap, EnvSource.Process.loop], fun _ => by simp [envCalls]⟩
  | cons kv rest ih =>
    obtain ⟨key, params⟩ := kv
    obtain ⟨h1, h2, pre, hpre, hlog, hall⟩ :=
      setEach_traced key (e.getEnvVar rt key) params 0 w log
    simp only [tracedMap, List.map_cons, EnvSource.Process.loop]
    rcases hr : setEach (e.getEnvVar rt key) (tracedList key params 0) (w, log) with ⟨r1, r2, r3⟩
    rcases hs : setEach (e.getEnvVar rt key) params w with ⟨s1, s2⟩
    rw [hr, hs] at h1 h2
    rw [hr] at hlog
    rw [hs] at hall
    dsimp only at h1 h2 hlog hall
    subst h1 h2 hlog
    cases r1 with
    | some err =>
      refine ⟨rfl, rfl, pre, ?_, rfl, ?_⟩
      · simp only [envCalls, List.flatMap_cons]
        exact hpre.trans (List.prefix_append _ _)
      · intro hn; cases hn
    | none =>
      simp only
      obtain ⟨g1, g2, pre', hpre', hlog', hall'⟩ := ih r2 (log ++ pre)
      have hp := hall rfl
      refine ⟨g1, g2, pre ++ pre', ?_, ?_, ?_⟩
      · simp only [envCalls, List.flatMap_cons]
        rw [hp]
        exact (List.prefix_append_right_inj _).2 hpre'
      · have : tracedMap rest = List.map (fun kv => (kv.1, tracedList kv.1 kv.2 0)) rest := rfl
        rw [← this, hlog']; simp
      · intro hn
        rw [hall' hn, hp]
        simp [envCalls]

theorem GoMap.get?_cons_of_ne {V : Type} (k key : String) (v : V) (rest : GoMap V)
    (h : k ≠ key) : GoMap.get? ((k, v) :: rest) key = GoMap.get? rest key := by
  simp [GoMap.get?, h]

theorem GoMap.get?_of_mem {V : Type} (m : GoMap V) (h : m.keys.Nodup) (key : String) (v : V)
    (hmem : (key, v) ∈ m) : m.get? key = some v := by
  induction m with
  | nil => cases hmem
  | cons kv rest ih =>
    obtain ⟨k, v0⟩ := kv
    simp only [GoMap.keys, List.map_cons, List.nodup_cons] at h
    rcases List.mem_cons.1 hmem with heq | hmem
    · simp only [Prod.mk.injEq] at heq
      simp [GoMap.get?, heq.1, heq.2]
    · have hne : k ≠ key := fun e => h.1 (e ▸ List.mem_map.2 ⟨(key, v), hmem, rfl⟩)
      rw [GoMap.get?_cons_of_ne k key v0 rest hne]
      exact ih h.2 hmem

theorem GoMap.filterMap_keys {V : Type} (m : GoMap V) (h : m.keys.Nodup) :
    (m.keys.filterMap fun key =>
      match m.get? key with
      | none => none
      | some v => some (key, v)) = m := by
  induction m with
  | nil => rfl
  | cons kv rest ih =>
    obtain ⟨k, v⟩ := kv
    simp only [GoMap.keys, List.map_cons, List.nodup_cons] at h
    have hhead : GoMap.get? ((k, v) :: rest) k = some v := by simp [GoMap.get?]
    simp only [GoMap.keys, List.map_cons, List.filterMap_cons, hhead]
    congr 1
    have := ih h.2
    simp only [GoMap.keys] at this
    conv_rhs => rw [← this]
    apply List.filterMap_congr
    intro key hkey
    have hne : k ≠ key := fun e => h.1 (e ▸ hkey)
    rw [GoMap.get?_cons_of_ne k key v rest hne]

theorem GoMap.range_perm {V : Type} (order : List String → List String) (m : GoMap V)
    (hk : m.keys.Nodup) (ho : (order m.keys).Perm m.keys) : (m.range order).Perm m := by
  have h := List.Perm.filterMap (fun key =>
      match m.get? key with
      | none => none
      | some v => some (key, v)) ho
  rw [GoMap.filterMap_keys m hk] at h
  exact h

theorem mem_envCalls {σ : Type} (rt : Runtime) (e : EnvSource)
    (entries : List (String × List (Parameter σ))) (key : String) (i : Nat) (val : String) :
    (key, i, val) ∈ envCalls rt e entries ↔
      ∃ params, (key, params) ∈ entries ∧ i < params.length ∧ val = e.getEnvVar rt key := by
  simp only [envCalls, List.mem_flatMap, List.mem_map, List.mem_range'_1, Prod.mk.injEq,
    Prod.exists]
  constructor
  · rintro ⟨k, params, hmem, j, ⟨_, hj⟩, rfl, rfl, rfl⟩
    exact ⟨params, hmem, by omega, rfl⟩
  · rintro ⟨params, hmem, hi, rfl⟩
    exact ⟨key, params, hmem, i, ⟨by omega, by omega⟩, rfl, rfl, rfl⟩

theorem nodup_envCalls {σ : Type} (rt : Runtime) (e : EnvSource)
    (m : GoMap (List (Parameter σ))) (hk : m.keys.Nodup) : (envCalls rt e m).Nodup := by
  induction m with
  | nil => simp [envCalls]
  | cons kv rest ih =>
    obtain ⟨k, params⟩ := kv
    simp only [GoMap.keys, List.map_cons, List.nodup_cons] at hk
    have hrest := ih hk.2
    simp only [envCalls, List.flatMap_cons] at hrest ⊢
    refine List.Nodup.append ?_ hrest ?_
    · refine List.Nodup.map ?_ (List.nodup_range' _ _)
      intro a b hab
      simp only [Prod.mk.injEq] at hab
      exact hab.2.1
    · intro c hc hc'
      simp only [List.mem_map, List.mem_range'_1] at hc
      obtain ⟨j, _, rfl⟩ := hc
      have := (mem_envCalls rt e rest k j (e.getEnvVar rt k)).1 hc'
      obtain ⟨ps, hmem, _, _⟩ := this
      exact hk.1 (List.mem_map.2 ⟨(k, ps), hmem, rfl⟩)

theorem setEach_noted {σ : Type} (key val : String) (params : List (Parameter σ)) (i : Nat)
    (w : σ) (log : List ((String × Nat × String) × Option Error)) :
    ∃ calls : List ((String × Nat × String) × Option Error),
      setEach val (notedList key params i) (w, log) =
        ((setEach val params w).1, ((setEach val params w).2, log ++ calls)) ∧
      calls.map Prod.fst <+: (List.range' i params.length).map (fun j => (key, j, val)) ∧
      ((setEach val params w).1 = none →
        calls.map Prod.fst = (List.range' i params.length).map (fun j => (key, j, val)) ∧
        ∀ c ∈ calls, c.2 = none) ∧
      (∀ err, (setEach val params w).1 = some err →
        ∃ pre c, calls = pre ++ [c] ∧ (∀ d ∈ pre, d.2 = none) ∧ c.2 = some err) := by
  induction params generalizing i w log with
  | nil =>
    refine ⟨[], by simp [setEach, notedList], by simp, ?_, ?_⟩
    · intro _
      exact ⟨by simp, fun c hc => by cases hc⟩
    · intro err h
      simp [setEach] at h
  | cons P Ps ih =>
    simp only [notedList, setEach, noted]
    rcases hP : P.SetValue val w with ⟨_ | err, w1⟩
    · simp only
      obtain ⟨calls, h1, h2, h3, h4⟩ := ih (i + 1) w1 (log ++ [((key, i, val), none)])
      refine ⟨((key, i, val), none) :: calls, ?_, ?_, ?_, ?_⟩
      · rw [h1]; simp
      · simp only [List.length_cons, List.range'_succ, List.map_cons]
        exact (List.prefix_cons_inj _).2 h2
      · intro hn
        obtain ⟨ha, hb⟩ := h3 hn
        refine ⟨by simp only [List.length_cons, List.range'_succ, List.map_cons, ha], ?_⟩
        intro c hc
        rcases List.mem_cons.1 hc with rfl | hc
        · rfl
        · exact hb c hc
      · intro e he
        obtain ⟨pre, c, hcalls, hpre, hc⟩ := h4 e he
        refine ⟨((key, i, val), none) :: pre, c, by rw [hcalls, List.cons_append], ?_, hc⟩
        intro d hd
        rcases List.mem_cons.1 hd with rfl | hd
        · rfl
        · exact hpre d hd
    · simp only
      refine ⟨[((key, i, val), some err)], rfl, ?_, ?_, ?_⟩
      · simp only [List.length_cons, List.range'_succ, List.map_cons]
        exact (List.prefix_cons_inj _).2 (List.nil_prefix)
      · intro hn; cases hn
      · intro e he
        simp only [Option.some.injEq] at he
        subst he
        exact ⟨[], _, rfl, (fun _ hd => by cases hd), rfl⟩

theorem EnvSource_loop_noted {σ : Type} (rt : Runtime) (e : EnvSource)
    (entries : List (String × List (Parameter σ))) (w : σ)
    (log : List ((String × Nat × String) × Option Error)) :
    ∃ calls : List ((String × Nat × String) × Option Error),
      EnvSource.Process.loop rt e (notedMap entries) (w, log) =
        ((EnvSource.Process.loop rt e entries w).1,
          ((EnvSource.Process.loop rt e entries w).2, log ++ calls)) ∧
      calls.map Prod.fst <+: envCalls rt e entries ∧
      ((EnvSource.Process.loop rt e entries w).1 = none →
        calls.map Prod.fst = envCalls rt e entries ∧ ∀ c ∈ calls, c.2 = none) ∧
      (∀ err, (EnvSource.Process.loop rt e entries w).1 = some err →
        ∃ pre c, calls = pre ++ [c] ∧ (∀ d ∈ pre, d.2 = none) ∧ c.2 = some err) := by
  induction entries generalizing w log with
  | nil =>
    refine ⟨[], by simp [notedMap, EnvSource.Process.loop], by simp, ?_, ?_⟩
    · intro _
      exact ⟨by simp [envCalls], fun c hc => by cases hc⟩
    · intro err h
      simp [EnvSource.Process.loop] at h
  | cons kv rest ih =>
    obtain ⟨key, params⟩ := kv
    obtain ⟨calls, h1, h2, h3, h4⟩ := setEach_noted key (e.getEnvVar rt key) params 0 w log
    have hmap : notedMap ((key, params) :: rest) =
        (key, notedList key params 0) :: notedMap rest := rfl
    simp only [hmap, EnvSource.Process.loop, h1]
    rcases hs : setEach (e.getEnvVar rt key) params w with ⟨_ | err, w1⟩
    · rw [hs] at h3 h4
      obtain ⟨ha, hb⟩ := h3 rfl
      obtain ⟨calls2, g1, g2, g3, g4⟩ := ih w1 (log ++ calls)
      refine ⟨calls ++ calls2, ?_, ?_, ?_, ?_⟩
      · have hg : EnvSource.Process.loop rt e
            (List.map (fun kv => (kv.1, notedList kv.1 kv.2 0)) rest) (w1, log ++ calls) =
            EnvSource.Process.loop rt e (notedMap rest) (w1, log ++ calls) := rfl
        dsimp only
        rw [hg, g1, List.append_assoc]
      · simp only [envCalls, List.flatMap_cons, List.map_append, ha]
        exact (List.prefix_append_right_inj _).2 g2
      · intro hn
        obtain ⟨hc, hd⟩ := g3 hn
        refine ⟨by simp only [envCalls, List.flatMap_cons, List.map_append, ha, hc], ?_⟩
        intro c hmem
        rcases List.mem_append.1 hmem with hmem | hmem
        · exact hb c hmem
        · exact hd c hmem
      · intro e2 he
        obtain ⟨pre, c, hcalls, hpre, hc⟩ := g4 e2 he
        refine ⟨calls ++ pre, c, by rw [hcalls, List.append_assoc], ?_, hc⟩
        intro d hd
        rcases List.mem_append.1 hd with hd | hd
        · exact hb d hd
        · exact hpre d hd
    · rw [hs] at h3 h4
      refine ⟨calls, rfl, ?_, ?_, ?_⟩
      · simp only [envCalls, List.flatMap_cons]
        exact h2.trans (List.prefix_append _ _)
      · intro hn; cases hn
      · intro e2 he
        exact h4 e2 he

/-- C6, amended. `EnvSource.Process`, run on parameters that log their
`SetValue` calls: tracing changes neither the error nor the state; the calls
made are an initial part of `envCalls`, the list that has one call per
parameter of each key visited, with the value of the key's environment
variable, so `Process` stops calling at the first error; when `Process`
returns nil the calls made are all of that list.  When the keys are visited in
a permutation of the map's keys, that list has, up to order, exactly one call
for every parameter registered under every key.  Run on parameters that log
each call together with the error it returned, which again changes neither
the error nor the state: when `Process` returns nil every call of the list has
been made and none has returned an error; when `Process` returns an error, the
last call made has returned that very error and no call before it has returned
one, so `Process` returns at the first call that returns an error, with that
error, and calls no parameter after it. -/
theorem EnvSource_Process_calls {σ : Type} (rt : Runtime) (e : EnvSource)
    (m : GoMap (List (Parameter σ))) (w : σ) (log : List (String × Nat × String)) :
    ((e.Process rt (tracedMap m) (w, log)).1 = (e.Process rt m w).1 ∧
      (e.Process rt (tracedMap m) (w, log)).2.1 = (e.Process rt m w).2) ∧
    (∃ pre, pre <+: envCalls rt e (m.range rt.envOrder) ∧
      (e.Process rt (tracedMap m) (w, log)).2.2 = log ++ pre ∧
      ((e.Process rt m w).1 = none → pre = envCalls rt e (m.range rt.envOrder))) ∧
    (m.keys.Nodup → (rt.envOrder m.keys).Perm m.keys →
      (envCalls rt e (m.range rt.envOrder)).Perm (envCalls rt e m) ∧
      (envCalls rt e m).Nodup ∧
      ∀ key i val, (key, i, val) ∈ envCalls rt e m ↔
        ∃ params, m.get? key = some params ∧ i < params.length ∧ val = e.getEnvVar rt key) ∧
    ((e.Process rt (notedMap m) (w, [])).1 = (e.Process rt m w).1 ∧
      (e.Process rt (notedMap m) (w, [])).2.1 = (e.Process rt m w).2) ∧
    ((e.Process rt (notedMap m) (w, [])).2.2.map Prod.fst <+:
      envCalls rt e (m.range rt.envOrder)) ∧
    ((e.Process rt m w).1 = none →
      (e.Process rt (notedMap m) (w, [])).2.2.map Prod.fst =
        envCalls rt e (m.range rt.envOrder) ∧
      ∀ c ∈ (e.Process rt (notedMap m) (w, [])).2.2, c.2 = none) ∧
    (∀ err, (e.Process rt m w).1 = some err →
      ∃ pre c, (e.Process rt (notedMap m) (w, [])).2.2 = pre ++ [c] ∧
        (∀ d ∈ pre, d.2 = none) ∧ c.2 = some err) := by
  have hrange : GoMap.range rt.envOrder (tracedMap m) = tracedMap (m.range rt.envOrder) :=
    GoMap.range_map rt.envOrder m (fun key params => tracedList key params 0)
  have hnoted : GoMap.range rt.envOrder (notedMap m) = notedMap (m.range rt.envOrder) :=
    GoMap.range_map rt.envOrder m (fun key params => notedList key params 0)
  have h := EnvSource.Process.loop_traced rt e (m.range rt.envOrder) w log
  obtain ⟨calls, n1, n2, n3, n4⟩ := EnvSource_loop_noted rt e (m.range rt.envOrder) w []
  simp only [EnvSource.Process, hrange, hnoted]
  rw [n1, List.nil_append]
  refine ⟨⟨h.1, h.2.1⟩, h.2.2, ?_, ⟨rfl, rfl⟩, n2, n3, n4⟩
  intro hk ho
  refine ⟨List.Perm.flatMap_right _ (GoMap.range_perm rt.envOrder m hk ho),
    nodup_envCalls rt e m hk, ?_⟩
  intro key i val
  rw [mem_envCalls]
  constructor
  · rintro ⟨params, hmem, hi, hv⟩
    exact ⟨params, GoMap.get?_of_mem m hk key params hmem, hi, hv⟩
  · rintro ⟨params, hget, hi, hv⟩
    exact ⟨params, GoMap.get?_mem m key params hget, hi, hv⟩

/-- C6, amended, at the two parameters registered under `KEY`.  The variable
being set, both are called, once each, and neither call returns an error.  The
variable not being set, `Process` returns the error of the first parameter, a
required field, and the calls made end with a call that returned that error,
no call before it having returned one. -/
theorem EnvSource_Process_calls_witness :
    (GoMap.keys sharedKeyParams).Nodup ∧
    ((sampleRuntime [("KEY", "v")]).envOrder (GoMap.keys sharedKeyParams)).Perm
      (GoMap.keys sharedKeyParams) ∧
    (envCalls (sampleRuntime [("KEY", "v")]) { Prefix := "", StrictCase := false }
        (GoMap.range (sampleRuntime [("KEY", "v")]).envOrder sharedKeyParams)).Perm
      (envCalls (sampleRuntime [("KEY", "v")]) { Prefix := "", StrictCase := false }
        sharedKeyParams) ∧
    (∃ pre, pre <+: envCalls (sampleRuntime [("KEY", "v")]) { Prefix := "", StrictCase := false }
        (GoMap.range (sampleRuntime [("KEY", "v")]).envOrder sharedKeyParams) ∧
      (EnvSource.Process (sampleRuntime [("KEY", "v")]) { Prefix := "", StrictCase := false }
        (tracedMap sharedKeyParams) ({ record := sharedKeyRecord, ext := () }, [])).2.2 =
        [] ++ pre ∧
      ((EnvSource.Process (sampleRuntime [("KEY", "v")]) { Prefix := "", StrictCase := false }
          sharedKeyParams { record := sharedKeyRecord, ext := () }).1 = none →
        pre = envCalls (sampleRuntime [("KEY", "v")]) { Prefix := "", StrictCase := false }
          (GoMap.range (sampleRuntime [("KEY", "v")]).envOrder sharedKeyParams))) ∧
    (EnvSource.Process (sampleRuntime [("KEY", "v")]) { Prefix := "", StrictCase := false }
        sharedKeyParams { record := sharedKeyRecord, ext := () }).1 = none ∧
    ((EnvSource.Process (sampleRuntime [("KEY", "v")]) { Prefix := "", StrictCase := false }
        (notedMap sharedKeyParams) ({ record := sharedKeyRecord, ext := () }, [])).2.2.map
        Prod.fst =
      envCalls (sampleRuntime [("KEY", "v")]) { Prefix := "", StrictCase := false }
        (GoMap.range (sampleRuntime [("KEY", "v")]).envOrder sharedKeyParams) ∧
      ∀ c ∈ (EnvSource.Process (sampleRuntime [("KEY", "v")])
          { Prefix := "", StrictCase := false } (notedMap sharedKeyParams)
          ({ record := sharedKeyRecord, ext := () }, [])).2.2, c.2 = none) ∧
    (EnvSource.Process (sampleRuntime []) { Prefix := "", StrictCase := false }
        sharedKeyParams { record := sharedKeyRecord, ext := () }).1 =
      some (.New "error: field A was specified as required, but was not found via key KEY in source env") ∧
    (∃ pre c, (EnvSource.Process (sampleRuntime []) { Prefix := "", StrictCase := false }
        (notedMap sharedKeyParams) ({ record := sharedKeyRecord, ext := () }, [])).2.2 =
        pre ++ [c] ∧
      (∀ d ∈ pre, d.2 = none) ∧
      c.2 = some (.New "error: field A was specified as required, but was not found via key KEY in source env")) :=
  ⟨by decide, List.Perm.refl _,
   ((EnvSource_Process_calls (sampleRuntime [("KEY", "v")]) { Prefix := "", StrictCase := false }
      sharedKeyParams { record := sharedKeyRecord, ext := () } []).2.2.1 (by decide)
      (List.Perm.refl _)).1,
   (EnvSource_Process_calls (sampleRuntime [("KEY", "v")]) { Prefix := "", StrictCase := false }
      sharedKeyParams { record := sharedKeyRecord, ext := () } []).2.1,
   rfl,
   (EnvSource_Process_calls (sampleRuntime [("KEY", "v")]) { Prefix := "", StrictCase := false }
      sharedKeyParams { record := sharedKeyRecord, ext := () } []).2.2.2.2.2.1 rfl,
   rfl,
   (EnvSource_Process_calls (sampleRuntime []) { Prefix := "", StrictCase := false }
      sharedKeyParams { record := sharedKeyRecord, ext := () } []).2.2.2.2.2.2
      (.New "error: field A was specified as required, but was not found via key KEY in source env")
      rfl⟩

/-- C6 fails as stated. Two parameters are registered under `KEY` and the
variable is not set: `SetValue` on the first, a required field, returns an
error, `Process` returns it, and `SetValue` is never called on the second, so
the field `B` does not get its default. -/
theorem EnvSource_Process_stops_at_first_error :
    (EnvSource.Process (sampleRuntime []) { Prefix := "", StrictCase := false }
        (tracedMap sharedKeyParams) ({ record := sharedKeyRecord, ext := () }, [])).1 =
      some (.New "error: field A was specified as required, but was not found via key KEY in source env") ∧
    (EnvSource.Process (sampleRuntime []) { Prefix := "", StrictCase := false }
        (tracedMap sharedKeyParams) ({ record := sharedKeyRecord, ext := () }, [])).2.2 =
      [("KEY", 0, "")] ∧
    envCalls (sampleRuntime []) { Prefix := "", StrictCase := false } sharedKeyParams =
      [("KEY", 0, ""), ("KEY", 1, "")] ∧
    (EnvSource.Process (sampleRuntime []) { Prefix := "", StrictCase := false }
        (tracedMap sharedKeyParams) ({ record := sharedKeyRecord, ext := () }, [])).2.2 ≠
      envCalls (sampleRuntime []) { Prefix := "", StrictCase := false } sharedKeyParams ∧
    (EnvSource.Process (sampleRuntime []) { Prefix := "", StrictCase := false }
        sharedKeyParams { record := sharedKeyRecord, ext := () }).2.record = sharedKeyRecord :=
  ⟨rfl, rfl, rfl, by decide, rfl⟩

/-! ## setter.go -/

theorem getSetter_error (rt : Runtime) (typ : Typ) (err : Error)
    (h : getSetter rt typ = .error err) : err = .ErrUnsupportedType ∧ ∃ k, typ = .Other k := by
  cases typ <;> simp [getSetter] at h
  exact ⟨h.symm, _, rfl⟩

theorem Split_ne_nil (s : String) (sep : Char) : Split s sep ≠ [] := by
  unfold Split
  have : splitChars sep s.toList ≠ [] := by
    generalize s.toList = l
    cases l with
    | nil => simp [splitChars]
    | cons c cs =>
      simp only [splitChars]
      split
      · simp
      · split <;> simp
  simpa using this

theorem sliceSetter.loop_error (err : Error) (zero : Value) (vals : List String)
    (h : vals ≠ []) : sliceSetter.loop (.error err) zero vals = .error err := by
  cases vals with
  | nil => exact absurd rfl h
  | cons v vs => rfl

theorem sliceSetter.loop_ok (fs : setter) (zero : Value) (vals : List String)
    (h : ∀ val ∈ vals, (fs val zero).1 = none) :
    sliceSetter.loop (.ok fs) zero vals = .ok (vals.map fun val => (fs val zero).2) := by
  induction vals with
  | nil => rfl
  | cons v vs ih =>
    have hv := h v (List.mem_cons_self _ _)
    have ih' := ih (fun val hval => h val (List.mem_cons_of_mem _ hval))
    simp only [sliceSetter.loop]
    rcases hfs : fs v zero with ⟨e, x⟩
    rw [hfs] at hv
    dsimp only at hv
    subst hv
    simp only [ih', List.map_cons, hfs]

/-- C10, amended. `getSetter` returns a converter exactly for the kinds
String, Bool, Float32/64, Int to Int64, Uint to Uint64 and Slice, and
`ErrUnsupportedType` for every other kind.  A slice gets a converter whatever
its element type: when the element type has none, that converter returns
`ErrUnsupportedType`, the field untouched, on every input that is not blank,
and stores an empty slice on a blank one. -/
theorem getSetter_kinds (rt : Runtime) (typ : Typ) :
    ((∃ fs, getSetter rt typ = .ok fs) ↔ typ.Kind ∈ setterKinds) ∧
    (typ.Kind ∉ setterKinds → getSetter rt typ = .error .ErrUnsupportedType) ∧
    (∀ elem, typ = .Slice elem → elem.Kind ∉ setterKinds →
      ∃ fs, getSetter rt typ = .ok fs ∧
        ∀ s f, (((TrimSpace s).length > 0 → fs s f = (some .ErrUnsupportedType, f)) ∧
          ((TrimSpace s).length = 0 → fs s f = (none, .Slice (some []))))) := by
  refine ⟨?_, ?_, ?_⟩
  · cases typ with
    | Float k => exact ⟨fun _ => by cases k <;> decide, fun _ => ⟨_, rfl⟩⟩
    | Int k p n =>
      exact ⟨fun _ => by cases k <;> simp [Typ.Kind, IntKind.toKind, setterKinds],
        fun _ => ⟨_, rfl⟩⟩
    | Uint k => exact ⟨fun _ => by cases k <;> decide, fun _ => ⟨_, rfl⟩⟩
    | Other k =>
      refine ⟨?_, fun h => absurd h (by cases k <;> decide)⟩
      rintro ⟨fs, h⟩
      cases h
    | String => exact ⟨fun _ => by decide, fun _ => ⟨_, rfl⟩⟩
    | Bool => exact ⟨fun _ => by decide, fun _ => ⟨_, rfl⟩⟩
    | Slice elem => exact ⟨fun _ => by simp [Typ.Kind, setterKinds], fun _ => ⟨_, rfl⟩⟩
  · intro hk
    cases typ with
    | Float k => exact absurd (by cases k <;> decide) hk
    | Int k p n => exact absurd (by cases k <;> simp [Typ.Kind, IntKind.toKind, setterKinds]) hk
    | Uint k => exact absurd (by cases k <;> decide) hk
    | Other k => rfl
    | String => exact absurd (by decide) hk
    | Bool => exact absurd (by decide) hk
    | Slice elem => exact absurd (by simp [Typ.Kind, setterKinds]) hk
  · rintro elem rfl hk
    have he : getSetter rt elem = .error .ErrUnsupportedType := by
      cases elem with
      | Float k => exact absurd (by cases k <;> decide) hk
      | Int k p n => exact absurd (by cases k <;> simp [Typ.Kind, IntKind.toKind, setterKinds]) hk
      | Uint k => exact absurd (by cases k <;> decide) hk
      | Other k => rfl
      | String => exact absurd (by decide) hk
      | Bool => exact absurd (by decide) hk
      | Slice elem => exact absurd (by simp [Typ.Kind, setterKinds]) hk
    have h8 : elem.Kind ≠ .Uint8 := by
      intro e; apply hk; rw [e]; decide
    refine ⟨_, rfl, ?_⟩
    intro s f
    simp only [sliceSetter, h8, if_false, he]
    constructor
    · intro hpos
      simp only [hpos, if_true]
      rw [sliceSetter.loop_error _ _ _ (Split_ne_nil s ',')]
    · intro hz
      simp [hz]

/-- C10, amended, at a map type and at a slice of channels. -/
theorem getSetter_kinds_witness :
    ((Typ.Other OtherKind.Map).Kind ∉ setterKinds) ∧
    getSetter (sampleRuntime []) (.Other .Map) = .error .ErrUnsupportedType ∧
    ((Typ.Other OtherKind.Chan).Kind ∉ setterKinds) ∧
    ∃ fs, getSetter (sampleRuntime []) (.Slice (.Other .Chan)) = .ok fs ∧
        ∀ s f, (((TrimSpace s).length > 0 → fs s f = (some .ErrUnsupportedType, f)) ∧
          ((TrimSpace s).length = 0 → fs s f = (none, .Slice (some [])))) :=
  ⟨by decide, (getSetter_kinds (sampleRuntime []) (.Other .Map)).2.1 (by decide), by decide,
   (getSetter_kinds (sampleRuntime []) (.Slice (.Other .Chan))).2.2 (.Other .Chan) rfl (by decide)⟩

/-- C10 fails as stated. `getSetter` returns a converter, not
`ErrUnsupportedType`, for a slice of maps (the converter stores an empty slice
on a blank input) and for a slice of slices of strings (the converter turns
`a,b` into two one-element slices). -/
theorem getSetter_accepts_any_slice :
    (∃ fs, getSetter (sampleRuntime []) (.Slice (.Other .Map)) = .ok fs ∧
      fs " " (.Slice none) = (none, .Slice (some []))) ∧
    (∃ fs, getSetter (sampleRuntime []) (.Slice (.Slice .String)) = .ok fs ∧
      fs "a,b" (.Slice none) =
        (none, .Slice (some [.Slice (some [.String "a"]), .Slice (some [.String "b"])]))) ∧
    getSetter (sampleRuntime []) (.Slice (.Other .Map)) ≠ .error .ErrUnsupportedType ∧
    getSetter (sampleRuntime []) (.Slice (.Slice .String)) ≠ .error .ErrUnsupportedType := by
  refine ⟨⟨_, rfl, rfl⟩, ⟨_, rfl, rfl⟩, ?_, ?_⟩ <;> intro h <;> cases h

theorem forall_mem_dropWhile_iff {α : Type} (p : α → Bool) (l : List α) :
    (∀ x ∈ l.dropWhile p, p x = true) ↔ ∀ x ∈ l, p x = true := by
  induction l with
  | nil => simp
  | cons a l ih =>
    by_cases ha : p a = true
    · simp [List.dropWhile_cons, ha, ih]
    · simp [List.dropWhile_cons, ha]

theorem TrimSpace_length_eq_zero_iff (s : String) :
    (TrimSpace s).length = 0 ↔ s.toList.all isSpace = true := by
  unfold TrimSpace
  rw [String.length, List.length_eq_zero, List.reverse_eq_nil_iff, List.dropWhile_eq_nil_iff]
  simp only [List.mem_reverse, forall_mem_dropWhile_iff, List.all_eq_true]

theorem splitChars_length (sep : Char) (l : List Char) :
    (splitChars sep l).length = l.count sep + 1 := by
  induction l with
  | nil => rfl
  | cons c cs ih =>
    by_cases h : c = sep
    · subst h
      simp [splitChars, ih]
    · have hne : (c == sep) = false := by simpa using h
      simp only [splitChars, h, if_false, List.count_cons, hne]
      cases hs : splitChars sep cs with
      | nil => rw [hs] at ih; simp at ih
      | cons tok toks => rw [hs] at ih; simpa using ih

theorem splitChars_intercalate (sep : Char) (l : List Char) :
    List.intercalate [sep] (splitChars sep l) = l ∧ ∀ tok ∈ splitChars sep l, sep ∉ tok := by
  induction l with
  | nil => simp [splitChars, List.intercalate]
  | cons c cs ih =>
    by_cases h : c = sep
    · subst h
      simp only [splitChars, if_true]
      refine ⟨?_, ?_⟩
      · cases hs : splitChars c cs with
        | nil => have := splitChars_length c cs; rw [hs] at this; simp at this
        | cons tok toks =>
          have := ih.1
          rw [hs] at this
          simp only [List.intercalate, List.intersperse_cons₂, List.flatten_cons,
            List.nil_append, List.singleton_append] at this ⊢
          cases toks with
          | nil => simp [List.intersperse] at this ⊢; exact this
          | cons t ts =>
            simp only [List.intersperse_cons₂, List.flatten_cons, List.singleton_append] at this ⊢
            rw [this]
      · intro tok htok
        rcases List.mem_cons.1 htok with rfl | htok
        · simp
        · exact ih.2 tok htok
    · simp only [splitChars, h, if_false]
      cases hs : splitChars sep cs with
      | nil => have := splitChars_length sep cs; rw [hs] at this; simp at this
      | cons tok toks =>
        rw [hs] at ih
        refine ⟨?_, ?_⟩
        · have := ih.1
          cases toks with
          | nil => simp [List.intercalate, List.intersperse] at this ⊢; exact this
          | cons t ts =>
            simp only [List.intercalate, List.intersperse_cons₂, List.flatten_cons,
              List.cons_append] at this ⊢
            rw [this]
        · intro tok' htok'
          rcases List.mem_cons.1 htok' with rfl | htok'
          · intro hmem
            rcases List.mem_cons.1 hmem with e | e
            · exact h e.symm
            · exact ih.2 tok (List.mem_cons_self _ _) e
          · exact ih.2 tok' (List.mem_cons_of_mem _ htok')

theorem Split_length (s : String) (sep : Char) :
    (Split s sep).length = s.toList.count sep + 1 := by
  simp [Split, splitChars_length]

theorem getSetter_scalar (rt : Runtime) (elem : Typ) (h : isScalar elem = true) :
    ∃ fe, getSetter rt elem = .ok fe := by
  cases elem <;> first | exact ⟨_, rfl⟩ | cases h

/-- C9, amended. For a slice whose element type is a supported scalar other
than `uint8`, `getSetter` has a converter `fe` for the element type and
returns `sliceSetter` for the slice.  On an empty or all-whitespace string
that converter stores a non-nil slice of length zero; on any other string,
provided every token converts, it stores the conversions of the tokens in
order.  The tokens are the pieces of the string between its commas, untrimmed:
one more than there are commas, none containing a comma, and joined by commas
they give the string back. -/
theorem sliceSetter_elements (rt : Runtime) (elem : Typ)
    (hs : isScalar elem = true) (h8 : elem.Kind ≠ .Uint8) (s : String) (f : Value) :
    ∃ fe, getSetter rt elem = .ok fe ∧
      getSetter rt (.Slice elem) = .ok (sliceSetter elem (.ok fe)) ∧
      (s.toList.all isSpace = true →
        sliceSetter elem (.ok fe) s f = (none, .Slice (some []))) ∧
      (s.toList.all isSpace = false → (∀ tok ∈ Split s ',', (fe tok elem.zero).1 = none) →
        sliceSetter elem (.ok fe) s f =
          (none, .Slice (some ((Split s ',').map fun tok => (fe tok elem.zero).2)))) ∧
      ((Split s ',').map fun tok => (fe tok elem.zero).2).length = s.toList.count ',' + 1 ∧
      List.intercalate [','] ((Split s ',').map String.toList) = s.toList ∧
      (∀ tok ∈ Split s ',', ',' ∉ tok.toList) := by
  obtain ⟨fe, hfe⟩ := getSetter_scalar rt elem hs
  refine ⟨fe, hfe, ?_, ?_, ?_, ?_, ?_, ?_⟩
  · simp only [getSetter, hfe]
  · intro hb
    have hz := (TrimSpace_length_eq_zero_iff s).2 hb
    simp only [sliceSetter, h8, if_false, hz, lt_irrefl, gt_iff_lt]
  · intro hb hok
    have hz : (TrimSpace s).length > 0 := by
      rcases Nat.eq_zero_or_pos (TrimSpace s).length with h | h
      · rw [(TrimSpace_length_eq_zero_iff s).1 h] at hb; cases hb
      · exact h
    simp only [sliceSetter, h8, if_false, hz, if_true, sliceSetter.loop_ok fe _ _ hok]
  · rw [List.length_map, Split_length]
  · have := (splitChars_intercalate ',' s.toList).1
    simpa [Split, List.map_map, Function.comp_def] using this
  · intro tok htok
    simp only [Split, List.mem_map] at htok
    obtain ⟨l, hl, rfl⟩ := htok
    exact (splitChars_intercalate ',' s.toList).2 l hl

/-- C9, amended, at a slice of strings: `a,b,c` gives the three strings, a
blank string the empty slice. -/
theorem sliceSetter_elements_witness :
    (isScalar Typ.String = true ∧ Typ.String.Kind ≠ Kind.Uint8 ∧
      "a,b,c".toList.all isSpace = false ∧ "  ".toList.all isSpace = true) ∧
    (∃ conv, getSetter (sampleRuntime []) (.Slice .String) = .ok conv ∧
      conv "a,b,c" (.Slice none) =
        (none, .Slice (some [.String "a", .String "b", .String "c"])) ∧
      conv "  " (.Slice none) = (none, .Slice (some []))) := by
  refine ⟨by decide, ?_⟩
  obtain ⟨fe, hfe, hconv, _, htok, _⟩ :=
    sliceSetter_elements (sampleRuntime []) .String rfl (by decide) "a,b,c" (.Slice none)
  obtain ⟨fe', hfe', _, hblank, _⟩ :=
    sliceSetter_elements (sampleRuntime []) .String rfl (by decide) "  " (.Slice none)
  cases hfe
  cases hfe'
  exact ⟨_, hconv, htok (by decide) (fun _ _ => rfl), hblank (by decide)⟩

/-- C9 fails as stated. On a slice of `int` and the string `1,x`, which is not
blank and has one comma, the converter returns the parse error of `x` and the
field keeps what it held, here the nil slice: no two-element slice is stored. -/
theorem sliceSetter_stores_nothing_on_bad_token :
    isScalar (Typ.Int .Int "" "int") = true ∧ (Typ.Int .Int "" "int").Kind ≠ Kind.Uint8 ∧
    "1,x".toList.all isSpace = false ∧ "1,x".toList.count ',' + 1 = 2 ∧
    ∃ conv, getSetter (sampleRuntime []) (.Slice (.Int .Int "" "int")) = .ok conv ∧
      conv "1,x" (.Slice none) =
        (some (.NumError "ParseInt" "x" .ErrSyntax), .Slice none) :=
  ⟨by decide, by decide, by decide, by decide, _, rfl, rfl⟩

/-! ## Fields a call leaves alone -/

mutual
theorem Node.fieldAt?_update (f : Value → Option Error × Value) (sfT : StructField)
    (typ : Typ) (val : Value) :
    ∀ (n : Node) (q p : List Nat), p ≠ q →
      n.fieldAt? p = some (sfT, .leaf typ val) →
      (n.update f q).2.fieldAt? p = some (sfT, .leaf typ val)
  | .leaf _ _, _, _, _, h => by simp [Node.fieldAt?] at h
  | .struct fields, q, p, hne, h => by
    simp only [Node.update, Node.fieldAt?] at h ⊢
    exact fieldAt?_updateRecord f sfT typ val fields q p hne h
  | .iface held, q, p, hne, h => by
    simp only [Node.update, Node.fieldAt?] at h ⊢
    exact fieldAt?_updateRecord f sfT typ val held q p hne h
theorem fieldAt?_updateRecord (f : Value → Option Error × Value) (sfT : StructField)
    (typ : Typ) (val : Value) :
    ∀ (fields : List (StructField × Node)) (q p : List Nat), p ≠ q →
      fieldAt? fields p = some (sfT, .leaf typ val) →
      fieldAt? (updateRecord f fields q).2 p = some (sfT, .leaf typ val)
  | [], _, _, _, h => by simp [fieldAt?] at h
  | _ :: _, [], _, _, h => by simpa [updateRecord] using h
  | (sf, n) :: rest, 0 :: q, [], _, h => by simp [fieldAt?] at h
  | (sf, n) :: rest, 0 :: q, [0], hne, h => by
    simp only [fieldAt?, Option.some.injEq, Prod.mk.injEq] at h
    obtain ⟨rfl, rfl⟩ := h
    cases q with
    | nil => exact absurd rfl hne
    | cons k q => simp [updateRecord, fieldAt?, Node.update]
  | (sf, n) :: rest, 0 :: q, 0 :: j :: p, hne, h => by
    simp only [updateRecord, fieldAt?] at h ⊢
    exact Node.fieldAt?_update f sfT typ val n q (j :: p) (by intro e; apply hne; rw [e]) h
  | (sf, n) :: rest, 0 :: q, (i + 1) :: p, _, h => by
    simpa [updateRecord, fieldAt?] using h
  | fld :: rest, (k + 1) :: q, [], _, h => by simp [fieldAt?] at h
  | (sf, n) :: rest, (k + 1) :: q, [0], _, h => by
    simpa [updateRecord, fieldAt?] using h
  | (sf, n) :: rest, (k + 1) :: q, 0 :: j :: p, _, h => by
    simpa [updateRecord, fieldAt?] using h
  | (sf, n) :: rest, (k + 1) :: q, (i + 1) :: p, hne, h => by
    simp only [updateRecord, fieldAt?] at h ⊢
    exact fieldAt?_updateRecord f sfT typ val rest (k :: q) (i :: p)
      (by intro e; apply hne; simp at e; simp [e]) h
end

theorem KeepsField_fieldSetter {X : Type} (p q : List Nat) (hne : p ≠ q) (setFn : setter)
    (s : String) : KeepsField (X := X) p (fieldSetter q setFn s) := by
  intro w sf typ val h
  exact fieldAt?_updateRecord (setFn s) sf typ val w.record q p hne h

theorem KeepsField_id {X : Type} (p : List Nat) (err : Option Error) :
    KeepsField (X := X) p (fun w => (err, w)) :=
  fun _ _ _ _ h => h

theorem parameter.keepsField {X : Type} (p : List Nat) (prm : parameter (World X))
    (h : ∀ val, KeepsField p (prm.setFn val)) : prm.toParameter.KeepsField p := by
  have hset : ∀ val, KeepsField p (prm.set val) := by
    intro val w sf typ v hw
    rw [parameter.set_eq]
    exact h val w sf typ v hw
  have hno : KeepsField p prm.NoValue := by
    intro w sf typ v hw
    by_cases hd : prm.defaultValue = ""
    · cases hr : prm.required with
      | true => rw [parameter.NoValue_missing _ _ hr hd]; exact hw
      | false => rw [parameter.NoValue_skip _ _ hr hd]; exact hw
    · rw [parameter.NoValue_default _ _ hd]
      exact hset _ w sf typ v hw
  refine ⟨hno, ?_⟩
  intro val w sf typ v hw
  by_cases hv : val = ""
  · subst hv
    show fieldAt? (prm.SetValue "" w).2.record p = _
    rw [parameter.SetValue_empty]
    exact hno w sf typ v hw
  · show fieldAt? (prm.SetValue val w).2.record p = _
    rw [parameter.SetValue_nonempty _ _ _ hv]
    exact hset val w sf typ v hw

theorem newParameter_keepsField {X : Type} (p q : List Nat) (hne : p ≠ q) (sf : StructField)
    (setFn : setter) (tagKey tagValue : String) :
    (newParameter (σ := World X) sf (fieldSetter q setFn) tagKey tagValue).KeepsField p :=
  parameter.keepsField p _ (fun val => KeepsField_fieldSetter p q hne setFn val)

theorem setEach_keepsField {X : Type} (p : List Nat) (val : String)
    (params : List (Parameter (World X))) (h : ∀ P ∈ params, P.KeepsField p) :
    KeepsField p (setEach val params) := by
  induction params with
  | nil => exact fun _ _ _ _ hw => hw
  | cons P Ps ih =>
    intro w sf typ v hw
    have hP := (h P (List.mem_cons_self _ _)).2 val w sf typ v hw
    simp only [setEach]
    rcases hr : P.SetValue val w with ⟨_ | err, w1⟩
    · rw [hr] at hP
      exact ih (fun P' hP' => h P' (List.mem_cons_of_mem _ hP')) w1 sf typ v hP
    · rw [hr] at hP
      exact hP

theorem EnvSource_loop_keepsField {X : Type} (rt : Runtime) (e : EnvSource)
    (p : List Nat) (entries : List (String × List (Parameter (World X))))
    (h : ∀ key ps, (key, ps) ∈ entries → ∀ P ∈ ps, P.KeepsField p) :
    KeepsField p (EnvSource.Process.loop rt e entries) := by
  induction entries with
  | nil => exact fun _ _ _ _ hw => hw
  | cons kv rest ih =>
    obtain ⟨key, params⟩ := kv
    intro w sf typ v hw
    have hs := setEach_keepsField p (e.getEnvVar rt key) params
      (h key params (List.mem_cons_self _ _)) w sf typ v hw
    simp only [EnvSource.Process.loop]
    rcases hr : setEach (e.getEnvVar rt key) params w with ⟨_ | err, w1⟩
    · rw [hr] at hs
      exact ih (fun k ps hk => h k ps (List.mem_cons_of_mem _ hk)) w1 sf typ v hs
    · rw [hr] at hs
      exact hs

theorem GoMap.mem_of_mem_range {V : Type} (order : List String → List String) (m : GoMap V)
    (key : String) (v : V) (h : (key, v) ∈ m.range order) : (key, v) ∈ m := by
  simp only [GoMap.range, List.mem_filterMap] at h
  obtain ⟨k, _, hk⟩ := h
  cases hg : m.get? k with
  | none => rw [hg] at hk; cases hk
  | some v' =>
    rw [hg] at hk
    simp only [Option.some.injEq, Prod.mk.injEq] at hk
    obtain ⟨rfl, rfl⟩ := hk
    exact GoMap.get?_mem m k v' hg

theorem Source.keepsField_env {X : Type} (rt : Runtime) (p : List Nat) (e : EnvSource) :
    (Source.env e : Source (World X)).KeepsField rt p := by
  intro params h
  exact EnvSource_loop_keepsField rt e p _
    (fun key ps hk => h key ps (GoMap.mem_of_mem_range _ _ _ _ hk))

theorem GoMap.mem_set {V : Type} (m : GoMap V) (key : String) (x : V) (k : String) (v : V)
    (h : (k, v) ∈ m.set key x) : (k, v) ∈ m ∨ (k = key ∧ v = x) := by
  induction m with
  | nil =>
    simp only [GoMap.set, List.mem_singleton, Prod.mk.injEq] at h
    exact Or.inr h
  | cons kv rest ih =>
    obtain ⟨k0, v0⟩ := kv
    by_cases hk : k0 = key
    · simp only [GoMap.set, hk, if_true, List.mem_cons, Prod.mk.injEq] at h
      rcases h with h | h
      · exact Or.inr h
      · exact Or.inl (List.mem_cons_of_mem _ h)
    · simp only [GoMap.set, hk, if_false, List.mem_cons, Prod.mk.injEq] at h
      rcases h with h | h
      · exact Or.inl (by rw [h.1, h.2]; exact List.mem_cons_self _ _)
      · rcases ih h with h' | h'
        · exact Or.inl (List.mem_cons_of_mem _ h')
        · exact Or.inr h'

theorem GoMap.mem_keys_of_get? {V : Type} (m : GoMap V) (key : String) (v : V)
    (h : m.get? key = some v) : key ∈ m.keys := by
  by_contra hn
  rw [(GoMap.get?_eq_none_iff m key).2 hn] at h
  cases h

theorem register_keys {X : Type} (paramMap : ParamMap X) (tagKey tagValue : String)
    (param : Parameter (World X)) :
    GoMap.keys (register paramMap tagKey tagValue param) = GoMap.keys paramMap := by
  unfold register
  cases h : GoMap.get? paramMap tagKey with
  | none => rfl
  | some sp => exact GoMap.keys_set_of_mem _ _ _ (GoMap.mem_keys_of_get? _ _ _ h)

theorem register_keeps {X : Type} (p : List Nat) (paramMap : ParamMap X)
    (tagKey tagValue : String) (param : Parameter (World X))
    (h : paramMapKeeps p paramMap) (hp : param.KeepsField p) :
    paramMapKeeps p (register paramMap tagKey tagValue param) := by
  unfold register
  cases hg : GoMap.get? paramMap tagKey with
  | none => exact h
  | some sp =>
    have hsp := GoMap.get?_mem _ _ _ hg
    intro tk sp' hmem key ps hkey P hP
    rcases GoMap.mem_set _ _ _ _ _ hmem with hm | ⟨_, rfl⟩
    · exact h tk sp' hm key ps hkey P hP
    · rcases GoMap.mem_set _ _ _ _ _ hkey with hm | ⟨_, rfl⟩
      · exact h tagKey sp hsp key ps hm P hP
      · rcases List.mem_append.1 hP with hold | hnew
        · cases ho : GoMap.get? sp tagValue with
          | none => rw [ho] at hold; cases hold
          | some old =>
            rw [ho] at hold
            exact h tagKey sp hsp tagValue old (GoMap.get?_mem _ _ _ ho) P hold
        · rw [List.mem_singleton.1 hnew]
          exact hp

theorem findTag_eq_none (sf : StructField) (keys : List String)
    (h : ∀ key ∈ keys, sf.Lookup key = none) : findTag sf keys = none := by
  induction keys with
  | nil => rfl
  | cons k ks ih =>
    simp only [findTag, h k (List.mem_cons_self _ _)]
    exact ih (fun key hk => h key (List.mem_cons_of_mem _ hk))

theorem GoMap.range_keys_subset {V : Type} (order : List String → List String) (m : GoMap V) :
    ∀ key ∈ (m.range order).map Prod.fst, key ∈ m.keys := by
  intro key hk
  obtain ⟨⟨k, v⟩, hmem, rfl⟩ := List.mem_map.1 hk
  exact List.mem_map.2 ⟨(k, v), GoMap.mem_of_mem_range order m k v hmem, rfl⟩

/-- A leaf field that is ignored or has no tag for any source registers no
parameter. -/
theorem processField_leaf_noSourceTag {X : Type} (rt : Runtime) (sourceKeys keys : List String)
    (sf : StructField) (typ : Typ) (val : Value) (path : List Nat) (paramMap : ParamMap X)
    (errs : List Error) (hk : ∀ key ∈ GoMap.keys paramMap, key ∈ keys)
    (h : noSourceTag keys sf) :
    (processField rt sourceKeys sf (.leaf typ val) path paramMap errs).2 = paramMap := by
  simp only [processField]
  by_cases hi : ignored sf = true
  · simp only [hi, if_true]
  · simp only [hi, if_false]
    cases getSetter rt typ with
    | error err => rfl
    | ok setFn =>
      have hf : findTag sf ((GoMap.range (rt.scanOrder path) paramMap).map Prod.fst) = none := by
        apply findTag_eq_none
        intro key hkey
        rcases h with h | h
        · exact absurd h hi
        · exact h key (hk key (GoMap.range_keys_subset _ _ key hkey))
      simp only [hf]
      rcases ParseBool (sf.Get requiredTag) with _ | b
      · rfl
      · cases b <;> rfl

theorem findTag_some_mem (sf : StructField) (keys : List String) (tagKey tagValue : String)
    (h : findTag sf keys = some (tagKey, tagValue)) :
    tagKey ∈ keys ∧ sf.Lookup tagKey = some tagValue := by
  induction keys with
  | nil => simp [findTag] at h
  | cons k ks ih =>
    simp only [findTag] at h
    cases hl : sf.Lookup k with
    | none =>
      rw [hl] at h
      exact ⟨List.mem_cons_of_mem _ (ih h).1, (ih h).2⟩
    | some v =>
      rw [hl] at h
      simp only [Option.some.injEq, Prod.mk.injEq] at h
      obtain ⟨rfl, rfl⟩ := h
      exact ⟨List.mem_cons_self _ _, hl⟩

/-- What `processField` does to `paramMap` at a leaf: nothing, or one
`register` of a parameter closed over the field's path. -/
theorem processField_leaf_paramMap {X : Type} (rt : Runtime) (sourceKeys : List String)
    (sf : StructField) (typ : Typ) (val : Value) (path : List Nat) (paramMap : ParamMap X)
    (errs : List Error) :
    (processField rt sourceKeys sf (.leaf typ val) path paramMap errs).2 = paramMap ∨
    ∃ setFn tagKey tagValue,
      (processField rt sourceKeys sf (.leaf typ val) path paramMap errs).2 =
        register paramMap tagKey tagValue
          (newParameter sf (fieldSetter path setFn) tagKey tagValue) := by
  simp only [processField]
  by_cases hi : ignored sf = true
  · rw [if_pos hi]; exact Or.inl rfl
  · rw [if_neg hi]
    cases getSetter rt typ with
    | error err => exact Or.inl rfl
    | ok setFn =>
      dsimp only
      cases hf : findTag sf ((GoMap.range (rt.scanOrder path) paramMap).map Prod.fst) with
      | none =>
        dsimp only
        rcases ParseBool (sf.Get requiredTag) with _ | b
        · exact Or.inl rfl
        · cases b <;> exact Or.inl rfl
      | some kv =>
        obtain ⟨tagKey, tagValue⟩ := kv
        exact Or.inr ⟨setFn, tagKey, tagValue, rfl⟩

theorem fieldAt?_cons_zero (sf : StructField) (n : Node) (rest : List (StructField × Node))
    (rel : List Nat) : fieldAt? ((sf, n) :: rest) (0 :: rel) = fieldBelow sf n rel := by
  cases rel <;> simp [fieldAt?, fieldBelow]

mutual
/-- Traversal of a field registers no parameter that touches the leaf field at
`p`, when that field is ignored or has no tag for any source. -/
theorem processField_keeps {X : Type} (rt : Runtime) (sourceKeys keys : List String)
    (p : List Nat) (sfT : StructField) (typT : Typ) (valT : Value)
    (hT : noSourceTag keys sfT) :
    ∀ (n : Node) (sf : StructField) (q : List Nat) (paramMap : ParamMap X) (errs : List Error),
      paramMapKeeps p paramMap → (∀ key ∈ GoMap.keys paramMap, key ∈ keys) →
      (∀ rel, p = q ++ rel → fieldBelow sf n rel = some (sfT, .leaf typT valT)) →
      paramMapKeeps p (processField rt sourceKeys sf n q paramMap errs).2 ∧
      ∀ key ∈ GoMap.keys (processField rt sourceKeys sf n q paramMap errs).2, key ∈ keys
  | .leaf typ val, sf, q, paramMap, errs, hkeep, hkeys, hrel => by
    by_cases hq : p = q
    · have h0 := hrel [] (by simp [hq])
      simp only [fieldBelow, Option.some.injEq, Prod.mk.injEq] at h0
      rw [h0.1, processField_leaf_noSourceTag rt sourceKeys keys sfT typ val q paramMap errs
        hkeys hT]
      exact ⟨hkeep, hkeys⟩
    · rcases processField_leaf_paramMap rt sourceKeys sf typ val q paramMap errs with h | h
      · rw [h]; exact ⟨hkeep, hkeys⟩
      · obtain ⟨setFn, tagKey, tagValue, h⟩ := h
        rw [h, register_keys]
        exact ⟨register_keeps p _ _ _ _ hkeep (newParameter_keepsField p q hq _ _ _ _), hkeys⟩
  | .struct fields, sf, q, paramMap, errs, hkeep, hkeys, hrel => by
    simp only [processField]
    exact processFields_keeps rt sourceKeys keys p sfT typT valT hT fields q 0 paramMap []
      hkeep hkeys (fun j rel hp => by
        have := hrel (j :: rel) (by simpa using hp)
        simpa [fieldBelow, Node.fieldAt?] using this)
  | .iface held, sf, q, paramMap, errs, hkeep, hkeys, hrel => by
    simp only [processField]
    exact processFields_keeps rt sourceKeys keys p sfT typT valT hT held q 0 paramMap []
      hkeep hkeys (fun j rel hp => by
        have := hrel (j :: rel) (by simpa using hp)
        simpa [fieldBelow, Node.fieldAt?] using this)
/-- The same for the loop over the fields of a record from index `i` on. -/
theorem processFields_keeps {X : Type} (rt : Runtime) (sourceKeys keys : List String)
    (p : List Nat) (sfT : StructField) (typT : Typ) (valT : Value)
    (hT : noSourceTag keys sfT) :
    ∀ (fields : List (StructField × Node)) (q : List Nat) (i : Nat) (paramMap : ParamMap X)
      (errs : List Error),
      paramMapKeeps p paramMap → (∀ key ∈ GoMap.keys paramMap, key ∈ keys) →
      (∀ j rel, p = q ++ (i + j) :: rel →
        fieldAt? fields (j :: rel) = some (sfT, .leaf typT valT)) →
      paramMapKeeps p (processFields rt sourceKeys fields q i paramMap errs).2 ∧
      ∀ key ∈ GoMap.keys (processFields rt sourceKeys fields q i paramMap errs).2, key ∈ keys
  | [], _, _, paramMap, errs, hkeep, hkeys, _ => by
    simp only [processFields]
    exact ⟨hkeep, hkeys⟩
  | (sf, n) :: rest, q, i, paramMap, errs, hkeep, hkeys, hrel => by
    simp only [processFields]
    have h1 := processField_keeps rt sourceKeys keys p sfT typT valT hT n sf (q ++ [i])
      paramMap errs hkeep hkeys (fun rel hp => by
        have := hrel 0 rel (by simpa using hp)
        rwa [fieldAt?_cons_zero] at this)
    exact processFields_keeps rt sourceKeys keys p sfT typT valT hT rest q (i + 1) _ _
      h1.1 h1.2 (fun j rel hp => by
        have := hrel (j + 1) rel (by rw [hp]; congr 2; omega)
        simpa [fieldAt?] using this)
end

theorem initParamMap_spec {X : Type} (sources : List (Source (World X)))
    (paramMap pm : ParamMap X) (h : initParamMap sources paramMap = .ok pm) :
    GoMap.keys pm = GoMap.keys paramMap ++ sources.map Source.TagKey ∧
    ∀ key sp, (key, sp) ∈ pm → (key, sp) ∈ paramMap ∨ sp = [] := by
  induction sources generalizing paramMap with
  | nil =>
    simp only [initParamMap, Except.ok.injEq] at h
    subst h
    exact ⟨by simp, fun _ _ hm => Or.inl hm⟩
  | cons s rest ih =>
    simp only [initParamMap] at h
    cases hg : GoMap.get? paramMap s.TagKey with
    | some v => rw [hg] at h; cases h
    | none =>
      rw [hg] at h
      obtain ⟨h1, h2⟩ := ih _ h
      have hs : s.TagKey ∉ GoMap.keys paramMap := (GoMap.get?_eq_none_iff _ _).1 hg
      refine ⟨?_, ?_⟩
      · rw [h1, GoMap.keys_set_of_not_mem _ _ _ hs]; simp
      · intro key sp hm
        rcases h2 key sp hm with hm' | hm'
        · rcases GoMap.mem_set _ _ _ _ _ hm' with hm'' | ⟨_, hm''⟩
          · exact Or.inl hm''
          · exact Or.inr hm''
        · exact Or.inr hm'

theorem processSources_keepsField {X : Type} (rt : Runtime) (p : List Nat)
    (paramMap : ParamMap X) (hpm : paramMapKeeps p paramMap)
    (sources : List (Source (World X))) (hs : ∀ s ∈ sources, s.KeepsField rt p)
    (errs : List Error) :
    KeepsField p (fun w => ((ErrorOrNil (processSources.loop rt paramMap sources errs w).1),
      (processSources.loop rt paramMap sources errs w).2)) := by
  induction sources generalizing errs with
  | nil => exact fun _ _ _ _ hw => hw
  | cons s rest ih =>
    intro w sf typ v hw
    have ih' := ih (fun s' hs' => hs s' (List.mem_cons_of_mem _ hs'))
    simp only [processSources.loop]
    cases hg : GoMap.get? paramMap s.TagKey with
    | none => exact ih' errs w sf typ v hw
    | some params =>
      by_cases hl : params.length = 0
      · simp only [hl, if_true]
        exact ih' errs w sf typ v hw
      · simp only [hl, if_false]
        have hsrc := hs s (List.mem_cons_self _ _) params
          (fun key ps hk P hP => hpm s.TagKey params (GoMap.get?_mem _ _ _ hg) key ps hk P hP)
          w sf typ v hw
        exact ih' _ _ sf typ v hsrc

/-- A leaf field that is ignored, or has no tag for any of the sources, holds
after `Process` what it held before, whatever the other fields are, when every
source reaches the record through its parameters only. -/
theorem Process_keepsField {X : Type} (rt : Runtime) (sources : List (Source (World X)))
    (p : List Nat) (sf : StructField)
    (hT : noSourceTag ((withEnvSource sources).map Source.TagKey) sf)
    (hs : ∀ s ∈ sources, s.KeepsField rt p) (w : World X) (typ : Typ) (val : Value)
    (hw : fieldAt? w.record p = some (sf, .leaf typ val)) :
    fieldAt? (Process rt sources w).2.record p = some (sf, .leaf typ val) := by
  have hs' : ∀ s ∈ withEnvSource sources, s.KeepsField rt p := by
    intro s hmem
    unfold withEnvSource at hmem
    split at hmem
    · exact hs s hmem
    · rcases List.mem_append.1 hmem with h | h
      · exact hs s h
      · rw [List.mem_singleton.1 h]
        exact Source.keepsField_env rt p _
  cases hi : initParamMap (withEnvSource sources) ([] : ParamMap X) with
  | error key => rw [Process_of_duplicate rt sources w key hi]; exact hw
  | ok pm0 =>
    obtain ⟨hk0, he0⟩ := initParamMap_spec _ _ _ hi
    have hkeep0 : paramMapKeeps p pm0 := by
      intro tk sp hm key ps hkey
      rcases he0 tk sp hm with h | h
      · cases h
      · rw [h] at hkey; cases hkey
    have hkeys0 : ∀ key ∈ GoMap.keys pm0, key ∈ (withEnvSource sources).map Source.TagKey := by
      intro key hkey
      rw [hk0] at hkey
      simpa [GoMap.keys] using hkey
    cases ht : (process rt [] w.record pm0 ((withEnvSource sources).map Source.TagKey)).1 with
    | some err => rw [Process_of_traversal_error rt sources w pm0 err hi ht]; exact hw
    | none =>
      rw [Process_of_traversal_ok rt sources w pm0 hi ht]
      have htrav := processFields_keeps rt ((withEnvSource sources).map Source.TagKey)
        ((withEnvSource sources).map Source.TagKey) p sf typ val hT w.record [] 0 pm0 []
        hkeep0 hkeys0 (fun j rel hp => by
          have : p = j :: rel := by simpa using hp
          rw [← this]; exact hw)
      exact processSources_keepsField rt p _ htrav.1 _ hs' [] w sf typ val hw

theorem Append_ne_nil_of_ne_nil (errs : List Error) (err : Option Error) (h : errs ≠ []) :
    Append errs err ≠ [] := by
  intro e
  exact h ((Append_eq_nil_iff errs err).1 e).1

theorem Append_Wrap_ne_nil (errs : List Error) (msg : String) (err : Error) :
    Append errs (some (.Wrap msg err)) ≠ [] := by
  simp [Append]

theorem Append_New_ne_nil (errs : List Error) (msg : String) :
    Append errs (some (.New msg)) ≠ [] := by
  simp [Append]

mutual
/-- Traversal of a field adds no key to `paramMap` and removes none. -/
theorem processField_keys {X : Type} (rt : Runtime) (sourceKeys : List String) :
    ∀ (n : Node) (sf : StructField) (q : List Nat) (paramMap : ParamMap X) (errs : List Error),
      GoMap.keys (processField rt sourceKeys sf n q paramMap errs).2 = GoMap.keys paramMap
  | .leaf typ val, sf, q, paramMap, errs => by
    rcases processField_leaf_paramMap rt sourceKeys sf typ val q paramMap errs with h | h
    · rw [h]
    · obtain ⟨setFn, tagKey, tagValue, h⟩ := h
      rw [h, register_keys]
  | .struct fields, sf, q, paramMap, errs => by
    simp only [processField]
    exact processFields_keys rt sourceKeys fields q 0 paramMap []
  | .iface held, sf, q, paramMap, errs => by
    simp only [processField]
    exact processFields_keys rt sourceKeys held q 0 paramMap []
/-- The same for the loop over the fields of a record. -/
theorem processFields_keys {X : Type} (rt : Runtime) (sourceKeys : List String) :
    ∀ (fields : List (StructField × Node)) (q : List Nat) (i : Nat) (paramMap : ParamMap X)
      (errs : List Error),
      GoMap.keys (processFields rt sourceKeys fields q i paramMap errs).2 = GoMap.keys paramMap
  | [], _, _, _, _ => by simp only [processFields]
  | (sf, n) :: rest, q, i, paramMap, errs => by
    simp only [processFields]
    rw [processFields_keys rt sourceKeys rest q (i + 1), processField_keys rt sourceKeys n sf]
end

/-- At a leaf field that is not ignored, has a converter, has no tag for any
source and is required, `processField` appends an error. -/
theorem processField_leaf_required {X : Type} (rt : Runtime) (sourceKeys keys : List String)
    (sf : StructField) (typ : Typ) (val : Value) (setFn : setter) (path : List Nat)
    (paramMap : ParamMap X) (errs : List Error)
    (hk : ∀ key ∈ GoMap.keys paramMap, key ∈ keys)
    (hi : ignored sf = false) (hc : getSetter rt typ = .ok setFn)
    (hno : ∀ key ∈ keys, sf.Lookup key = none)
    (hr : ParseBool (sf.Get requiredTag) = .ok true) :
    (processField rt sourceKeys sf (.leaf typ val) path paramMap errs).1 ≠ [] := by
  have hf : findTag sf ((GoMap.range (rt.scanOrder path) paramMap).map Prod.fst) = none :=
    findTag_eq_none _ _ (fun key hkey => hno key (hk key (GoMap.range_keys_subset _ _ key hkey)))
  simp only [processField, hi, hc, hf, hr]
  exact Append_New_ne_nil _ _

/-- At a leaf field `processField` never drops an error. -/
theorem processField_leaf_errs {X : Type} (rt : Runtime) (sourceKeys : List String)
    (sf : StructField) (typ : Typ) (val : Value) (path : List Nat)
    (paramMap : ParamMap X) (errs : List Error) (h : errs ≠ []) :
    (processField rt sourceKeys sf (.leaf typ val) path paramMap errs).1 ≠ [] := by
  simp only [processField]
  by_cases hi : ignored sf = true
  · rw [if_pos hi]; exact h
  · rw [if_neg hi]
    cases getSetter rt typ with
    | error err =>
      exact Append_ne_nil_of_ne_nil errs
        (some (.Wrap "error getting set function" err)) h
    | ok setFn =>
      dsimp only
      cases findTag sf ((GoMap.range (rt.scanOrder path) paramMap).map Prod.fst) with
      | some kv => exact h
      | none =>
        dsimp only
        rcases ParseBool (sf.Get requiredTag) with _ | b
        · exact h
        · cases b
          · exact h
          · exact Append_ne_nil_of_ne_nil errs (some (.New ("error: the field " ++ sf.Name ++
              " was marked as required, but did not specify a struct tag for one of the provided sources: "
              ++ String.intercalate ", " sourceKeys))) h

mutual
/-- Traversal of a field ends with an error recorded when one was recorded
before or when the field is, or holds, a required leaf field with a converter
and no tag for any source. -/
theorem processField_errs {X : Type} (rt : Runtime) (sourceKeys keys : List String)
    (sfT : StructField) (typT : Typ) (valT : Value) (setFn : setter)
    (hi : ignored sfT = false) (hc : getSetter rt typT = .ok setFn)
    (hno : ∀ key ∈ keys, sfT.Lookup key = none)
    (hr : ParseBool (sfT.Get requiredTag) = .ok true) :
    ∀ (n : Node) (sf : StructField) (q : List Nat) (paramMap : ParamMap X) (errs : List Error),
      (∀ key ∈ GoMap.keys paramMap, key ∈ keys) →
      (errs ≠ [] ∨ ∃ rel, fieldBelow sf n rel = some (sfT, .leaf typT valT)) →
      (processField rt sourceKeys sf n q paramMap errs).1 ≠ []
  | .leaf typ val, sf, q, paramMap, errs, hk, h => by
    rcases h with h | ⟨rel, h⟩
    · exact processField_leaf_errs rt sourceKeys sf typ val q paramMap errs h
    · cases rel with
      | nil =>
        simp only [fieldBelow, Option.some.injEq, Prod.mk.injEq, Node.leaf.injEq] at h
        obtain ⟨rfl, rfl, rfl⟩ := h
        exact processField_leaf_required rt sourceKeys keys sf typ val setFn q paramMap errs
          hk hi hc hno hr
      | cons j rel => simp [fieldBelow, Node.fieldAt?] at h
  | .struct fields, sf, q, paramMap, errs, hk, h => by
    simp only [processField]
    rcases h with h | ⟨rel, h⟩
    · cases ErrorOrNil (processFields rt sourceKeys fields q 0 paramMap []).1 with
      | none => exact h
      | some err => exact Append_ne_nil_of_ne_nil _ _ h
    · cases rel with
      | nil => simp [fieldBelow] at h
      | cons j rel =>
        have hin := processFields_errs rt sourceKeys keys sfT typT valT setFn hi hc hno hr
          fields q 0 paramMap [] hk (Or.inr ⟨j, rel, by simpa [fieldBelow, Node.fieldAt?] using h⟩)
        cases he : ErrorOrNil (processFields rt sourceKeys fields q 0 paramMap []).1 with
        | none => exact absurd ((ErrorOrNil_eq_none_iff _).1 he) hin
        | some err => exact Append_Wrap_ne_nil _ _ _
  | .iface held, sf, q, paramMap, errs, hk, h => by
    simp only [processField]
    rcases h with h | ⟨rel, h⟩
    · cases ErrorOrNil (processFields rt sourceKeys held q 0 paramMap []).1 with
      | none => exact h
      | some err => exact Append_ne_nil_of_ne_nil _ _ h
    · cases rel with
      | nil => simp [fieldBelow] at h
      | cons j rel =>
        have hin := processFields_errs rt sourceKeys keys sfT typT valT setFn hi hc hno hr
          held q 0 paramMap [] hk (Or.inr ⟨j, rel, by simpa [fieldBelow, Node.fieldAt?] using h⟩)
        cases he : ErrorOrNil (processFields rt sourceKeys held q 0 paramMap []).1 with
        | none => exact absurd ((ErrorOrNil_eq_none_iff _).1 he) hin
        | some err => exact Append_Wrap_ne_nil _ _ _
/-- The same for the loop over the fields of a record. -/
theorem processFields_errs {X : Type} (rt : Runtime) (sourceKeys keys : List String)
    (sfT : StructField) (typT : Typ) (valT : Value) (setFn : setter)
    (hi : ignored sfT = false) (hc : getSetter rt typT = .ok setFn)
    (hno : ∀ key ∈ keys, sfT.Lookup key = none)
    (hr : ParseBool (sfT.Get requiredTag) = .ok true) :
    ∀ (fields : List (StructField × Node)) (q : List Nat) (i : Nat) (paramMap : ParamMap X)
      (errs : List Error),
      (∀ key ∈ GoMap.keys paramMap, key ∈ keys) →
      (errs ≠ [] ∨ ∃ j rel, fieldAt? fields (j :: rel) = some (sfT, .leaf typT valT)) →
      (processFields rt sourceKeys fields q i paramMap errs).1 ≠ []
  | [], _, _, paramMap, errs, _, h => by
    simp only [processFields]
    rcases h with h | ⟨j, rel, h⟩
    · exact h
    · simp [fieldAt?] at h
  | (sf, n) :: rest, q, i, paramMap, errs, hk, h => by
    simp only [processFields]
    have hk' : ∀ key ∈ GoMap.keys (processField rt sourceKeys sf n (q ++ [i]) paramMap errs).2,
        key ∈ keys := by
      rw [processField_keys]; exact hk
    apply processFields_errs rt sourceKeys keys sfT typT valT setFn hi hc hno hr rest q (i + 1)
      _ _ hk'
    rcases h with h | ⟨j, rel, h⟩
    · exact Or.inl (processField_errs rt sourceKeys keys sfT typT valT setFn hi hc hno hr
        n sf (q ++ [i]) paramMap errs hk (Or.inl h))
    · cases j with
      | zero =>
        rw [fieldAt?_cons_zero] at h
        exact Or.inl (processField_errs rt sourceKeys keys sfT typT valT setFn hi hc hno hr
          n sf (q ++ [i]) paramMap errs hk (Or.inr ⟨rel, h⟩))
      | succ j => exact Or.inr ⟨j, rel, by simpa [fieldAt?] using h⟩
end

theorem fieldAt?_nil (fields : List (StructField × Node)) : fieldAt? fields [] = none := by
  cases fields <;> simp [fieldAt?]

theorem mockSource_loop_keepsField {X : Type} (vars : List (String × String)) (p : List Nat)
    (entries : List (String × List (Parameter (World X))))
    (h : ∀ key ps, (key, ps) ∈ entries → ∀ P ∈ ps, P.KeepsField p) :
    KeepsField p (mockSource.Process vars entries) := by
  induction entries with
  | nil => exact fun _ _ _ _ hw => hw
  | cons kv rest ih =>
    obtain ⟨key, params⟩ := kv
    intro w sf typ v hw
    have hs := setEach_keepsField p
      (match GoMap.get? vars key with | none => "" | some v => v) params
      (h key params (List.mem_cons_self _ _)) w sf typ v hw
    simp only [mockSource.Process]
    rcases hr : setEach (match GoMap.get? vars key with | none => "" | some v => v) params w
      with ⟨_ | err, w1⟩
    · rw [hr] at hs
      exact ih (fun k ps hk => h k ps (List.mem_cons_of_mem _ hk)) w1 sf typ v hs
    · rw [hr] at hs
      exact hs

theorem mockSource_keepsField (rt : Runtime) (p : List Nat) (tagKey : String)
    (vars : List (String × String)) : (mockSource tagKey vars).KeepsField rt p := by
  intro params h w sf typ v hw
  exact mockSource_loop_keepsField vars p params h { w with ext := w.ext ++ [tagKey] }
    sf typ v hw

theorem ignored_of_tag (sf : StructField) (ignoreValue : String)
    (h : sf.Lookup ignoreTag = some ignoreValue) (hb : ParseBool ignoreValue = .ok true) :
    ignored sf = true := by
  simp only [ignored, h, hb]

/-- C7, amended. For every field that is not a nested record and not a
non-empty interface, and whose `ignore` tag parses as true, whatever its type
and its other tags: the iteration of `process` on it leaves the errors and the
registered parameters as they were, and after `Process` the field holds what
it held before, for sources that reach the record through the parameters they
are handed only (as every `EnvSource` does). -/
theorem Process_ignored_field {X : Type} (rt : Runtime) (sources : List (Source (World X)))
    (w : World X) (p : List Nat) (sf : StructField) (typ : Typ) (val : Value)
    (ignoreValue : String)
    (hw : fieldAt? w.record p = some (sf, .leaf typ val))
    (hl : sf.Lookup ignoreTag = some ignoreValue) (hb : ParseBool ignoreValue = .ok true)
    (hs : ∀ s ∈ sources, s.KeepsField rt p) :
    (∀ (sourceKeys : List String) (q : List Nat) (paramMap : ParamMap X) (errs : List Error),
      processField rt sourceKeys sf (.leaf typ val) q paramMap errs = (errs, paramMap)) ∧
    fieldAt? (Process rt sources w).2.record p = some (sf, .leaf typ val) := by
  have hi := ignored_of_tag sf ignoreValue hl hb
  refine ⟨?_, ?_⟩
  · intro sourceKeys q paramMap errs
    simp only [processField, hi, if_true]
  · exact Process_keepsField rt sources p sf (Or.inl hi) hs w typ val hw

/-- C7, amended, at an ignored `int` field that is also tagged for the
environment, required and defaulted, the variable being set. -/
theorem Process_ignored_field_witness :
    fieldAt? ignoredLeafRecord [0] =
      some ({ Name := "TestTrueIgnore",
              Tag := [("ignore", "true"), ("env", "PORT"), ("required", "true"), ("default", "7")] },
        .leaf (.Int .Int "" "int") (.Int 0)) ∧
    fieldAt? (Process (sampleRuntime [("PORT", "8080"), ("HOST", "h")])
        [Source.env { Prefix := "", StrictCase := false }]
        { record := ignoredLeafRecord, ext := () }).2.record [0] =
      some ({ Name := "TestTrueIgnore",
              Tag := [("ignore", "true"), ("env", "PORT"), ("required", "true"), ("default", "7")] },
        .leaf (.Int .Int "" "int") (.Int 0)) :=
  ⟨rfl,
   (Process_ignored_field (sampleRuntime [("PORT", "8080"), ("HOST", "h")])
      [Source.env { Prefix := "", StrictCase := false }]
      { record := ignoredLeafRecord, ext := () } [0] _ _ _ "true" rfl rfl rfl
      (fun s hs => by
        rw [List.mem_singleton.1 hs]
        exact Source.keepsField_env _ _ _)).2⟩

/-- C7 fails as stated. The field `Nested` is a nested record tagged
`ignore:"true"`: `process` recurses into it before it looks at the tag, a
parameter is created for its sub-field `Inner`, and `Process` stores the value
of the environment variable in it. -/
theorem Process_traverses_ignored_struct :
    ignored { Name := "Nested", Tag := [("ignore", "true")] } = true ∧
    fieldAt? ignoredStructRecord [0, 0] =
      some ({ Name := "Inner", Tag := [("env", "INNER")] }, .leaf .String (.String "")) ∧
    Process (sampleRuntime [("INNER", "v")]) []
        { record := ignoredStructRecord, ext := () } =
      (none,
        { record :=
            [ ({ Name := "Nested", Tag := [("ignore", "true")] },
                .struct
                  [ ({ Name := "Inner", Tag := [("env", "INNER")] },
                      .leaf .String (.String "v")) ]) ],
          ext := () }) ∧
    fieldAt? (Process (sampleRuntime [("INNER", "v")]) []
        { record := ignoredStructRecord, ext := () }).2.record [0, 0] ≠
      fieldAt? ignoredStructRecord [0, 0] := by
  refine ⟨rfl, rfl, rfl, ?_⟩
  intro h
  have h1 : fieldAt? (Process (sampleRuntime [("INNER", "v")]) []
        { record := ignoredStructRecord, ext := () }).2.record [0, 0] =
      some ({ Name := "Inner", Tag := [("env", "INNER")] }, .leaf .String (.String "v")) := rfl
  have h2 : fieldAt? ignoredStructRecord [0, 0] =
      some ({ Name := "Inner", Tag := [("env", "INNER")] }, .leaf .String (.String "")) := rfl
  rw [h1, h2] at h
  simp only [Option.some.injEq, Prod.mk.injEq, Node.leaf.injEq, Value.String.injEq,
    true_and] at h
  revert h
  decide

/-- C8. A field with a converter that is not ignored and has no tag for any of
the sources `Process` works with.  If it is required, `Process` returns an
error and the whole state, the field included, is as before the call.  If it
is not required, the iteration of `process` on it records no error and
registers no parameter, and after `Process` the field holds what it held
before, for sources that reach the record through the parameters they are
handed only (as every `EnvSource` does). -/
theorem Process_untagged_field {X : Type} (rt : Runtime) (sources : List (Source (World X)))
    (w : World X) (p : List Nat) (sf : StructField) (typ : Typ) (val : Value) (setFn : setter)
    (hw : fieldAt? w.record p = some (sf, .leaf typ val))
    (hi : ignored sf = false) (hc : getSetter rt typ = .ok setFn)
    (hno : ∀ s ∈ withEnvSource sources, sf.Lookup s.TagKey = none) :
    (ParseBool (sf.Get requiredTag) = .ok true →
      (Process rt sources w).1 ≠ none ∧ (Process rt sources w).2 = w) ∧
    (ParseBool (sf.Get requiredTag) ≠ .ok true →
      (∀ (sourceKeys : List String) (q : List Nat) (paramMap : ParamMap X) (errs : List Error),
        (∀ key ∈ GoMap.keys paramMap, key ∈ (withEnvSource sources).map Source.TagKey) →
        processField rt sourceKeys sf (.leaf typ val) q paramMap errs = (errs, paramMap)) ∧
      ((∀ s ∈ sources, s.KeepsField rt p) →
        fieldAt? (Process rt sources w).2.record p = some (sf, .leaf typ val))) := by
  have hno' : ∀ key ∈ (withEnvSource sources).map Source.TagKey, sf.Lookup key = none := by
    intro key hkey
    obtain ⟨s, hs, rfl⟩ := List.mem_map.1 hkey
    exact hno s hs
  refine ⟨?_, ?_⟩
  · intro hr
    cases hinit : initParamMap (withEnvSource sources) ([] : ParamMap X) with
    | error key =>
      rw [Process_of_duplicate rt sources w key hinit]
      exact ⟨by simp, rfl⟩
    | ok pm0 =>
      obtain ⟨hk0, _⟩ := initParamMap_spec _ _ _ hinit
      have hkeys0 : ∀ key ∈ GoMap.keys pm0, key ∈ (withEnvSource sources).map Source.TagKey := by
        intro key hkey
        rw [hk0] at hkey
        simpa [GoMap.keys] using hkey
      have herr := processFields_errs rt ((withEnvSource sources).map Source.TagKey)
        ((withEnvSource sources).map Source.TagKey) sf typ val setFn hi hc hno' hr
        w.record [] 0 pm0 [] hkeys0 (Or.inr (by
          cases p with
          | nil => rw [fieldAt?_nil] at hw; cases hw
          | cons j rel => exact ⟨j, rel, hw⟩))
      cases ht : (process rt [] w.record pm0 ((withEnvSource sources).map Source.TagKey)).1 with
      | none => exact absurd ((ErrorOrNil_eq_none_iff _).1 ht) herr
      | some err =>
        rw [Process_of_traversal_error rt sources w pm0 err hinit ht]
        exact ⟨by simp, rfl⟩
  · intro hr
    refine ⟨?_, ?_⟩
    · intro sourceKeys q paramMap errs hk
      have hf : findTag sf ((GoMap.range (rt.scanOrder q) paramMap).map Prod.fst) = none :=
        findTag_eq_none _ _
          (fun key hkey => hno' key (hk key (GoMap.range_keys_subset _ _ key hkey)))
      simp only [processField, hi, hc, hf]
      rcases hp : ParseBool (sf.Get requiredTag) with _ | b
      · rfl
      · cases b
        · rfl
        · exact absurd hp hr
    · intro hs
      exact Process_keepsField rt sources p sf (Or.inr hno') hs w typ val hw

/-- C8 at the records of the test `MissingMockSource`, the field tagged for
`mock` while the sources are the environment and a source `vault`: required
and inside a nested record, `Process` fails and nothing is touched, the
source `vault` not run; optional, the field keeps its value. -/
theorem Process_untagged_field_witness :
    ((Process (sampleRuntime [("HOST", "h")]) [mockSource "vault" [("test-str", "s")]]
        { record := mockTaggedRecord, ext := [] }).1 ≠ none ∧
      (Process (sampleRuntime [("HOST", "h")]) [mockSource "vault" [("test-str", "s")]]
        { record := mockTaggedRecord, ext := [] }).2 =
        { record := mockTaggedRecord, ext := [] }) ∧
    fieldAt? (Process (sampleRuntime [("HOST", "h")]) [mockSource "vault" [("test-str", "s")]]
        { record := optionalMockRecord, ext := [] }).2.record [1] =
      some ({ Name := "TestStr", Tag := [("mock", "test-str")] }, .leaf .String (.String "")) :=
  ⟨(Process_untagged_field (sampleRuntime [("HOST", "h")]) [mockSource "vault" [("test-str", "s")]]
      { record := mockTaggedRecord, ext := [] } [1, 0]
      { Name := "TestStr", Tag := [("mock", "test-str"), ("required", "true")] } .String
      (.String "") stringSetter rfl rfl rfl (by decide)).1 rfl,
   ((Process_untagged_field (sampleRuntime [("HOST", "h")]) [mockSource "vault" [("test-str", "s")]]
      { record := optionalMockRecord, ext := [] } [1]
      { Name := "TestStr", Tag := [("mock", "test-str")] } .String
      (.String "") stringSetter rfl rfl rfl (by decide)).2 (fun h => by cases h)).2
      (fun s hs => by
        rw [List.mem_singleton.1 hs]
        exact mockSource_keepsField _ _ _ _)⟩

/-- C15. The variable `getEnvVar` reads, whatever `os.Getenv` is: with
`StrictCase` off it is named by the upper-casing of `Prefix` followed by the
key, the prefix upper-cased with the key; with `StrictCase` on it is named by
`Prefix` followed by the key, unchanged; an empty `Prefix` prepends nothing. -/
theorem getEnvVar_name (rt : Runtime) (e : EnvSource) (key : String) :
    (e.StrictCase = false → e.getEnvVar rt key = rt.Getenv (rt.ToUpper (e.Prefix ++ key))) ∧
    (e.StrictCase = true → e.getEnvVar rt key = rt.Getenv (e.Prefix ++ key)) ∧
    (e.Prefix = "" → e.StrictCase = false → e.getEnvVar rt key = rt.Getenv (rt.ToUpper key)) ∧
    (e.Prefix = "" → e.StrictCase = true → e.getEnvVar rt key = rt.Getenv key) := by
  have hempty : "" ++ key = key := by
    apply String.ext
    simp
  refine ⟨?_, ?_, ?_, ?_⟩
  · intro hs
    by_cases hp : e.Prefix = ""
    · simp [EnvSource.getEnvVar, hs, hp, hempty]
    · simp [EnvSource.getEnvVar, hs, hp]
  · intro hs
    by_cases hp : e.Prefix = ""
    · simp [EnvSource.getEnvVar, hs, hp, hempty]
    · simp [EnvSource.getEnvVar, hs, hp]
  · intro hp hs
    simp [EnvSource.getEnvVar, hs, hp]
  · intro hp hs
    simp [EnvSource.getEnvVar, hs, hp]

/-- C15 at the sources of the tests `Prefixed`, `StrictCase` and
`CustomEnvSource`, in a runtime whose `os.Getenv` returns the name it is
asked for: a lower-case prefix is upper-cased with the key. -/
theorem getEnvVar_name_witness :
    EnvSource.getEnvVar { sampleRuntime [] with Getenv := fun name => name }
        { Prefix := "test_prefix_", StrictCase := false } "testing_var" =
      "TEST_PREFIX_TESTING_VAR" ∧
    EnvSource.getEnvVar { sampleRuntime [] with Getenv := fun name => name }
        { Prefix := "test_prefix_", StrictCase := true } "testing_var" =
      "test_prefix_testing_var" ∧
    EnvSource.getEnvVar { sampleRuntime [] with Getenv := fun name => name }
        { Prefix := "", StrictCase := false } "testing_var" = "TESTING_VAR" ∧
    EnvSource.getEnvVar { sampleRuntime [] with Getenv := fun name => name }
        { Prefix := "", StrictCase := true } "testing_var" = "testing_var" :=
  ⟨(getEnvVar_name { sampleRuntime [] with Getenv := fun name => name }
      { Prefix := "test_prefix_", StrictCase := false } "testing_var").1 rfl,
   (getEnvVar_name { sampleRuntime [] with Getenv := fun name => name }
      { Prefix := "test_prefix_", StrictCase := true } "testing_var").2.1 rfl,
   (getEnvVar_name { sampleRuntime [] with Getenv := fun name => name }
      { Prefix := "", StrictCase := false } "testing_var").2.2.1 rfl rfl,
   (getEnvVar_name { sampleRuntime [] with Getenv := fun name => name }
      { Prefix := "", StrictCase := true } "testing_var").2.2.2 rfl rfl⟩

/-- The loop of `sliceSetter` returns with the error of the first token that
fails to convert. -/
theorem sliceSetter.loop_first_failure (fe : setter) (zero : Value) (pre post : List String)
    (tok : String) (err : Error) (hpre : ∀ t ∈ pre, (fe t zero).1 = none)
    (htok : (fe tok zero).1 = some err) :
    sliceSetter.loop (.ok fe) zero (pre ++ tok :: post) = .error err := by
  induction pre with
  | nil =>
    simp only [List.nil_append, sliceSetter.loop]
    rcases hfe : fe tok zero with ⟨e, x⟩
    rw [hfe] at htok
    dsimp only at htok
    subst htok
    rfl
  | cons v vs ih =>
    have hv := hpre v (List.mem_cons_self _ _)
    have ih' := ih (fun t ht => hpre t (List.mem_cons_of_mem _ ht))
    simp only [List.cons_append, sliceSetter.loop]
    rcases hfe : fe v zero with ⟨e, x⟩
    rw [hfe] at hv
    dsimp only at hv
    subst hv
    have ih'' : sliceSetter.loop (.ok fe) zero (vs.append (tok :: post)) = .error err := ih'
    simp only [ih'']

/-- A list with an element on which `p` holds splits at the first such
element. -/
theorem exists_first (p : String → Prop) (l : List String) (h : ∃ t ∈ l, p t) :
    ∃ pre tok post, l = pre ++ tok :: post ∧ (∀ t ∈ pre, ¬ p t) ∧ p tok := by
  classical
  induction l with
  | nil => obtain ⟨t, ht, _⟩ := h; cases ht
  | cons a l ih =>
    by_cases ha : p a
    · exact ⟨[], a, l, rfl, by simp, ha⟩
    · obtain ⟨t, ht, hp⟩ := h
      have hl : ∃ t ∈ l, p t := by
        rcases List.mem_cons.1 ht with rfl | ht
        · exact absurd hp ha
        · exact ⟨t, ht, hp⟩
      obtain ⟨pre, tok, post, hl', hpre, htok⟩ := ih hl
      refine ⟨a :: pre, tok, post, by rw [hl']; rfl, ?_, htok⟩
      intro t' ht'
      rcases List.mem_cons.1 ht' with rfl | ht'
      · exact ha
      · exact hpre t' ht'

/-- C20, amended. For a slice whose element type is not `uint8` and has the
converter `fe`, and an input that is not blank in which some token fails to
convert: the tokens split at the first failing one, the slice converter
returns that token's error, and the field holds what it held before. -/
theorem sliceSetter_first_failure (rt : Runtime) (elem : Typ) (fe : setter)
    (hfe : getSetter rt elem = .ok fe) (h8 : elem.Kind ≠ .Uint8) (s : String) (f : Value)
    (hb : s.toList.all isSpace = false)
    (hfail : ∃ t ∈ Split s ',', (fe t elem.zero).1 ≠ none) :
    ∃ conv, getSetter rt (.Slice elem) = .ok conv ∧
      ∃ pre tok post err, Split s ',' = pre ++ tok :: post ∧
        (∀ t ∈ pre, (fe t elem.zero).1 = none) ∧ (fe tok elem.zero).1 = some err ∧
        conv s f = (some err, f) := by
  obtain ⟨pre, tok, post, hsplit, hpre, htok⟩ :=
    exists_first (fun t => (fe t elem.zero).1 ≠ none) _ hfail
  have hpre' : ∀ t ∈ pre, (fe t elem.zero).1 = none := fun t ht => not_not.1 (hpre t ht)
  obtain ⟨err, herr⟩ := Option.ne_none_iff_exists'.1 htok
  refine ⟨sliceSetter elem (.ok fe), by simp only [getSetter, hfe], pre, tok, post, err, hsplit,
    hpre', herr, ?_⟩
  have hz : (TrimSpace s).length > 0 := by
    rcases Nat.eq_zero_or_pos (TrimSpace s).length with h | h
    · rw [(TrimSpace_length_eq_zero_iff s).1 h] at hb; cases hb
    · exact h
  simp only [sliceSetter, h8, if_false, hz, if_true, hsplit,
    sliceSetter.loop_first_failure fe _ pre post tok err hpre' herr]

/-- C20, amended, at a slice of `int` holding `[7]` and the input `1,x,y`:
the error is that of `x`, the first token that fails, and the field still
holds `[7]`. -/
theorem sliceSetter_first_failure_witness :
    "1,x,y".toList.all isSpace = false ∧
    ∃ conv, getSetter (sampleRuntime []) (.Slice (.Int .Int "" "int")) = .ok conv ∧
      ∃ pre tok post err, Split "1,x,y" ',' = pre ++ tok :: post ∧
        (∀ t ∈ pre, (intSetter (sampleRuntime []) .Int "" "int" t (Value.Int 0)).1 = none) ∧
        (intSetter (sampleRuntime []) .Int "" "int" tok (Value.Int 0)).1 = some err ∧
        conv "1,x,y" (.Slice (some [.Int 7])) = (some err, .Slice (some [.Int 7])) :=
  ⟨by decide,
   sliceSetter_first_failure (sampleRuntime []) (.Int .Int "" "int")
     (intSetter (sampleRuntime []) .Int "" "int") rfl (by decide) "1,x,y"
     (.Slice (some [.Int 7])) (by decide)
     ⟨"x", by decide, fun h => by cases h⟩⟩

/-- C20 fails as stated. On a slice of `int` holding `[7]` and the input of
one blank, the only token is the blank, which does not convert to `int`; the
converter returns nil and replaces the contents by the empty slice.  On a
slice of `uint8` and the input `300`, the token does not convert to `uint8`;
the converter returns nil and stores the three bytes of the input. -/
theorem sliceSetter_blank_or_bytes_no_error :
    (Split " " ',' = [" "] ∧
      (intSetter (sampleRuntime []) .Int "" "int" " " (Value.Int 0)).1 =
        some (.NumError "ParseInt" " " .ErrSyntax) ∧
      ∃ conv, getSetter (sampleRuntime []) (.Slice (.Int .Int "" "int")) = .ok conv ∧
        conv " " (.Slice (some [.Int 7])) = (none, .Slice (some []))) ∧
    (Split "300" ',' = ["300"] ∧
      (uintSetter (sampleRuntime []) .Uint8 "300" (Value.Uint 0)).1 =
        some (.NumError "ParseUint" "300" .ErrRange) ∧
      ∃ conv, getSetter (sampleRuntime []) (.Slice (.Uint .Uint8)) = .ok conv ∧
        conv "300" (.Slice (some [.Uint 7])) =
          (none, .Slice (some [.Uint 51, .Uint 48, .Uint 48]))) :=
  ⟨⟨by decide, rfl, _, rfl, rfl⟩, ⟨by decide, rfl, _, rfl, rfl⟩⟩

/-! ## ssm/ssm.go -/

theorem splitChars_head (sep : Char) (l : List Char) :
    ∃ rest, splitChars sep l = l.takeWhile (fun c => c != sep) :: rest := by
  induction l with
  | nil => exact ⟨[], rfl⟩
  | cons c cs ih =>
    obtain ⟨rest, hrest⟩ := ih
    by_cases h : c = sep
    · subst h
      exact ⟨splitChars c cs, by simp [splitChars]⟩
    · refine ⟨rest, ?_⟩
      have hne : (c != sep) = true := by simpa using h
      simp only [splitChars, h, if_false, hrest, List.takeWhile_cons, hne, if_true]

theorem ssm.contains_iff (haystack : List String) (needle : String) :
    ssm.contains haystack needle = true ↔ needle ∈ haystack := by
  induction haystack with
  | nil => simp [ssm.contains]
  | cons v rest ih =>
    by_cases h : v = needle
    · simp [ssm.contains, h]
    · simp [ssm.contains, h, ih, Ne.symm h]

theorem HasPrefix_append (pfx s : String) : HasPrefix (pfx ++ s) pfx = true := by
  simp [HasPrefix, List.isPrefixOf_iff_prefix]

/-- C13. With `t` the lower-cased and trimmed tag value, `k` the text of `t`
before its first comma is the first of the comma-separated parts of `t`.
`getParamName` returns `k` when one of the parts after it is `absolute` or
when `k` starts with the prefix, and the prefix followed by `k` otherwise; so
without the modifier `absolute` the result starts with the prefix. -/
theorem getParamName_result (ToLower : String → String) (tagValue pfx : String) :
    (Split (TrimSpace (ToLower tagValue)) ',').head? =
      some (String.mk ((TrimSpace (ToLower tagValue)).toList.takeWhile (fun c => c != ','))) ∧
    ("absolute" ∈ (Split (TrimSpace (ToLower tagValue)) ',').tail ∨
        HasPrefix (String.mk ((TrimSpace (ToLower tagValue)).toList.takeWhile
          (fun c => c != ','))) pfx = true →
      ssm.getParamName ToLower tagValue pfx =
        String.mk ((TrimSpace (ToLower tagValue)).toList.takeWhile (fun c => c != ','))) ∧
    (¬ ("absolute" ∈ (Split (TrimSpace (ToLower tagValue)) ',').tail ∨
        HasPrefix (String.mk ((TrimSpace (ToLower tagValue)).toList.takeWhile
          (fun c => c != ','))) pfx = true) →
      ssm.getParamName ToLower tagValue pfx =
        pfx ++ String.mk ((TrimSpace (ToLower tagValue)).toList.takeWhile (fun c => c != ','))) ∧
    ("absolute" ∉ (Split (TrimSpace (ToLower tagValue)) ',').tail →
      HasPrefix (ssm.getParamName ToLower tagValue pfx) pfx = true) := by
  obtain ⟨rest, hrest⟩ := splitChars_head ',' (TrimSpace (ToLower tagValue)).toList
  have hsplit : Split (TrimSpace (ToLower tagValue)) ',' =
      String.mk ((TrimSpace (ToLower tagValue)).toList.takeWhile (fun c => c != ',')) ::
        rest.map String.mk := by
    simp only [Split, hrest, List.map_cons]
  generalize String.mk ((TrimSpace (ToLower tagValue)).toList.takeWhile (fun c => c != ',')) = k
    at hsplit
  have habs : (if (k :: rest.map String.mk).length > 1 then
      ssm.contains (rest.map String.mk) "absolute" else false) = true ↔
      "absolute" ∈ rest.map String.mk := by
    rw [← ssm.contains_iff]
    by_cases hl : (k :: rest.map String.mk).length > 1
    · simp only [hl, if_true]
    · have : rest.map String.mk = [] := by
        cases hr : rest.map String.mk with
        | nil => rfl
        | cons a b => rw [hr] at hl; simp at hl
      simp [this, ssm.contains]
  have hcases : ssm.getParamName ToLower tagValue pfx =
      if ("absolute" ∈ rest.map String.mk ∨ HasPrefix k pfx = true) then k else pfx ++ k := by
    simp only [ssm.getParamName, hsplit, Bool.or_eq_true, habs]
  rw [hsplit]
  refine ⟨rfl, ?_, ?_, ?_⟩
  · intro h
    rw [hcases, if_pos (by simpa using h)]
  · intro h
    rw [hcases, if_neg (by simpa using h)]
  · intro h
    rw [hcases]
    by_cases hp : HasPrefix k pfx = true
    · rw [if_pos (Or.inr hp)]; exact hp
    · rw [if_neg (by
        rintro (h' | h')
        · exact h (by simpa using h')
        · exact hp h')]
      exact HasPrefix_append pfx k

/-- C13 at the three keys of the test `NormalGet` and the prefix
`/test/prefix/`. -/
theorem getParamName_result_witness :
    ssm.getParamName asciiLower "KEY" "/test/prefix/" = "/test/prefix/key" ∧
    ssm.getParamName asciiLower "/test/prefix/key2" "/test/prefix/" = "/test/prefix/key2" ∧
    ssm.getParamName asciiLower "/different-prefix/key3,absolute" "/test/prefix/" =
      "/different-prefix/key3" ∧
    HasPrefix (ssm.getParamName asciiLower " Key2, absolute" "/test/prefix/") "/test/prefix/" =
      true :=
  ⟨(getParamName_result asciiLower "KEY" "/test/prefix/").2.2.1 (by decide),
   (getParamName_result asciiLower "/test/prefix/key2" "/test/prefix/").2.1 (by decide),
   (getParamName_result asciiLower "/different-prefix/key3,absolute" "/test/prefix/").2.1
     (by decide),
   (getParamName_result asciiLower " Key2, absolute" "/test/prefix/").2.2.2 (by decide)⟩

/-! ## processSources: the sources invoked -/

theorem hasLookupKeys_of_none {X : Type} (paramMap : ParamMap X) (s : Source (World X))
    (h : paramMap.get? s.TagKey = none) : hasLookupKeys paramMap s = false := by
  simp only [hasLookupKeys, h]

theorem hasLookupKeys_of_some {X : Type} (paramMap : ParamMap X) (s : Source (World X))
    (params : GoMap (List (Parameter (World X)))) (h : paramMap.get? s.TagKey = some params) :
    hasLookupKeys paramMap s = (params.length != 0) := by
  simp only [hasLookupKeys, h]

theorem processSources.loop_eq_foldl {X : Type} (rt : Runtime) (paramMap : ParamMap X)
    (sources : List (Source (World X))) (errs : List Error) (w : World X) :
    processSources.loop rt paramMap sources errs w =
      (sources.filter (hasLookupKeys paramMap)).foldl (invoke rt paramMap) (errs, w) := by
  induction sources generalizing errs w with
  | nil => rfl
  | cons s rest ih =>
    cases hg : paramMap.get? s.TagKey with
    | none =>
      simp only [processSources.loop, hg, List.filter_cons, hasLookupKeys_of_none _ _ hg]
      simpa using ih errs w
    | some params =>
      by_cases hl : params.length = 0
      · have hk : hasLookupKeys paramMap s = false := by
          rw [hasLookupKeys_of_some _ _ _ hg]; simp [hl]
        simp only [processSources.loop, hg, List.filter_cons, hk, hl, if_true]
        simpa using ih errs w
      · have hk : hasLookupKeys paramMap s = true := by
          rw [hasLookupKeys_of_some _ _ _ hg]; simpa using hl
        simp only [processSources.loop, hg, List.filter_cons, hk, hl, if_false, if_true,
          List.foldl_cons, invoke]
        exact ih _ _

theorem resolveResults_length {X : Type} (rt : Runtime) (paramMap : ParamMap X)
    (sources : List (Source (World X))) (w : World X) :
    (resolveResults rt paramMap sources w).length =
      (sources.filter (hasLookupKeys paramMap)).length := by
  induction sources generalizing w with
  | nil => rfl
  | cons s rest ih =>
    cases hg : paramMap.get? s.TagKey with
    | none =>
      simp only [resolveResults, hg, List.filter_cons, hasLookupKeys_of_none _ _ hg]
      simpa using ih w
    | some params =>
      by_cases hl : params.length = 0
      · have hk : hasLookupKeys paramMap s = false := by
          rw [hasLookupKeys_of_some _ _ _ hg]; simp [hl]
        simp only [resolveResults, hg, List.filter_cons, hk, hl, if_true]
        simpa using ih w
      · have hk : hasLookupKeys paramMap s = true := by
          rw [hasLookupKeys_of_some _ _ _ hg]; simpa using hl
        simp only [resolveResults, hg, List.filter_cons, hk, hl, if_false, if_true,
          List.length_cons, ih]

/-- C17, amended. `processSources` is the run, one after the other in the
order of the list, of `Process` on exactly the sources that have at least one
registered lookup key, each once and whatever the sources before returned;
with no `*EnvSource` among the caller's sources the list is the caller's with
the default environment source last.  When traversal records no error that is
what `Process` does.  The combined result is nil iff every source invoked
returned nil or a multi-error without errors in it. -/
theorem processSources_invocations {X : Type} (rt : Runtime)
    (sources : List (Source (World X))) (paramMap : ParamMap X) (w : World X) :
    processSources rt sources paramMap w =
      (ErrorOrNil ((sources.filter (hasLookupKeys paramMap)).foldl (invoke rt paramMap)
          ([], w)).1,
        ((sources.filter (hasLookupKeys paramMap)).foldl (invoke rt paramMap) ([], w)).2) ∧
    (resolveResults rt paramMap sources w).length =
      (sources.filter (hasLookupKeys paramMap)).length ∧
    ((processSources rt sources paramMap w).1 = none ↔
      ∀ r ∈ resolveResults rt paramMap sources w, r = none ∨ r = some (.Multi [])) ∧
    (sources.any Source.isEnvSource = false →
      (withEnvSource sources).filter (hasLookupKeys paramMap) =
        sources.filter (hasLookupKeys paramMap) ++
          [Source.env { Prefix := "", StrictCase := false }].filter (hasLookupKeys paramMap)) ∧
    (∀ paramMap0 : ParamMap X, initParamMap (withEnvSource sources) [] = .ok paramMap0 →
      process rt [] w.record paramMap0 ((withEnvSource sources).map Source.TagKey) =
        (none, paramMap) →
      Process rt sources w = processSources rt (withEnvSource sources) paramMap w) := by
  refine ⟨?_, resolveResults_length rt paramMap sources w, ?_, ?_, ?_⟩
  · simp only [processSources, processSources.loop_eq_foldl]
  · simp only [processSources, processSources.loop_errs, ErrorOrNil_eq_none_iff,
      foldl_Append_eq_nil_iff, true_and]
  · intro h
    rw [withEnvSource_of_no_env sources h, List.filter_append]
  · intro paramMap0 hinit ht
    have h1 := Process_of_traversal_ok rt sources w paramMap0 hinit (by rw [ht])
    rw [h1, ht]

/-- C17, amended, at the mock sources `c`, `a`, `b`, which log their tag key
when invoked, and a record with a required field for `a`, a field for `b` and
one for the environment: `a` has no value and returns an error; `b` and the
environment source are invoked all the same and set their fields; `c`, with
no field, is not invoked. -/
theorem processSources_invocations_witness :
    (withEnvSource [mockSource "c" [], mockSource "a" [], mockSource "b" [("kb", "vb")]]).filter
        (hasLookupKeys
          (process (sampleRuntime [("KE", "ve")]) [] threeSourceRecord
            [("c", []), ("a", []), ("b", []), ("env", [])] ["c", "a", "b", "env"]).2) =
      [mockSource "a" [], mockSource "b" [("kb", "vb")],
        Source.env { Prefix := "", StrictCase := false }] ∧
    Process (sampleRuntime [("KE", "ve")])
        [mockSource "c" [], mockSource "a" [], mockSource "b" [("kb", "vb")]]
        { record := threeSourceRecord, ext := [] } =
      (some (.Multi [.New
          "error: field A was specified as required, but was not found via key ka in source a"]),
        { record :=
            [ ({ Name := "A", Tag := [("a", "ka"), ("required", "true")] },
                .leaf .String (.String "")),
              ({ Name := "B", Tag := [("b", "kb")] }, .leaf .String (.String "vb")),
              ({ Name := "E", Tag := [("env", "KE")] }, .leaf .String (.String "ve")) ],
          ext := ["a", "b"] }) := by
  have h := (processSources_invocations (sampleRuntime [("KE", "ve")])
    [mockSource "c" [], mockSource "a" [], mockSource "b" [("kb", "vb")]]
    (process (sampleRuntime [("KE", "ve")]) [] threeSourceRecord
      [("c", []), ("a", []), ("b", []), ("env", [])] ["c", "a", "b", "env"]).2
    { record := threeSourceRecord, ext := [] }).2.2.2.2
    [("c", []), ("a", []), ("b", []), ("env", [])] rfl rfl
  exact ⟨rfl, h.trans rfl⟩

/-- C17 fails as stated. The one source with a registered lookup key returns
a `*multierror.Error` without errors in it, which is not nil; `Append`
flattens it away and the combined result is nil. -/
theorem processSources_nil_with_non_nil_source :
    resolveResults (sampleRuntime [])
        (process (sampleRuntime []) [] quietRecord [("quiet", []), ("env", [])]
          ["quiet", "env"]).2
        (withEnvSource [quietSource]) { record := quietRecord, ext := () } =
      [some (.Multi [])] ∧
    Process (sampleRuntime []) [quietSource] { record := quietRecord, ext := () } =
      (none, { record := quietRecord, ext := () }) :=
  ⟨rfl, rfl⟩

/-! ## ssm: getParameters -/

theorem specBatches.go_length (fuel : Nat) (names : List String) (h : names.length ≤ fuel) :
    (specBatches.go fuel names).length = (names.length + 9) / 10 := by
  induction fuel generalizing names with
  | zero =>
    have : names.length = 0 := by omega
    simp [specBatches.go, this]
  | succ fuel ih =>
    by_cases h0 : names.length = 0
    · simp [specBatches.go, h0]
    · simp only [specBatches.go, h0, if_false, List.length_cons]
      rw [ih (names.drop 10) (by rw [List.length_drop]; omega), List.length_drop]
      omega

theorem specBatches.go_size (fuel : Nat) (names : List String) :
    ∀ b ∈ specBatches.go fuel names, 1 ≤ b.length ∧ b.length ≤ 10 := by
  induction fuel generalizing names with
  | zero => intro b hb; simp [specBatches.go] at hb
  | succ fuel ih =>
    intro b hb
    by_cases h0 : names.length = 0
    · simp [specBatches.go, h0] at hb
    · simp only [specBatches.go, h0, if_false, List.mem_cons] at hb
      rcases hb with rfl | hb
      · rw [List.length_take]; omega
      · exact ih _ b hb

theorem specBatches.go_flatten (fuel : Nat) (names : List String) (h : names.length ≤ fuel) :
    (specBatches.go fuel names).flatten = names := by
  induction fuel generalizing names with
  | zero =>
    have : names = [] := List.length_eq_zero.1 (by omega)
    simp [specBatches.go, this]
  | succ fuel ih =>
    by_cases h0 : names.length = 0
    · have : names = [] := List.length_eq_zero.1 h0
      simp [specBatches.go, this]
    · simp only [specBatches.go, h0, if_false, List.flatten_cons]
      rw [ih (names.drop 10) (by rw [List.length_drop]; omega), List.take_append_drop]

theorem ssm.batch_eq (names : List String) (i : Nat) :
    (names.drop i).take ((if i + 10 > names.length then names.length else i + 10) - i) =
      (names.drop i).take 10 := by
  by_cases h : i + 10 > names.length
  · simp only [h, if_true]
    rw [List.take_of_length_le (by rw [List.length_drop]),
      List.take_of_length_le (by rw [List.length_drop]; omega)]
  · simp only [h, if_false, Nat.add_sub_cancel_left]

theorem ssm.Source.getParameters.loop_watched {τ : Type} (s : ssm.Source τ)
    (names : List String) (fuel i : Nat) (acc : List StoreParameter) (t : τ)
    (log : List StoreCall) :
    ∃ calls : List StoreCall,
      ssm.Source.getParameters.loop s.watched names fuel i acc (t, log) =
        ((ssm.Source.getParameters.loop s names fuel i acc t).1,
          ((ssm.Source.getParameters.loop s names fuel i acc t).2, log ++ calls)) ∧
      calls.map Prod.fst <+: specBatches.go fuel (names.drop i) ∧
      (∀ ps, (ssm.Source.getParameters.loop s names fuel i acc t).1 = .ok ps →
        calls.map Prod.fst = specBatches.go fuel (names.drop i) ∧
        ps = acc ++ calls.flatMap StoreCall.parameters ∧
        ∀ c ∈ calls, c.failed = false) ∧
      (∀ e, (ssm.Source.getParameters.loop s names fuel i acc t).1 = .error e →
        ∃ c ∈ calls, ∃ err, c.2 = .error err ∧
          e = .Wrap "error fetching items from param store" err) := by
  induction fuel generalizing i acc t log with
  | zero =>
    refine ⟨[], by simp [ssm.Source.getParameters.loop], by simp [specBatches.go], ?_, ?_⟩
    · intro ps h
      simp only [ssm.Source.getParameters.loop, Except.ok.injEq] at h
      simp [specBatches.go, h]
    · intro e h
      simp [ssm.Source.getParameters.loop] at h
  | succ fuel ih =>
    by_cases hi : i < names.length
    · have hlen : ¬ (names.drop i).length = 0 := by rw [List.length_drop]; omega
      have hgo : specBatches.go (fuel + 1) (names.drop i) =
          (names.drop i).take 10 :: specBatches.go fuel (names.drop (i + 10)) := by
        simp only [specBatches.go, hlen, if_false, List.drop_drop]
      simp only [ssm.Source.getParameters.loop, hi, if_true, ssm.batch_eq, hgo,
        ssm.Source.watched, GoConfig.watched]
      rcases hs : s.Ssm ((names.drop i).take 10) t with ⟨err | response, t1⟩
      · refine ⟨[((names.drop i).take 10, .error err)], rfl, ?_, ?_, ?_⟩
        · simp
        · intro ps h; cases h
        · intro e h
          simp only [Except.error.injEq] at h
          exact ⟨_, List.mem_singleton.2 rfl, err, rfl, h.symm⟩
      · obtain ⟨calls, h1, h2, h3, h4⟩ := ih (i + 10) (acc ++ response) t1
          (log ++ [((names.drop i).take 10, .ok response)])
        simp only [ssm.Source.watched, GoConfig.watched] at h1
        refine ⟨((names.drop i).take 10, .ok response) :: calls, ?_, ?_, ?_, ?_⟩
        · simp only [h1, List.append_assoc, List.singleton_append]
        · simp only [List.map_cons]
          exact (List.prefix_cons_inj _).2 h2
        · intro ps h
          obtain ⟨ha, hb, hc⟩ := h3 ps h
          refine ⟨by simp only [List.map_cons, ha], ?_, ?_⟩
          · simp only [hb, List.flatMap_cons, StoreCall.parameters, List.append_assoc]
          · intro c hc'
            rcases List.mem_cons.1 hc' with rfl | hc'
            · rfl
            · exact hc c hc'
        · intro e h
          obtain ⟨c, hc, err, h5, h6⟩ := h4 e h
          exact ⟨c, List.mem_cons_of_mem _ hc, err, h5, h6⟩
    · have hnil : names.drop i = [] := List.drop_eq_nil_iff.2 (by omega)
      refine ⟨[], by simp [ssm.Source.getParameters.loop, hi], by simp, ?_, ?_⟩
      · intro ps h
        simp only [ssm.Source.getParameters.loop, hi, if_false, Except.ok.injEq] at h
        simp [specBatches.go, hnil, h]
      · intro e h
        simp [ssm.Source.getParameters.loop, hi] at h

theorem GoMap.get?_set {V : Type} (m : GoMap V) (key : String) (v : V) (k : String) :
    (m.set key v).get? k = if key = k then some v else m.get? k := by
  induction m with
  | nil => simp [GoMap.set, GoMap.get?]
  | cons kv rest ih =>
    obtain ⟨k0, v0⟩ := kv
    by_cases h0 : k0 = key
    · by_cases hk : key = k
      · simp [GoMap.set, GoMap.get?, h0, hk]
      · simp [GoMap.set, GoMap.get?, h0, hk]
    · by_cases hk0 : k0 = k
      · have hkk : ¬ key = k := fun e => h0 (hk0.trans e.symm)
        have hkk2 : ¬ k = key := fun e => hkk e.symm
        subst hk0
        simp [GoMap.set, GoMap.get?, hkk, hkk2]
      · simp only [GoMap.set, h0, if_false, GoMap.get?, hk0]
        exact ih

theorem ssm.Source.getParameters.merge_append (ps qs : List StoreParameter)
    (result : GoMap String) :
    ssm.Source.getParameters.merge (ps ++ qs) result =
      ssm.Source.getParameters.merge qs (ssm.Source.getParameters.merge ps result) := by
  induction ps generalizing result with
  | nil => rfl
  | cons p ps ih =>
    simp only [List.cons_append, ssm.Source.getParameters.merge]
    rcases p.Name with _ | n <;> rcases p.Value with _ | v <;> exact ih _

theorem ssm.Source.getParameters.merge_get? (ps : List StoreParameter) (result : GoMap String)
    (name : String) :
    (ssm.Source.getParameters.merge ps result).get? name =
      match lastValue name ps with
      | some v => some v
      | none => result.get? name := by
  induction ps using List.reverseRecOn with
  | nil => rfl
  | append_singleton ps p ih =>
    rw [ssm.Source.getParameters.merge_append]
    simp only [lastValue, List.reverse_append, List.reverse_singleton, List.singleton_append,
      List.findSome?_cons]
    simp only [lastValue] at ih
    rcases hn : p.Name with _ | n <;> rcases hv : p.Value with _ | v
    · simp only [ssm.Source.getParameters.merge, hn, hv]; exact ih
    · simp only [ssm.Source.getParameters.merge, hn, hv]; exact ih
    · simp only [ssm.Source.getParameters.merge, hn, hv]; exact ih
    · simp only [ssm.Source.getParameters.merge, hn, hv, GoMap.get?_set]
      by_cases h : n = name
      · simp only [h, if_true]
      · simp only [h, if_false]; exact ih

theorem ssm.Source.getParameters_watched {τ : Type} (s : ssm.Source τ) (names : List String)
    (t : τ) (log : List StoreCall) :
    ∃ calls : List StoreCall,
      s.watched.getParameters names (t, log) =
        ((s.getParameters names t).1, ((s.getParameters names t).2, log ++ calls)) ∧
      calls.map Prod.fst <+: specBatches names ∧
      ((∀ c ∈ calls, c.failed = false) →
        calls.map Prod.fst = specBatches names ∧
        (s.getParameters names t).1 =
          .ok (ssm.Source.getParameters.merge (calls.flatMap StoreCall.parameters) [])) ∧
      ((∃ c ∈ calls, c.failed = true) →
        ∃ err, (s.getParameters names t).1 =
          .error (.Wrap "error fetching items from param store" err)) := by
  obtain ⟨calls, h1, h2, h3, h4⟩ :=
    ssm.Source.getParameters.loop_watched s names names.length 0 [] t log
  simp only [List.drop_zero] at h2 h3
  refine ⟨calls, ?_, h2, ?_, ?_⟩
  · simp only [ssm.Source.getParameters, h1]
    rcases ssm.Source.getParameters.loop s names names.length 0 [] t with ⟨err | ps, t1⟩ <;> rfl
  · intro hno
    rcases hl : ssm.Source.getParameters.loop s names names.length 0 [] t with ⟨e | ps, t1⟩
    · obtain ⟨c, hc, err, h5, _⟩ := h4 e (by rw [hl])
      have := hno c hc
      simp [StoreCall.failed, h5] at this
    · obtain ⟨ha, hb, _⟩ := h3 ps (by rw [hl])
      refine ⟨ha, ?_⟩
      simp only [ssm.Source.getParameters, hl, hb, List.nil_append]
  · rintro ⟨c, hc, hf⟩
    rcases hl : ssm.Source.getParameters.loop s names names.length 0 [] t with ⟨e | ps, t1⟩
    · obtain ⟨c', _, err, _, h6⟩ := h4 e (by rw [hl])
      exact ⟨err, by simp only [ssm.Source.getParameters, hl, h6]⟩
    · obtain ⟨_, _, hc'⟩ := h3 ps (by rw [hl])
      rw [hc' c hc] at hf
      cases hf

theorem ssm.Source.getParameters.loop_watched_stop {τ : Type} (s : ssm.Source τ)
    (names : List String) (fuel i : Nat) (acc : List StoreParameter) (t : τ)
    (log : List StoreCall) :
    ∃ calls : List StoreCall,
      (ssm.Source.getParameters.loop s.watched names fuel i acc (t, log)).2.2 = log ++ calls ∧
      (∀ ps, (ssm.Source.getParameters.loop s names fuel i acc t).1 = .ok ps →
        ∀ c ∈ calls, c.failed = false) ∧
      (∀ e, (ssm.Source.getParameters.loop s names fuel i acc t).1 = .error e →
        ∃ pre c e0, calls = pre ++ [c] ∧ (∀ d ∈ pre, d.failed = false) ∧
          c.2 = .error e0 ∧ e = .Wrap "error fetching items from param store" e0) := by
  induction fuel generalizing i acc t log with
  | zero =>
    refine ⟨[], by simp [ssm.Source.getParameters.loop], ?_, ?_⟩
    · intro ps _ c hc
      cases hc
    · intro e h
      simp [ssm.Source.getParameters.loop] at h
  | succ fuel ih =>
    by_cases hi : i < names.length
    · simp only [ssm.Source.getParameters.loop, hi, if_true, ssm.batch_eq,
        ssm.Source.watched, GoConfig.watched]
      rcases hs : s.Ssm ((names.drop i).take 10) t with ⟨err | response, t1⟩
      · refine ⟨[((names.drop i).take 10, .error err)], rfl, ?_, ?_⟩
        · intro ps h
          cases h
        · intro e h
          simp only [Except.error.injEq] at h
          exact ⟨[], _, err, rfl, (fun _ hd => by cases hd), rfl, h.symm⟩
      · obtain ⟨calls, h1, h3, h4⟩ := ih (i + 10) (acc ++ response) t1
          (log ++ [((names.drop i).take 10, .ok response)])
        simp only [ssm.Source.watched, GoConfig.watched] at h1
        refine ⟨((names.drop i).take 10, .ok response) :: calls, ?_, ?_, ?_⟩
        · simp only [h1, List.append_assoc, List.singleton_append]
        · intro ps h c hc
          rcases List.mem_cons.1 hc with rfl | hc
          · rfl
          · exact h3 ps h c hc
        · intro e h
          obtain ⟨pre, c, e0, hcalls, hpre, hc, he⟩ := h4 e h
          refine ⟨((names.drop i).take 10, .ok response) :: pre, c, e0, ?_, ?_, hc, he⟩
          · rw [hcalls, List.cons_append]
          · intro d hd
            rcases List.mem_cons.1 hd with rfl | hd
            · rfl
            · exact hpre d hd
    · refine ⟨[], by simp [ssm.Source.getParameters.loop, hi], ?_, ?_⟩
      · intro ps _ c hc
        cases hc
      · intro e h
        simp [ssm.Source.getParameters.loop, hi] at h

/-- The calls `getParameters` makes stop at the first one that returns an
error: when it returns a mapping no call failed, and when it returns an error
the last call made failed with the error wrapped and no call before it
failed. -/
theorem ssm.Source.getParameters_watched_stop {τ : Type} (s : ssm.Source τ)
    (names : List String) (t : τ) :
    (∀ result, (s.getParameters names t).1 = .ok result →
      ∀ c ∈ (s.watched.getParameters names (t, [])).2.2, c.failed = false) ∧
    (∀ err, (s.getParameters names t).1 = .error err →
      ∃ pre c e0, (s.watched.getParameters names (t, [])).2.2 = pre ++ [c] ∧
        (∀ d ∈ pre, d.failed = false) ∧ c.2 = .error e0 ∧
        err = .Wrap "error fetching items from param store" e0) := by
  obtain ⟨calls, h1, h3, h4⟩ :=
    ssm.Source.getParameters.loop_watched_stop s names names.length 0 [] t []
  have hlog : (s.watched.getParameters names (t, [])).2.2 = calls := by
    rw [List.nil_append] at h1
    simp only [ssm.Source.getParameters]
    rcases hl : ssm.Source.getParameters.loop s.watched names names.length 0 [] (t, [])
      with ⟨e | ps, t1, l1⟩ <;> rw [hl] at h1 <;> exact h1
  rw [hlog]
  constructor
  · intro result h
    rcases hl : ssm.Source.getParameters.loop s names names.length 0 [] t with ⟨e | ps, t1⟩
    · simp [ssm.Source.getParameters, hl] at h
    · exact h3 ps (by rw [hl])
  · intro err h
    rcases hl : ssm.Source.getParameters.loop s names names.length 0 [] t with ⟨e | ps, t1⟩
    · simp only [ssm.Source.getParameters, hl, Except.error.injEq] at h
      subst h
      exact h4 e (by rw [hl])
    · simp [ssm.Source.getParameters, hl] at h

/-- C18, amended. The groups of at most 10 of the specification number
ceil(n/10), hold between 1 and 10 names each and concatenate to the input.
The calls `getParameters` makes carry an initial segment of these groups, in
order; when no call returns an error they carry all of them, and the mapping
returned is the merge of the responses in call order, which holds for each
name the value of the last response entry with that name and a value.
Watching the store changes neither the result nor the state of the store.
The calls stop at the first one that returns an error: when `getParameters`
returns a mapping no call made has failed, and when it returns an error the
last call made has failed, with the error returned wrapping its error, and no
call before it has failed. -/
theorem getParameters_batches {τ : Type} (s : ssm.Source τ) (names : List String) (t : τ) :
    ((specBatches names).length = (names.length + 9) / 10 ∧
      (∀ b ∈ specBatches names, 1 ≤ b.length ∧ b.length ≤ 10) ∧
      (specBatches names).flatten = names) ∧
    ((s.watched.getParameters names (t, [])).1 = (s.getParameters names t).1 ∧
      (s.watched.getParameters names (t, [])).2.1 = (s.getParameters names t).2) ∧
    (s.watched.getParameters names (t, [])).2.2.map Prod.fst <+: specBatches names ∧
    ((s.watched.getParameters names (t, [])).2.2.any StoreCall.failed = false →
      (s.watched.getParameters names (t, [])).2.2.map Prod.fst = specBatches names ∧
      (s.getParameters names t).1 =
        .ok (ssm.Source.getParameters.merge
          ((s.watched.getParameters names (t, [])).2.2.flatMap StoreCall.parameters) []) ∧
      ∀ name, GoMap.get? (ssm.Source.getParameters.merge
          ((s.watched.getParameters names (t, [])).2.2.flatMap StoreCall.parameters) []) name =
        lastValue name
          ((s.watched.getParameters names (t, [])).2.2.flatMap StoreCall.parameters)) ∧
    (∀ result, (s.getParameters names t).1 = .ok result →
      ∀ c ∈ (s.watched.getParameters names (t, [])).2.2, c.failed = false) ∧
    (∀ err, (s.getParameters names t).1 = .error err →
      ∃ pre c e0, (s.watched.getParameters names (t, [])).2.2 = pre ++ [c] ∧
        (∀ d ∈ pre, d.failed = false) ∧ c.2 = .error e0 ∧
        err = .Wrap "error fetching items from param store" e0) := by
  have hstop := ssm.Source.getParameters_watched_stop s names t
  obtain ⟨calls, h1, h2, h3, _⟩ := ssm.Source.getParameters_watched s names t []
  rw [h1, List.nil_append] at hstop ⊢
  refine ⟨⟨specBatches.go_length _ _ (Nat.le_refl _), specBatches.go_size _ _,
    specBatches.go_flatten _ _ (Nat.le_refl _)⟩, ⟨rfl, rfl⟩, h2, ?_, hstop.1, hstop.2⟩
  intro hno
  have hno' : ∀ c ∈ calls, c.failed = false := by
    intro c hc
    have := List.any_eq_false.1 hno c hc
    simpa using this
  obtain ⟨ha, hb⟩ := h3 hno'
  refine ⟨ha, hb, ?_⟩
  intro name
  rw [ssm.Source.getParameters.merge_get?]
  cases lastValue name (calls.flatMap StoreCall.parameters) <;> rfl

/-- C18, amended, at twelve names and a store that knows two of them: two
calls, of ten and of two names, and a mapping with the two values; and at
twelve names and a store whose first call succeeds and whose second call
fails: the second call is the last, and its error is returned wrapped. -/
theorem getParameters_batches_witness :
    ((ssm.Source.watched { Prefix := "", Ssm := mockSsm [("n1", "a"), ("n11", "b")] }).getParameters
        twelveNames ([], [])).2.2.any StoreCall.failed = false ∧
    ((ssm.Source.watched { Prefix := "", Ssm := mockSsm [("n1", "a"), ("n11", "b")] }).getParameters
        twelveNames ([], [])).2.2.map Prod.fst =
      [["n0", "n1", "n2", "n3", "n4", "n5", "n6", "n7", "n8", "n9"], ["n10", "n11"]] ∧
    (ssm.Source.getParameters { Prefix := "", Ssm := mockSsm [("n1", "a"), ("n11", "b")] }
        twelveNames []).1 = .ok [("n1", "a"), ("n11", "b")] ∧
    (ssm.Source.getParameters { Prefix := "", Ssm := flakySsm [("n1", "a")] (.New "down") }
        twelveNames []).1 =
      .error (.Wrap "error fetching items from param store" (.New "down")) ∧
    ∃ pre c e0,
      ((ssm.Source.watched
          { Prefix := "", Ssm := flakySsm [("n1", "a")] (.New "down") }).getParameters
        twelveNames ([], [])).2.2 = pre ++ [c] ∧
      (∀ d ∈ pre, d.failed = false) ∧ c.2 = .error e0 ∧
      Error.Wrap "error fetching items from param store" (.New "down") =
        .Wrap "error fetching items from param store" e0 :=
  have h := (getParameters_batches { Prefix := "", Ssm := mockSsm [("n1", "a"), ("n11", "b")] }
    twelveNames []).2.2.2.1 (by decide)
  ⟨by decide, h.1.trans rfl, h.2.1.trans rfl, rfl,
    (getParameters_batches { Prefix := "", Ssm := flakySsm [("n1", "a")] (.New "down") }
      twelveNames []).2.2.2.2.2
      (.Wrap "error fetching items from param store" (.New "down")) rfl⟩

/-- C18 fails as stated. With twelve names and a store that returns an error,
`getParameters` makes one call, not two, and the last two names are never
requested. -/
theorem getParameters_stops_at_failed_call :
    (twelveNames.length + 9) / 10 = 2 ∧
    (ssm.Source.getParameters { Prefix := "", Ssm := mockSsmErr (.New "GetParametersErr") }
        twelveNames []) =
      (.error (.Wrap "error fetching items from param store" (.New "GetParametersErr")),
        [["n0", "n1", "n2", "n3", "n4", "n5", "n6", "n7", "n8", "n9"]]) ∧
    ((ssm.Source.watched
        { Prefix := "", Ssm := mockSsmErr (.New "GetParametersErr") }).getParameters
        twelveNames ([], [])).2.2.map Prod.fst =
      [["n0", "n1", "n2", "n3", "n4", "n5", "n6", "n7", "n8", "n9"]] :=
  ⟨rfl, rfl, rfl⟩

/-! ## ssm: Source.Process -/

theorem ssm.Source.Process_watched {σ τ : Type} (rt : ssm.Runtime) (s : ssm.Source τ)
    (paramMap : GoMap (List (Parameter σ))) (w : σ) (t : τ) :
    (ssm.Source.Process rt s.watched paramMap (w, (t, []))).2.2.2 =
      (s.watched.getParameters
        (ssm.Source.Process.collect rt.ToLower s.Prefix (paramMap.range rt.paramOrder) [] []).1
        (t, [])).2.2 := by
  have hP : s.watched.Prefix = s.Prefix := rfl
  simp only [ssm.Source.Process, hP]
  rcases s.watched.getParameters
    (ssm.Source.Process.collect rt.ToLower s.Prefix (paramMap.range rt.paramOrder) [] []).1
    (t, []) with ⟨err | ps, t1⟩ <;> rfl

theorem ssm.Source.Process_of_failed_call {σ τ : Type} (rt : ssm.Runtime) (s : ssm.Source τ)
    (paramMap : GoMap (List (Parameter σ))) (w : σ) (t : τ)
    (h : (s.watched.getParameters
        (ssm.Source.Process.collect rt.ToLower s.Prefix (paramMap.range rt.paramOrder) [] []).1
        (t, [])).2.2.any StoreCall.failed = true) :
    (∃ err, (ssm.Source.Process rt s paramMap (w, t)).1 =
      some (.Wrap "error getting parameters"
        (.Wrap "error fetching items from param store" err))) ∧
    (ssm.Source.Process rt s paramMap (w, t)).2.1 = w := by
  obtain ⟨calls, h1, _, _, h4⟩ := ssm.Source.getParameters_watched s
    (ssm.Source.Process.collect rt.ToLower s.Prefix (paramMap.range rt.paramOrder) [] []).1 t []
  rw [h1, List.nil_append] at h
  obtain ⟨c, hc, hf⟩ := List.any_eq_true.1 h
  obtain ⟨err, he⟩ := h4 ⟨c, hc, hf⟩
  simp only [ssm.Source.Process]
  rcases hg : s.getParameters
    (ssm.Source.Process.collect rt.ToLower s.Prefix (paramMap.range rt.paramOrder) [] []).1 t
    with ⟨e | ps, t1⟩
  · rw [hg] at he
    simp only [Except.error.injEq] at he
    exact ⟨⟨err, by rw [he]⟩, rfl⟩
  · rw [hg] at he
    cases he

theorem ssm.Source.Process.collect_names {σ : Type} (ToLower : String → String)
    (pfx : String) (entries : List (String × List (Parameter σ))) (names : List String)
    (handlers : GoMap (List (Parameter σ))) :
    (ssm.Source.Process.collect ToLower pfx entries names handlers).1 =
      names ++ entries.map fun kv => ssm.getParamName ToLower kv.1 pfx := by
  induction entries generalizing names handlers with
  | nil => simp [ssm.Source.Process.collect]
  | cons kv rest ih =>
    obtain ⟨k, ps⟩ := kv
    simp only [ssm.Source.Process.collect, ih, List.map_cons, List.append_assoc,
      List.singleton_append]

/-- C19. If one of the calls of `GetParameters` that `Source.Process` makes
returns an error, `Process` returns an error, which wraps the error of the
call, and the state the parameters act on is what it was, whatever the
parameters are: with every parameter made to log the calls of `SetValue` and
`NoValue`, the log stays empty. -/
theorem Process_store_error {σ τ : Type} (rt : ssm.Runtime) (s : ssm.Source τ)
    (paramMap : GoMap (List (Parameter σ))) (w : σ) (t : τ)
    (h : (ssm.Source.Process rt s.watched paramMap (w, (t, []))).2.2.2.any StoreCall.failed =
      true) :
    (∃ err, (ssm.Source.Process rt s paramMap (w, t)).1 =
      some (.Wrap "error getting parameters"
        (.Wrap "error fetching items from param store" err))) ∧
    (ssm.Source.Process rt s paramMap (w, t)).2.1 = w ∧
    (ssm.Source.Process rt s (auditedMap paramMap) ((w, []), t)).2.1 = (w, []) := by
  rw [ssm.Source.Process_watched] at h
  have h1 := ssm.Source.Process_of_failed_call rt s paramMap w t h
  refine ⟨h1.1, h1.2, ?_⟩
  have hrange : GoMap.range rt.paramOrder (auditedMap paramMap) =
      auditedMap (paramMap.range rt.paramOrder) :=
    GoMap.range_map rt.paramOrder paramMap (fun _ ps => ps.map audited)
  have h2 := ssm.Source.Process_of_failed_call rt s (auditedMap paramMap) (w, []) t
    (by
      rw [hrange, ssm.Source.Process.collect_names, auditedMap, List.map_map]
      rw [ssm.Source.Process.collect_names] at h
      exact h)
  exact h2.2

/-- C19 at twelve requested names and a store whose first call succeeds and
whose second call fails: `Process` returns the error and no parameter is
called, those of the ten names already fetched included. -/
theorem Process_store_error_witness :
    (ssm.Source.Process ssm.sampleRuntime
        (ssm.Source.watched { Prefix := "/p/", Ssm := flakySsm [("/p/n0", "v")] (.New "down") })
        twelveParams ((), ([], []))).2.2.2.any StoreCall.failed = true ∧
    (ssm.Source.Process ssm.sampleRuntime
        { Prefix := "/p/", Ssm := flakySsm [("/p/n0", "v")] (.New "down") }
        (auditedMap twelveParams) (((), []), [])) =
      (some (.Wrap "error getting parameters"
          (.Wrap "error fetching items from param store" (.New "down"))),
        (((), []),
          [["/p/n0", "/p/n1", "/p/n2", "/p/n3", "/p/n4", "/p/n5", "/p/n6", "/p/n7", "/p/n8",
            "/p/n9"], ["/p/n10", "/p/n11"]])) :=
  have h := Process_store_error ssm.sampleRuntime
    { Prefix := "/p/", Ssm := flakySsm [("/p/n0", "v")] (.New "down") }
    twelveParams () [] (by decide)
  ⟨by decide, Prod.ext rfl (Prod.ext h.2.2 rfl)⟩

/-- C14 fails on two requested tag values with the same normalized name. The
parameters of `collidingRecord` are registered under `KEY` and `key`, which
both normalize to `/svc/key`; the store holds a value for that name and
returns no error.  `Source.Process` returns nil having called `SetValue` on
the parameter of `key` only: the required field `A` keeps its zero value.
`EnvSource.Process`, given the same parameters with the variable `KEY` set,
calls both. -/
theorem ssm_Process_skips_colliding_key :
    GoMap.get? (process (sampleRuntime []) [] collidingRecord
        ([("ssm", []), ("env", [])] : ParamMap Unit) ["ssm", "env"]).2 "ssm" =
      some collidingParams ∧
    ssm.getParamName asciiLower "KEY" "/svc/" = "/svc/key" ∧
    ssm.getParamName asciiLower "key" "/svc/" = "/svc/key" ∧
    ssm.Source.Process ssm.sampleRuntime
        { Prefix := "/svc/", Ssm := mockSsm [("/svc/key", "v")] }
        (tracedMap collidingParams)
        (({ record := collidingRecord, ext := () }, []), []) =
      (none,
        (({ record :=
              [ ({ Name := "A", Tag := [("ssm", "KEY"), ("required", "true")] },
                  .leaf .String (.String "")),
                ({ Name := "B", Tag := [("ssm", "key")] }, .leaf .String (.String "v")) ],
            ext := () },
          [("key", 0, "v")]),
         [["/svc/key", "/svc/key"]])) ∧
    EnvSource.Process (sampleRuntime [("KEY", "v")]) { Prefix := "", StrictCase := false }
        (tracedMap collidingParams) ({ record := collidingRecord, ext := () }, []) =
      (none,
        ({ record :=
              [ ({ Name := "A", Tag := [("ssm", "KEY"), ("required", "true")] },
                  .leaf .String (.String "v")),
                ({ Name := "B", Tag := [("ssm", "key")] }, .leaf .String (.String "v")) ],
            ext := () },
          [("KEY", 0, "v"), ("key", 0, "v")])) :=
  ⟨rfl, rfl, rfl, rfl, rfl⟩

/-! ## Process: one field looked up in the environment -/

theorem process_single_env {X : Type} (rt : Runtime) (sf : StructField) (typ : Typ)
    (val : Value) (key : String) (fe : setter)
    (hscan : rt.scanOrder [0] ["env"] = ["env"])
    (hkey : sf.Lookup "env" = some key) (hign : ignored sf = false)
    (hfe : getSetter rt typ = .ok fe) :
    process rt [] [(sf, .leaf typ val)] ([("env", [])] : ParamMap X) ["env"] =
      (none, [("env", [(key, [newParameter sf (fieldSetter [0] fe) "env" key])])]) := by
  have hrange : (GoMap.range (rt.scanOrder [0])
      ([("env", [])] : ParamMap X)).map Prod.fst = ["env"] := by
    simp [GoMap.range, GoMap.keys, hscan, GoMap.get?]
  simp only [process, processFields, processField, List.nil_append, hign, hfe, hrange, findTag,
    hkey]
  simp [register, GoMap.get?, GoMap.set, ErrorOrNil]

theorem EnvSource_Process_single {σ : Type} (rt : Runtime) (key : String) (P : Parameter σ)
    (w : σ) (henv : rt.envOrder [key] = [key]) :
    EnvSource.Process rt { Prefix := "", StrictCase := false } [(key, [P])] w =
      P.SetValue (rt.Getenv (rt.ToUpper key)) w := by
  have hrange : GoMap.range rt.envOrder [(key, [P])] = [(key, [P])] := by
    simp [GoMap.range, GoMap.keys, henv, GoMap.get?]
  simp only [EnvSource.Process, hrange, EnvSource.Process.loop, setEach, EnvSource.getEnvVar]
  simp only [ne_eq, not_true_eq_false, if_false, if_true]
  rcases P.SetValue (rt.Getenv (rt.ToUpper key)) w with ⟨_ | err, w1⟩ <;> rfl

theorem Process_single_env {X : Type} (rt : Runtime) (sf : StructField) (typ : Typ)
    (val : Value) (x : X) (key : String) (fe : setter)
    (hscan : rt.scanOrder [0] ["env"] = ["env"]) (henv : rt.envOrder [key] = [key])
    (hkey : sf.Lookup "env" = some key) (hign : ignored sf = false)
    (hfe : getSetter rt typ = .ok fe) :
    Process rt [] { record := [(sf, .leaf typ val)], ext := x } =
      (ErrorOrNil (Append []
        ((newParameter sf (fieldSetter [0] fe) "env" key).SetValue
          (rt.Getenv (rt.ToUpper key)) { record := [(sf, .leaf typ val)], ext := x }).1),
        ((newParameter sf (fieldSetter [0] fe) "env" key).SetValue
          (rt.Getenv (rt.ToUpper key)) { record := [(sf, .leaf typ val)], ext := x }).2) := by
  have hinit : initParamMap (withEnvSource ([] : List (Source (World X)))) [] =
      .ok [("env", [])] := rfl
  have hkeys : (withEnvSource ([] : List (Source (World X)))).map Source.TagKey = ["env"] := rfl
  have hsrc : withEnvSource ([] : List (Source (World X))) =
      [Source.env { Prefix := "", StrictCase := false }] := rfl
  simp only [Process, hinit, hkeys, process_single_env rt sf typ val key fe hscan hkey hign hfe]
  simp only [hsrc, processSources, processSources.loop, Source.TagKey, EnvSource.TagKey,
    GoMap.get?, if_true, List.length_singleton, one_ne_zero, if_false, Source.Process,
    EnvSource_Process_single rt key _ _ henv]

/-- C11, amended. A record has one field, not marked `ignore`, of a type
with a converter, looked up in the environment under `key`, whose default
annotation is not empty and is accepted by the converter; a `range` over a map
with one key visits that key.  `Process` with no explicit sources returns nil
and leaves in the field what the converter makes of the default when the
variable named by the upper-cased key is absent or empty, and what it makes of
the variable's value when that is not empty and accepted by the converter.
Whether the field is marked required makes no difference. -/
theorem Process_default_env {X : Type} (rt : Runtime) (sf : StructField) (typ : Typ)
    (val : Value) (x : X) (key : String) (fe : setter)
    (hscan : rt.scanOrder [0] ["env"] = ["env"]) (henv : rt.envOrder [key] = [key])
    (hkey : sf.Lookup "env" = some key) (hign : ignored sf = false)
    (hfe : getSetter rt typ = .ok fe)
    (hne : sf.Get defaultTag ≠ "") (hvalid : (fe (sf.Get defaultTag) val).1 = none) :
    (rt.Getenv (rt.ToUpper key) = "" →
      Process rt [] { record := [(sf, .leaf typ val)], ext := x } =
        (none, { record := [(sf, .leaf typ (fe (sf.Get defaultTag) val).2)], ext := x })) ∧
    (rt.Getenv (rt.ToUpper key) ≠ "" →
      (fe (rt.Getenv (rt.ToUpper key)) val).1 = none →
      Process rt [] { record := [(sf, .leaf typ val)], ext := x } =
        (none,
          { record := [(sf, .leaf typ (fe (rt.Getenv (rt.ToUpper key)) val).2)], ext := x })) := by
  have hset : ∀ s : String, (fe s val).1 = none →
      (parameter.set
        { fieldName := sf.Name, tagKey := "env", tagValue := key,
          required := (match ParseBool (sf.Get requiredTag) with
            | .ok b => b
            | .error _ => false),
          defaultValue := sf.Get defaultTag,
          setFn := fieldSetter [0] fe }
        s ({ record := [(sf, .leaf typ val)], ext := x } : World X)) =
      (none, { record := [(sf, .leaf typ (fe s val).2)], ext := x }) := by
    intro s hs
    simp only [parameter.set, fieldSetter, updateRecord, Node.update, hs]
  rw [Process_single_env rt sf typ val x key fe hscan henv hkey hign hfe]
  constructor
  · intro hv
    simp only [hv, newParameter, parameter.toParameter, parameter.SetValue, if_true,
      parameter.NoValue, hne, and_false, if_false, ne_eq, not_false_eq_true,
      hset _ hvalid, Append, ErrorOrNil]
  · intro hv hok
    simp only [newParameter, parameter.toParameter, parameter.SetValue, hv, if_false,
      hset _ hok, Append, ErrorOrNil]

/-- C11, amended, at the field `Port int` with the default `8080`, marked
required: 8080 with `PORT` unset, 9090 with `PORT=9090`. -/
theorem Process_default_env_witness :
    Process (sampleRuntime []) []
        { record := [(portField, .leaf (.Int .Int "" "int") (.Int 0))], ext := () } =
      (none, { record := [(portField, .leaf (.Int .Int "" "int") (.Int 8080))], ext := () }) ∧
    Process (sampleRuntime [("PORT", "9090")]) []
        { record := [(portField, .leaf (.Int .Int "" "int") (.Int 0))], ext := () } =
      (none, { record := [(portField, .leaf (.Int .Int "" "int") (.Int 9090))], ext := () }) :=
  ⟨(Process_default_env (sampleRuntime []) portField (.Int .Int "" "int") (.Int 0) () "PORT"
      (intSetter (sampleRuntime []) .Int "" "int") rfl rfl rfl rfl rfl (by decide) rfl).1 rfl,
    (Process_default_env (sampleRuntime [("PORT", "9090")]) portField (.Int .Int "" "int")
      (.Int 0) () "PORT" (intSetter (sampleRuntime [("PORT", "9090")]) .Int "" "int")
      rfl rfl rfl rfl rfl (by decide) rfl).2 (by decide) rfl⟩

/-- C11 fails as stated. The empty string is a valid literal for a string
field, yet a default annotation that is empty counts as no default: with the
variable unset, `Process` returns an error when the field is required, and
otherwise returns nil and leaves what the field held. -/
theorem Process_empty_default_is_no_default :
    (stringSetter "" (.String "")).1 = none ∧
    Process (sampleRuntime []) [] { record := emptyDefaultRecord, ext := () } =
      (some (.Multi [.New
          "error: field Name was specified as required, but was not found via key NAME in source env"]),
        { record := emptyDefaultRecord, ext := () }) ∧
    (stringSetter "" (.String "old")).2 = .String "" ∧
    Process (sampleRuntime []) [] { record := emptyDefaultHeldRecord, ext := () } =
      (none, { record := emptyDefaultHeldRecord, ext := () }) :=
  ⟨rfl, rfl, rfl, rfl⟩

/-! ## strconv: decimal literals -/

theorem digitsValue_ge (bs : List Nat) (acc : Nat) : acc ≤ digitsValue acc bs := by
  induction bs generalizing acc with
  | nil => exact Nat.le_refl _
  | cons c cs ih =>
    have := ih (acc * 10 + (c - 48))
    simp only [digitsValue, List.foldl_cons] at this ⊢
    omega

theorem parseDigits_decimal (maxVal : Nat) (hmax : maxVal < 2 ^ 64) (bs : List Nat)
    (hbs : ∀ c ∈ bs, 48 ≤ c ∧ c ≤ 57) (acc : Nat) (hacc : acc ≤ maxVal) :
    parseDigits 10 true maxVal bs acc false =
      if digitsValue acc bs ≤ maxVal then .ok (digitsValue acc bs, false)
      else .error .ErrRange := by
  induction bs generalizing acc with
  | nil => simp [parseDigits, digitsValue, hacc]
  | cons c cs ih =>
    have hc := hbs c (List.mem_cons_self _ _)
    have hcs : ∀ c ∈ cs, 48 ≤ c ∧ c ≤ 57 := fun c h => hbs c (List.mem_cons_of_mem _ h)
    have hge := digitsValue_ge cs (acc * 10 + (c - 48))
    have hval : digitsValue acc (c :: cs) = digitsValue (acc * 10 + (c - 48)) cs := rfl
    have h95 : ¬ (c = 95 ∧ true = true) := by omega
    have hdig : (48 ≤ c ∧ c ≤ 57) := hc
    have hd : ¬ (c - 48 ≥ 10) := by omega
    rw [parseDigits, if_neg h95]
    simp only [hdig, and_self, if_true, if_neg hd]
    rw [hval]
    by_cases hbig : acc ≥ (2 ^ 64 - 1) / 10 + 1
    · rw [if_pos hbig, if_neg]
      norm_num at hbig hmax
      omega
    · rw [if_neg hbig]
      norm_num at hbig hmax
      have hmod1 : acc * 10 % 2 ^ 64 = acc * 10 := Nat.mod_eq_of_lt (by norm_num; omega)
      simp only [hmod1]
      by_cases hwrap : acc * 10 + (c - 48) < 2 ^ 64
      · have hmod2 : (acc * 10 + (c - 48)) % 2 ^ 64 = acc * 10 + (c - 48) :=
          Nat.mod_eq_of_lt hwrap
        simp only [hmod2]
        by_cases hover : acc * 10 + (c - 48) > maxVal
        · rw [if_pos (Or.inr hover), if_neg]
          omega
        · rw [if_neg (by omega)]
          exact ih hcs _ (by omega)
      · have hlt : (acc * 10 + (c - 48)) % 2 ^ 64 < acc * 10 := by
          norm_num at hwrap ⊢
          omega
        rw [if_pos (Or.inl hlt), if_neg]
        norm_num at hwrap
        omega

theorem digitChar_toNat : ∀ k, k < 10 → (Nat.digitChar k).toNat = 48 + k := by decide

theorem digitsValue_append (bs : List Nat) (c acc : Nat) :
    digitsValue acc (bs ++ [c]) = digitsValue acc bs * 10 + (c - 48) := by
  simp [digitsValue, List.foldl_append]

theorem toDigitsCore_decimal (fuel n : Nat) (ds : List Char) (h : n < fuel) :
    ∃ front : List Char, Nat.toDigitsCore 10 fuel n ds = front ++ ds ∧
      (∀ c ∈ front, 48 ≤ c.toNat ∧ c.toNat ≤ 57) ∧
      digitsValue 0 (front.map Char.toNat) = n ∧
      (∃ c rest, front = c :: rest ∧ (n ≠ 0 → c.toNat ≠ 48)) := by
  induction fuel generalizing n ds with
  | zero => omega
  | succ fuel ih =>
    have hd := digitChar_toNat (n % 10) (Nat.mod_lt _ (by decide))
    by_cases h0 : n / 10 = 0
    · have hn : n < 10 := by omega
      have hmod : n % 10 = n := Nat.mod_eq_of_lt hn
      refine ⟨[Nat.digitChar (n % 10)], by simp [Nat.toDigitsCore, h0], ?_, ?_, ?_⟩
      · intro c hc
        rw [List.mem_singleton.1 hc, hd]
        omega
      · simp only [digitsValue, List.map_singleton, List.foldl_cons, List.foldl_nil, hd]
        omega
      · exact ⟨_, [], rfl, by rw [hd]; omega⟩
    · obtain ⟨front, h1, h2, h3, c, rest, h4, h5⟩ :=
        ih (n / 10) (Nat.digitChar (n % 10) :: ds) (by omega)
      refine ⟨front ++ [Nat.digitChar (n % 10)], ?_, ?_, ?_, ?_⟩
      · simp [Nat.toDigitsCore, h0, h1]
      · intro c hc
        rcases List.mem_append.1 hc with hc | hc
        · exact h2 c hc
        · rw [List.mem_singleton.1 hc, hd]
          omega
      · rw [List.map_append, List.map_singleton, digitsValue_append, h3, hd]
        omega
      · exact ⟨c, rest ++ [Nat.digitChar (n % 10)], by rw [h4]; rfl, fun _ => h5 h0⟩

theorem bytes_ascii (cs : List Char) (h : ∀ c ∈ cs, c.toNat < 128) :
    bytes (String.mk cs) = cs.map Char.toNat := by
  induction cs with
  | nil => rfl
  | cons c cs ih =>
    have hc := h c (List.mem_cons_self _ _)
    have ih' := ih (fun c hc => h c (List.mem_cons_of_mem _ hc))
    simp only [bytes, String.toList] at ih' ⊢
    simp only [List.flatMap_cons, List.map_cons, ih', utf8Char, hc, if_true,
      List.singleton_append]

/-- The bytes of the decimal literal of a natural number: decimal digits that
stand for the number, the first of them `0` only for the number zero. -/
theorem bytes_repr (n : Nat) :
    (∀ c ∈ bytes (Nat.repr n), 48 ≤ c ∧ c ≤ 57) ∧
    digitsValue 0 (bytes (Nat.repr n)) = n ∧
    ∃ c rest, bytes (Nat.repr n) = c :: rest ∧ (n ≠ 0 → c ≠ 48) := by
  obtain ⟨front, h1, h2, h3, c, rest, h4, h5⟩ := toDigitsCore_decimal (n + 1) n [] (by omega)
  have hb : bytes (Nat.repr n) = front.map Char.toNat := by
    have : Nat.repr n = String.mk front := by
      simp only [Nat.repr, Nat.toDigits, h1, List.append_nil, List.asString]
    rw [this]
    exact bytes_ascii front (fun c hc => by have := h2 c hc; omega)
  rw [hb]
  refine ⟨?_, h3, c.toNat, rest.map Char.toNat, by rw [h4]; rfl, h5⟩
  intro b hb'
  obtain ⟨c', hc', rfl⟩ := List.mem_map.1 hb'
  exact h2 c' hc'

theorem parseUintBytes_repr (k w : Nat) (hw : w ≤ 64) :
    parseUintBytes (bytes (Nat.repr k)) w =
      if k ≤ 2 ^ w - 1 then .ok k else .error .ErrRange := by
  by_cases hk : k = 0
  · subst hk
    have : bytes (Nat.repr 0) = [48] := by decide
    simp [this, parseUintBytes, parseDigits]
  · obtain ⟨hdig, hval, c, rest, hb, hc⟩ := bytes_repr k
    have hc48 : ¬ c = 48 := hc hk
    have hpow : 2 ^ w ≤ 2 ^ 64 := Nat.pow_le_pow_right (by decide) hw
    have hpos : 0 < 2 ^ w := Nat.two_pow_pos w
    have hmax : 2 ^ w - 1 < 2 ^ 64 := by omega
    have hp := parseDigits_decimal (2 ^ w - 1) hmax (bytes (Nat.repr k)) hdig 0 (Nat.zero_le _)
    rw [hval] at hp
    rw [hb] at hp ⊢
    simp only [parseUintBytes, if_neg hc48, hp]
    by_cases hle : k ≤ 2 ^ w - 1
    · simp [hle]
    · simp [hle]

theorem bytes_minus (s : String) : bytes ("-" ++ s) = 45 :: bytes s := by
  simp only [bytes, String.toList, String.data_append]
  rfl

theorem parseUintBytes_minus (bs : List Nat) (w : Nat) :
    parseUintBytes (45 :: bs) w = .error .ErrSyntax := by
  have hl : lower 45 = 45 := by decide
  simp [parseUintBytes, parseDigits, hl]

theorem ParseUint_decimal (n : Int) (w : Nat) (hw : w ≤ 64) :
    ParseUint (decimalLiteral n) w =
      if n < 0 then .error (.NumError "ParseUint" (decimalLiteral n) .ErrSyntax)
      else if n ≤ 2 ^ w - 1 then .ok n.toNat
      else .error (.NumError "ParseUint" (decimalLiteral n) .ErrRange) := by
  have hpos : 0 < 2 ^ w := Nat.two_pow_pos w
  cases n with
  | ofNat k =>
    have hlit : decimalLiteral (Int.ofNat k) = Nat.repr k := rfl
    have hnn : ¬ (Int.ofNat k < 0) := by simp
    have hcast : ((2 : Int) ^ w) = ((2 ^ w : Nat) : Int) := by push_cast; rfl
    rw [if_neg hnn, hlit]
    simp only [ParseUint, parseUintBytes_repr k w hw, Int.ofNat_eq_coe, Int.toNat_ofNat, hcast]
    generalize 2 ^ w = P at hpos
    by_cases hle : k ≤ P - 1
    · have hle' : (k : Int) ≤ (P : Int) - 1 := by omega
      simp only [hle, hle', if_true]
    · have hle' : ¬ (k : Int) ≤ (P : Int) - 1 := by omega
      simp only [hle, hle', if_false]
  | negSucc m =>
    have hlit : decimalLiteral (Int.negSucc m) = "-" ++ Nat.repr (m + 1) := rfl
    have hneg : Int.negSucc m < 0 := Int.negSucc_lt_zero m
    rw [if_pos hneg]
    simp only [ParseUint, hlit, bytes_minus, parseUintBytes_minus]

theorem ParseInt_decimal (n : Int) (w : Nat) (hw1 : 1 ≤ w) (hw : w ≤ 64) :
    ParseInt (decimalLiteral n) w =
      if -(2 : Int) ^ (w - 1) ≤ n ∧ n ≤ 2 ^ (w - 1) - 1 then .ok n
      else .error (.NumError "ParseInt" (decimalLiteral n) .ErrRange) := by
  have hpos : 0 < 2 ^ (w - 1) := Nat.two_pow_pos _
  have hdouble : 2 ^ w = 2 * 2 ^ (w - 1) := by
    have : w = (w - 1) + 1 := by omega
    rw [this, Nat.pow_succ, Nat.add_sub_cancel]
    omega
  have hcast : ((2 : Int) ^ (w - 1)) = ((2 ^ (w - 1) : Nat) : Int) := by push_cast; rfl
  cases n with
  | ofNat k =>
    have hlit : decimalLiteral (Int.ofNat k) = Nat.repr k := rfl
    obtain ⟨hdig, _, c, rest, hb, _⟩ := bytes_repr k
    have hc := hdig c (by rw [hb]; exact List.mem_cons_self _ _)
    have h45 : ¬ c = 45 := by omega
    have h43 : ¬ c = 43 := by omega
    have hp := parseUintBytes_repr k w hw
    rw [hb, hdouble] at hp
    rw [hlit]
    simp only [ParseInt, hb, h43, h45, or_self, if_false, hp, decide_False, Int.ofNat_eq_coe,
      hcast]
    generalize 2 ^ (w - 1) = Q at hpos
    by_cases hle : k ≤ 2 * Q - 1
    · by_cases hcut : k ≥ Q
      · have hr : ¬ (-(Q : Int) ≤ (k : Int) ∧ (k : Int) ≤ (Q : Int) - 1) := by omega
        simp [hle, hcut, hr]
      · have hr : (-(Q : Int) ≤ (k : Int) ∧ (k : Int) ≤ (Q : Int) - 1) := by omega
        simp [hle, hcut, hr]
    · have hr : ¬ (-(Q : Int) ≤ (k : Int) ∧ (k : Int) ≤ (Q : Int) - 1) := by omega
      simp [hle, hr]
  | negSucc m =>
    have hlit : decimalLiteral (Int.negSucc m) = "-" ++ Nat.repr (m + 1) := rfl
    have hp := parseUintBytes_repr (m + 1) w hw
    have h4 : (45 = 43 ∨ 45 = 45) := Or.inr rfl
    rw [hdouble] at hp
    rw [hlit]
    simp only [ParseInt, bytes_minus, if_pos h4, decide_True, hcast, or_true, if_true,
      Bool.true_eq_false, false_and, if_false, true_and, hp]
    rw [← hlit]
    have hns : Int.negSucc m = -((m + 1 : Nat) : Int) := rfl
    generalize 2 ^ (w - 1) = Q at hpos
    by_cases hle : m + 1 ≤ 2 * Q - 1
    · by_cases hcut : m + 1 > Q
      · have hr : ¬ (-(Q : Int) ≤ Int.negSucc m ∧ Int.negSucc m ≤ (Q : Int) - 1) := by omega
        simp [hle, hcut, hr]
      · have hr : (-(Q : Int) ≤ Int.negSucc m ∧ Int.negSucc m ≤ (Q : Int) - 1) := by omega
        have hcut2 : ¬ Q < m + 1 := hcut
        rw [if_pos hle, if_pos hr]
        simp only [hcut2, if_false]
        rfl
    · have hr : ¬ (-(Q : Int) ≤ Int.negSucc m ∧ Int.negSucc m ≤ (Q : Int) - 1) := by omega
      simp [hle, hr]

theorem IntKind_Bits_range (rt : Runtime) (hsize : rt.IntSize = 32 ∨ rt.IntSize = 64)
    (kind : IntKind) : 1 ≤ kind.Bits rt ∧ kind.Bits rt ≤ 64 := by
  cases kind <;> simp only [IntKind.Bits] <;> omega

theorem UintKind_Bits_range (rt : Runtime) (hsize : rt.IntSize = 32 ∨ rt.IntSize = 64)
    (kind : UintKind) : 1 ≤ kind.Bits rt ∧ kind.Bits rt ≤ 64 := by
  cases kind <;> simp only [UintKind.Bits] <;> omega

/-- C12. On a runtime whose `int` is 32 or 64 bits wide, the converter of a
signed integer field of width `w` that is not a `time.Duration`, applied to
the decimal literal of `n`, returns nil and stores `n` when
`-2^(w-1) ≤ n ≤ 2^(w-1)-1`, and otherwise returns a range error and leaves
the field as it was.  The converter of an unsigned field of width `w` returns
nil and stores `n` when `0 ≤ n ≤ 2^w-1`; it returns a syntax error for every
negative `n` and a range error for every `n` above `2^w-1`, the field left as
it was. -/
theorem integer_setters_decimal (rt : Runtime) (hsize : rt.IntSize = 32 ∨ rt.IntSize = 64)
    (n : Int) (f : Value) :
    (∀ (kind : IntKind) (pkgPath name : String),
      ¬ (kind = .Int64 ∧ pkgPath = "time" ∧ name = "Duration") →
      ((-(2 : Int) ^ (kind.Bits rt - 1) ≤ n ∧ n ≤ 2 ^ (kind.Bits rt - 1) - 1 →
        intSetter rt kind pkgPath name (decimalLiteral n) f = (none, .Int n)) ∧
      (¬ (-(2 : Int) ^ (kind.Bits rt - 1) ≤ n ∧ n ≤ 2 ^ (kind.Bits rt - 1) - 1) →
        intSetter rt kind pkgPath name (decimalLiteral n) f =
          (some (.NumError "ParseInt" (decimalLiteral n) .ErrRange), f)))) ∧
    (∀ kind : UintKind,
      (0 ≤ n ∧ n ≤ 2 ^ kind.Bits rt - 1 →
        uintSetter rt kind (decimalLiteral n) f = (none, .Uint n.toNat) ∧ (n.toNat : Int) = n) ∧
      (n < 0 →
        uintSetter rt kind (decimalLiteral n) f =
          (some (.NumError "ParseUint" (decimalLiteral n) .ErrSyntax), f)) ∧
      (2 ^ kind.Bits rt - 1 < n →
        uintSetter rt kind (decimalLiteral n) f =
          (some (.NumError "ParseUint" (decimalLiteral n) .ErrRange), f))) := by
  constructor
  · intro kind pkgPath name hdur
    have hb := IntKind_Bits_range rt hsize kind
    have hp := ParseInt_decimal n (kind.Bits rt) hb.1 hb.2
    constructor
    · intro hr
      simp only [intSetter, if_neg hdur, hp, if_pos hr]
    · intro hr
      simp only [intSetter, if_neg hdur, hp, if_neg hr]
  · intro kind
    have hb := UintKind_Bits_range rt hsize kind
    have hp := ParseUint_decimal n (kind.Bits rt) hb.2
    refine ⟨?_, ?_, ?_⟩
    · intro hr
      have h1 : ¬ n < 0 := by omega
      refine ⟨?_, Int.toNat_of_nonneg hr.1⟩
      simp only [uintSetter, hp, if_neg h1, if_pos hr.2]
    · intro hneg
      simp only [uintSetter, hp, if_pos hneg]
    · intro hbig
      have hpos : (0 : Int) < 2 ^ kind.Bits rt := by positivity
      have h1 : ¬ n < 0 := by omega
      have h2 : ¬ n ≤ 2 ^ kind.Bits rt - 1 := by omega
      simp only [uintSetter, hp, if_neg h1, if_neg h2]

/-- C12 at the bounds of `int8` and `uint8`: each field held 5 before. -/
theorem integer_setters_decimal_witness :
    intSetter (sampleRuntime []) .Int8 "" "int8" "-128" (.Int 5) = (none, .Int (-128)) ∧
    intSetter (sampleRuntime []) .Int8 "" "int8" "128" (.Int 5) =
      (some (.NumError "ParseInt" "128" .ErrRange), .Int 5) ∧
    uintSetter (sampleRuntime []) .Uint8 "255" (.Uint 5) = (none, .Uint 255) ∧
    uintSetter (sampleRuntime []) .Uint8 "-1" (.Uint 5) =
      (some (.NumError "ParseUint" "-1" .ErrSyntax), .Uint 5) := by
  have h1 := ((integer_setters_decimal (sampleRuntime []) (Or.inr rfl) (-128) (.Int 5)).1
    .Int8 "" "int8" (by decide)).1 (by decide)
  have h2 := ((integer_setters_decimal (sampleRuntime []) (Or.inr rfl) 128 (.Int 5)).1
    .Int8 "" "int8" (by decide)).2 (by decide)
  have h3 := (((integer_setters_decimal (sampleRuntime []) (Or.inr rfl) 255 (.Uint 5)).2
    .Uint8).1 (by decide)).1
  have h4 := ((integer_setters_decimal (sampleRuntime []) (Or.inr rfl) (-1) (.Uint 5)).2
    .Uint8).2.1 (by decide)
  rw [show decimalLiteral (-128) = "-128" from rfl] at h1
  rw [show decimalLiteral 128 = "128" from rfl] at h2
  rw [show decimalLiteral 255 = "255" from rfl] at h3
  rw [show decimalLiteral (-1) = "-1" from rfl] at h4
  exact ⟨h1, h2, h3, h4⟩

/-! ## Related maps -/

theorem GoMap.Rel.keys_eq {V W : Type} {R : V → W → Prop} {m : GoMap V} {n : GoMap W}
    (h : GoMap.Rel R m n) : m.keys = n.keys := by
  induction h with
  | nil => rfl
  | cons hab _ ih =>
    simp only [GoMap.keys, List.map_cons, hab.1, List.cons.injEq, true_and]
    exact ih

theorem GoMap.Rel.get? {V W : Type} {R : V → W → Prop} {m : GoMap V} {n : GoMap W}
    (h : GoMap.Rel R m n) (key : String) :
    (m.get? key = none ∧ n.get? key = none) ∨
    ∃ v w, m.get? key = some v ∧ n.get? key = some w ∧ R v w := by
  induction h with
  | nil => exact Or.inl ⟨rfl, rfl⟩
  | @cons e f m n hab _ ih =>
    obtain ⟨k, v⟩ := e
    obtain ⟨k2, w⟩ := f
    obtain ⟨hk, hr⟩ := hab
    simp only at hk hr
    subst hk
    by_cases hkey : k = key
    · exact Or.inr ⟨v, w, by simp [GoMap.get?, hkey], by simp [GoMap.get?, hkey], hr⟩
    · simp only [GoMap.get?, hkey, if_false]
      exact ih

theorem GoMap.Rel.set {V W : Type} {R : V → W → Prop} {m : GoMap V} {n : GoMap W}
    (h : GoMap.Rel R m n) (key : String) (v : V) (w : W) (hr : R v w) :
    GoMap.Rel R (m.set key v) (n.set key w) := by
  induction h with
  | nil => exact List.Forall₂.cons ⟨rfl, hr⟩ List.Forall₂.nil
  | @cons e f m n hab hrest ih =>
    obtain ⟨k, v0⟩ := e
    obtain ⟨k2, w0⟩ := f
    obtain ⟨hk, hr0⟩ := hab
    simp only at hk hr0
    subst hk
    by_cases hkey : k = key
    · simp only [GoMap.set, hkey, if_true]
      exact List.Forall₂.cons ⟨rfl, hr⟩ hrest
    · simp only [GoMap.set, hkey, if_false]
      exact List.Forall₂.cons ⟨rfl, hr0⟩ ih

theorem GoMap.Rel.range {V W : Type} {R : V → W → Prop} {m : GoMap V} {n : GoMap W}
    (h : GoMap.Rel R m n) (order : List String → List String) :
    GoMap.Rel R (m.range order) (n.range order) := by
  simp only [GoMap.range, ← h.keys_eq]
  generalize order m.keys = ks
  induction ks with
  | nil => exact List.Forall₂.nil
  | cons key ks ih =>
    simp only [List.filterMap_cons]
    rcases h.get? key with ⟨h1, h2⟩ | ⟨v, w, h1, h2, hr⟩
    · simp only [h1, h2]
      exact ih
    · simp only [h1, h2]
      exact List.Forall₂.cons ⟨rfl, hr⟩ ih

theorem GoMap.Rel.length_eq {V W : Type} {R : V → W → Prop} {m : GoMap V} {n : GoMap W}
    (h : GoMap.Rel R m n) : m.length = n.length :=
  List.Forall₂.length_eq h

theorem register_sim {X : Type} (Rel : World X → World X → Prop) (m n : ParamMap X)
    (tagKey tagValue : String) (P Q : Parameter (World X)) (h : ParamMapSim Rel m n)
    (hp : Parameter.Sim Rel P Q) :
    ParamMapSim Rel (register m tagKey tagValue P) (register n tagKey tagValue Q) := by
  unfold register
  rcases GoMap.Rel.get? h tagKey with ⟨h1, h2⟩ | ⟨sp, sq, h1, h2, hr⟩
  · rw [h1, h2]
    exact h
  · rw [h1, h2]
    refine GoMap.Rel.set h tagKey _ _ ?_
    refine GoMap.Rel.set hr tagValue _ _ ?_
    rcases GoMap.Rel.get? hr tagValue with ⟨h3, h4⟩ | ⟨ps, qs, h3, h4, hl⟩
    · rw [h3, h4]
      exact List.Forall₂.cons hp List.Forall₂.nil
    · rw [h3, h4]
      exact List.rel_append hl (List.Forall₂.cons hp List.Forall₂.nil)

theorem newParameter_sim {σ τ : Type} (Rel : σ → τ → Prop) (sf : StructField)
    (f : String → σ → Option Error × σ) (g : String → τ → Option Error × τ)
    (tagKey tagValue : String)
    (h : ∀ s w v, Rel w v → (f s w).1 = (g s v).1 ∧ Rel (f s w).2 (g s v).2) :
    Parameter.Sim Rel (newParameter sf f tagKey tagValue) (newParameter sf g tagKey tagValue) := by
  have hset : ∀ (req : Bool) (s : String) w v, Rel w v →
      (parameter.set
        { fieldName := sf.Name, tagKey := tagKey, tagValue := tagValue,
          required := req, defaultValue := sf.Get defaultTag, setFn := f } s w).1 =
        (parameter.set
        { fieldName := sf.Name, tagKey := tagKey, tagValue := tagValue,
          required := req, defaultValue := sf.Get defaultTag, setFn := g } s v).1 ∧
      Rel (parameter.set
        { fieldName := sf.Name, tagKey := tagKey, tagValue := tagValue,
          required := req, defaultValue := sf.Get defaultTag, setFn := f } s w).2
        (parameter.set
        { fieldName := sf.Name, tagKey := tagKey, tagValue := tagValue,
          required := req, defaultValue := sf.Get defaultTag, setFn := g } s v).2 := by
    intro req s w v hr
    obtain ⟨h1, h2⟩ := h s w v hr
    rw [parameter.set_eq, parameter.set_eq]
    exact ⟨by simp only [h1], h2⟩
  have hno : ∀ (req : Bool) w v, Rel w v →
      (parameter.NoValue
        { fieldName := sf.Name, tagKey := tagKey, tagValue := tagValue,
          required := req, defaultValue := sf.Get defaultTag, setFn := f } w).1 =
        (parameter.NoValue
        { fieldName := sf.Name, tagKey := tagKey, tagValue := tagValue,
          required := req, defaultValue := sf.Get defaultTag, setFn := g } v).1 ∧
      Rel (parameter.NoValue
        { fieldName := sf.Name, tagKey := tagKey, tagValue := tagValue,
          required := req, defaultValue := sf.Get defaultTag, setFn := f } w).2
        (parameter.NoValue
        { fieldName := sf.Name, tagKey := tagKey, tagValue := tagValue,
          required := req, defaultValue := sf.Get defaultTag, setFn := g } v).2 := by
    intro req w v hr
    by_cases hd : sf.Get defaultTag = ""
    · cases req with
      | true =>
        rw [parameter.NoValue_missing _ w rfl hd, parameter.NoValue_missing _ v rfl hd]
        exact ⟨rfl, hr⟩
      | false =>
        rw [parameter.NoValue_skip _ w rfl hd, parameter.NoValue_skip _ v rfl hd]
        exact ⟨rfl, hr⟩
    · rw [parameter.NoValue_default _ w hd, parameter.NoValue_default _ v hd]
      exact hset req _ w v hr
  intro w v hr
  refine ⟨hno _ w v hr, ?_⟩
  intro val
  by_cases hv : val = ""
  · subst hv
    simp only [newParameter, parameter.toParameter]
    rw [parameter.SetValue_empty, parameter.SetValue_empty]
    exact hno _ w v hr
  · simp only [newParameter, parameter.toParameter]
    rw [parameter.SetValue_nonempty _ val w hv, parameter.SetValue_nonempty _ val v hv]
    exact hset _ val w v hr

theorem fieldSetter_sim {X : Type} (k m : Nat) (sfP : StructField) (p q : List Nat)
    (fe : setter) (h : PathSim k m sfP p q) (s : String) (w v : World X)
    (hr : WorldNests k m sfP w v) :
    (fieldSetter p fe s w).1 = (fieldSetter q fe s v).1 ∧
    WorldNests k m sfP (fieldSetter p fe s w).2 (fieldSetter q fe s v).2 := by
  obtain ⟨h1, h2⟩ := h (fe s) w.record v.record hr.1
  exact ⟨h1, h2, hr.2⟩

/-! ## Index paths into a record and into the record with a nested record flattened -/

theorem updateRecord_skip (f : Value → Option Error × Value) (xs ys : Record) (i : Nat)
    (path : List Nat) :
    updateRecord f (xs ++ ys) ((xs.length + i) :: path) =
      ((updateRecord f ys (i :: path)).1, xs ++ (updateRecord f ys (i :: path)).2) := by
  induction xs with
  | nil => simp
  | cons x xs ih =>
    obtain ⟨sf, n⟩ := x
    have hlen : ((sf, n) :: xs).length + i = (xs.length + i) + 1 := by
      simp only [List.length_cons]; omega
    rw [hlen, List.cons_append, updateRecord, ih]
    rfl

theorem updateRecord_within (f : Value → Option Error × Value) (xs ys : Record) (i : Nat)
    (path : List Nat) (h : i < xs.length) :
    updateRecord f (xs ++ ys) (i :: path) =
      ((updateRecord f xs (i :: path)).1, (updateRecord f xs (i :: path)).2 ++ ys) := by
  induction xs generalizing i with
  | nil => simp at h
  | cons x xs ih =>
    obtain ⟨sf, n⟩ := x
    cases i with
    | zero => rfl
    | succ i =>
      simp only [List.length_cons, Nat.succ_lt_succ_iff] at h
      rw [List.cons_append, updateRecord, ih i h]
      rfl

theorem updateRecord_length (f : Value → Option Error × Value) (xs : Record) (p : List Nat) :
    (updateRecord f xs p).2.length = xs.length := by
  induction xs generalizing p with
  | nil => cases p <;> simp [updateRecord]
  | cons x xs ih =>
    obtain ⟨sf, n⟩ := x
    cases p with
    | nil => simp [updateRecord]
    | cons i path =>
      cases i with
      | zero => simp [updateRecord]
      | succ i => simp [updateRecord, ih]

theorem PathSim.before (k m : Nat) (sfP : StructField) (i : Nat) (rest : List Nat)
    (h : i < k) : PathSim k m sfP (i :: rest) (i :: rest) := by
  rintro f rn rf ⟨pre, subs, post, hk, hm, rfl, rfl⟩
  rw [updateRecord_within f pre _ i rest (by omega),
    updateRecord_within f pre _ i rest (by omega)]
  exact ⟨rfl, _, subs, post, by rw [updateRecord_length, hk], hm, rfl, rfl⟩

theorem PathSim.inside (k m : Nat) (sfP : StructField) (j : Nat) (rest : List Nat)
    (h : j < m) : PathSim k m sfP (k :: j :: rest) ((k + j) :: rest) := by
  rintro f rn rf ⟨pre, subs, post, hk, hm, rfl, rfl⟩
  have h1 := updateRecord_skip f pre ((sfP, .struct subs) :: post) 0 (j :: rest)
  have h2 := updateRecord_skip f pre (subs ++ post) j rest
  rw [hk] at h1 h2
  rw [Nat.add_zero] at h1
  rw [h1, h2, updateRecord_within f subs post j rest (by omega)]
  simp only [updateRecord, Node.update]
  exact ⟨trivial, pre, _, post, hk, by rw [updateRecord_length, hm], rfl, rfl⟩

theorem PathSim.after (k m : Nat) (sfP : StructField) (i : Nat) (rest : List Nat) :
    PathSim k m sfP ((k + 1 + i) :: rest) ((k + m + i) :: rest) := by
  rintro f rn rf ⟨pre, subs, post, hk, hm, rfl, rfl⟩
  have h1 := updateRecord_skip f pre ((sfP, .struct subs) :: post) (i + 1) rest
  have h2 := updateRecord_skip f pre (subs ++ post) (m + i) rest
  have h3 := updateRecord_skip f subs post i rest
  rw [hk] at h1 h2
  rw [hm] at h3
  have e1 : k + 1 + i = k + (i + 1) := by omega
  have e2 : k + m + i = k + (m + i) := by omega
  rw [e1, e2, h1, h2, h3]
  simp only [updateRecord]
  exact ⟨trivial, pre, subs, _, hk, hm, rfl, rfl⟩

/-! ## Traversal of the same fields at two addresses -/

theorem getSetter_scanOrder (rt : Runtime) (so : List Nat → List String → List String)
    (typ : Typ) : getSetter { rt with scanOrder := so } typ = getSetter rt typ := by
  induction typ with
  | Slice elem ih => simp only [getSetter, ih]
  | _ => rfl

mutual
/-- Traversal of a field at the path `p` of a record with a nested record and
at the corresponding path `q` of the flattened record appends the same errors
and registers corresponding parameters. -/
theorem processField_sim {X : Type} (rt : Runtime) (so : List Nat → List String → List String)
    (sourceKeys : List String) (k m : Nat) (sfP : StructField) :
    ∀ (n : Node) (sf : StructField) (p q : List Nat) (pm pm2 : ParamMap X) (errs : List Error),
      (∀ rest, so (q ++ rest) = rt.scanOrder (p ++ rest) ∧
        PathSim k m sfP (p ++ rest) (q ++ rest)) →
      ParamMapSim (WorldNests k m sfP) pm pm2 →
      (processField rt sourceKeys sf n p pm errs).1 =
        (processField { rt with scanOrder := so } sourceKeys sf n q pm2 errs).1 ∧
      ParamMapSim (WorldNests k m sfP) (processField rt sourceKeys sf n p pm errs).2
        (processField { rt with scanOrder := so } sourceKeys sf n q pm2 errs).2
  | .leaf typ val, sf, p, q, pm, pm2, errs, hgood, hpm => by
    have hg := hgood []
    simp only [List.append_nil] at hg
    have hkeys : (GoMap.range (so q) pm2).map Prod.fst =
        (GoMap.range (rt.scanOrder p) pm).map Prod.fst := by
      rw [hg.1]
      exact (GoMap.Rel.keys_eq (GoMap.Rel.range hpm (rt.scanOrder p))).symm
    simp only [processField, getSetter_scanOrder, hkeys]
    by_cases hi : ignored sf = true
    · simp only [hi, if_true]
      exact ⟨trivial, hpm⟩
    · simp only [hi, if_false]
      rcases getSetter rt typ with err | setFn
      · exact ⟨rfl, hpm⟩
      · rcases findTag sf ((GoMap.range (rt.scanOrder p) pm).map Prod.fst) with _ | ⟨tk, tv⟩
        · simp only
          rcases ParseBool (sf.Get requiredTag) with e | b
          · exact ⟨rfl, hpm⟩
          · cases b
            · exact ⟨rfl, hpm⟩
            · exact ⟨rfl, hpm⟩
        · refine ⟨rfl, register_sim _ _ _ _ _ _ _ hpm ?_⟩
          exact newParameter_sim _ sf _ _ tk tv
            (fun s w v hr => fieldSetter_sim k m sfP p q setFn hg.2 s w v hr)
  | .struct fields, sf, p, q, pm, pm2, errs, hgood, hpm => by
    have h := processFields_sim rt so sourceKeys k m sfP fields p 0 q 0 pm pm2 []
      (fun j _ rest => by
        have := hgood ((0 + j) :: rest)
        simpa [List.append_assoc] using this) hpm
    simp only [processField, h.1]
    exact ⟨trivial, h.2⟩
  | .iface held, sf, p, q, pm, pm2, errs, hgood, hpm => by
    have h := processFields_sim rt so sourceKeys k m sfP held p 0 q 0 pm pm2 []
      (fun j _ rest => by
        have := hgood ((0 + j) :: rest)
        simpa [List.append_assoc] using this) hpm
    simp only [processField, h.1]
    exact ⟨trivial, h.2⟩
/-- The same for the loop over the fields of a record, from the index `i` in
the one and `i2` in the other. -/
theorem processFields_sim {X : Type} (rt : Runtime)
    (so : List Nat → List String → List String) (sourceKeys : List String) (k m : Nat)
    (sfP : StructField) :
    ∀ (fields : List (StructField × Node)) (path : List Nat) (i : Nat) (path2 : List Nat)
      (i2 : Nat) (pm pm2 : ParamMap X) (errs : List Error),
      (∀ j, j < fields.length → ∀ rest,
        so (path2 ++ (i2 + j) :: rest) = rt.scanOrder (path ++ (i + j) :: rest) ∧
        PathSim k m sfP (path ++ (i + j) :: rest) (path2 ++ (i2 + j) :: rest)) →
      ParamMapSim (WorldNests k m sfP) pm pm2 →
      (processFields rt sourceKeys fields path i pm errs).1 =
        (processFields { rt with scanOrder := so } sourceKeys fields path2 i2 pm2 errs).1 ∧
      ParamMapSim (WorldNests k m sfP) (processFields rt sourceKeys fields path i pm errs).2
        (processFields { rt with scanOrder := so } sourceKeys fields path2 i2 pm2 errs).2
  | [], _, _, _, _, pm, pm2, errs, _, hpm => by
    simp only [processFields]
    exact ⟨trivial, hpm⟩
  | (sf, n) :: rest, path, i, path2, i2, pm, pm2, errs, hgood, hpm => by
    have h1 := processField_sim rt so sourceKeys k m sfP n sf (path ++ [i]) (path2 ++ [i2])
      pm pm2 errs
      (fun r => by
        have := hgood 0 (by simp) r
        simpa [List.append_assoc] using this) hpm
    have h2 := processFields_sim rt so sourceKeys k m sfP rest path (i + 1) path2 (i2 + 1)
      (processField rt sourceKeys sf n (path ++ [i]) pm errs).2
      (processField { rt with scanOrder := so } sourceKeys sf n (path2 ++ [i2]) pm2 errs).2
      (processField rt sourceKeys sf n (path ++ [i]) pm errs).1
      (fun j hj r => by
        have := hgood (j + 1) (by simp only [List.length_cons]; omega) r
        have e1 : i + (j + 1) = i + 1 + j := by omega
        have e2 : i2 + (j + 1) = i2 + 1 + j := by omega
        rw [e1, e2] at this
        exact this) h1.2
    simp only [processFields]
    rw [← h1.1]
    exact h2
end

/-! ## Traversal: errors accumulate, records concatenate -/

mutual
/-- The errors traversal of a field appends do not depend on the errors
recorded before, nor does what it registers. -/
theorem processField_acc {X : Type} (rt : Runtime) (sourceKeys : List String) :
    ∀ (n : Node) (sf : StructField) (p : List Nat) (pm : ParamMap X) (errs : List Error),
      (processField rt sourceKeys sf n p pm errs).1 =
        errs ++ (processField rt sourceKeys sf n p pm []).1 ∧
      (processField rt sourceKeys sf n p pm errs).2 =
        (processField rt sourceKeys sf n p pm []).2
  | .leaf typ val, sf, p, pm, errs => by
    simp only [processField]
    by_cases hi : ignored sf = true
    · simp [hi]
    · simp only [hi, if_false]
      rcases getSetter rt typ with err | setFn
      · simp [Append]
      · rcases findTag sf ((GoMap.range (rt.scanOrder p) pm).map Prod.fst) with _ | ⟨tk, tv⟩
        · simp only
          rcases ParseBool (sf.Get requiredTag) with e | b
          · simp
          · cases b <;> simp [Append]
        · simp
  | .struct fields, sf, p, pm, errs => by
    simp only [processField]
    rcases ErrorOrNil (processFields rt sourceKeys fields p 0 pm []).1 with _ | err <;>
      simp [Append]
  | .iface held, sf, p, pm, errs => by
    simp only [processField]
    rcases ErrorOrNil (processFields rt sourceKeys held p 0 pm []).1 with _ | err <;>
      simp [Append]
/-- The same for the loop over the fields of a record. -/
theorem processFields_acc {X : Type} (rt : Runtime) (sourceKeys : List String) :
    ∀ (fields : List (StructField × Node)) (path : List Nat) (i : Nat) (pm : ParamMap X)
      (errs : List Error),
      (processFields rt sourceKeys fields path i pm errs).1 =
        errs ++ (processFields rt sourceKeys fields path i pm []).1 ∧
      (processFields rt sourceKeys fields path i pm errs).2 =
        (processFields rt sourceKeys fields path i pm []).2
  | [], _, _, pm, errs => by simp [processFields]
  | (sf, n) :: rest, path, i, pm, errs => by
    have h1 := processField_acc rt sourceKeys n sf (path ++ [i]) pm errs
    have h2 := processFields_acc rt sourceKeys rest path (i + 1)
      (processField rt sourceKeys sf n (path ++ [i]) pm []).2
      (processField rt sourceKeys sf n (path ++ [i]) pm errs).1
    have h3 := processFields_acc rt sourceKeys rest path (i + 1)
      (processField rt sourceKeys sf n (path ++ [i]) pm []).2
      (processField rt sourceKeys sf n (path ++ [i]) pm []).1
    simp only [processFields]
    rw [h1.2, h2.1, h2.2, h3.1, h3.2, h1.1, List.append_assoc]
    exact ⟨rfl, rfl⟩
end

theorem processFields_append {X : Type} (rt : Runtime) (sourceKeys : List String)
    (xs ys : List (StructField × Node)) (path : List Nat) (i : Nat) (pm : ParamMap X)
    (errs : List Error) :
    processFields rt sourceKeys (xs ++ ys) path i pm errs =
      processFields rt sourceKeys ys path (i + xs.length)
        (processFields rt sourceKeys xs path i pm errs).2
        (processFields rt sourceKeys xs path i pm errs).1 := by
  induction xs generalizing i pm errs with
  | nil => rfl
  | cons x xs ih =>
    obtain ⟨sf, n⟩ := x
    have e : i + ((sf, n) :: xs).length = i + 1 + xs.length := by
      simp only [List.length_cons]; omega
    rw [e, List.cons_append, processFields, processFields]
    exact ih _ _ _

/-! ## Traversal of a record with a nested record and of the flattened record -/

theorem processFields_nested {X : Type} (rt : Runtime) (sourceKeys : List String)
    (sfP : StructField) (pre subs post : List (StructField × Node)) (pm : ParamMap X) :
    processFields rt sourceKeys (pre ++ (sfP, .struct subs) :: post) [] 0 pm [] =
      ((processFields rt sourceKeys pre [] 0 pm []).1 ++
          (match ErrorOrNil (processFields rt sourceKeys subs [pre.length] 0
              (processFields rt sourceKeys pre [] 0 pm []).2 []).1 with
            | some err => [.Wrap "error processing struct" err]
            | none => []) ++
          (processFields rt sourceKeys post [] (pre.length + 1)
            (processFields rt sourceKeys subs [pre.length] 0
              (processFields rt sourceKeys pre [] 0 pm []).2 []).2 []).1,
        (processFields rt sourceKeys post [] (pre.length + 1)
          (processFields rt sourceKeys subs [pre.length] 0
            (processFields rt sourceKeys pre [] 0 pm []).2 []).2 []).2) := by
  rw [processFields_append, processFields, Nat.zero_add, List.nil_append]
  simp only [processField]
  rw [Prod.ext_iff]
  constructor
  · rw [(processFields_acc rt sourceKeys post [] (pre.length + 1) _ _).1]
    rcases ErrorOrNil (processFields rt sourceKeys subs [pre.length] 0
      (processFields rt sourceKeys pre [] 0 pm []).2 []).1 with _ | err <;> simp [Append]
  · rw [(processFields_acc rt sourceKeys post [] (pre.length + 1) _ _).2]

theorem processFields_flat {X : Type} (rt : Runtime) (sourceKeys : List String)
    (pre subs post : List (StructField × Node)) (pm : ParamMap X) :
    processFields rt sourceKeys (pre ++ (subs ++ post)) [] 0 pm [] =
      ((processFields rt sourceKeys pre [] 0 pm []).1 ++
          (processFields rt sourceKeys subs [] pre.length
            (processFields rt sourceKeys pre [] 0 pm []).2 []).1 ++
          (processFields rt sourceKeys post [] (pre.length + subs.length)
            (processFields rt sourceKeys subs [] pre.length
              (processFields rt sourceKeys pre [] 0 pm []).2 []).2 []).1,
        (processFields rt sourceKeys post [] (pre.length + subs.length)
          (processFields rt sourceKeys subs [] pre.length
            (processFields rt sourceKeys pre [] 0 pm []).2 []).2 []).2) := by
  rw [processFields_append, processFields_append, Nat.zero_add, Prod.ext_iff]
  constructor
  · rw [(processFields_acc rt sourceKeys post [] (pre.length + subs.length) _ _).1,
      (processFields_acc rt sourceKeys post [] (pre.length + subs.length) _ _).2,
      (processFields_acc rt sourceKeys subs [] pre.length _ _).1,
      (processFields_acc rt sourceKeys subs [] pre.length _ _).2]
  · rw [(processFields_acc rt sourceKeys post [] (pre.length + subs.length) _ _).2,
      (processFields_acc rt sourceKeys subs [] pre.length _ _).2]

theorem process_nested_flat {X : Type} (rt : Runtime)
    (so : List Nat → List String → List String) (sourceKeys : List String)
    (sfP : StructField) (pre subs post : List (StructField × Node)) (pm pm2 : ParamMap X)
    (hso1 : ∀ i rest, i < pre.length → so (i :: rest) = rt.scanOrder (i :: rest))
    (hso2 : ∀ j rest, j < subs.length →
      so ((pre.length + j) :: rest) = rt.scanOrder (pre.length :: j :: rest))
    (hso3 : ∀ i rest,
      so ((pre.length + subs.length + i) :: rest) = rt.scanOrder ((pre.length + 1 + i) :: rest))
    (hpm : ParamMapSim (WorldNests pre.length subs.length sfP) pm pm2) :
    ((process rt [] (pre ++ (sfP, .struct subs) :: post) pm sourceKeys).1 = none ↔
      (process { rt with scanOrder := so } [] (pre ++ (subs ++ post)) pm2 sourceKeys).1 = none) ∧
    ParamMapSim (WorldNests pre.length subs.length sfP)
      (process rt [] (pre ++ (sfP, .struct subs) :: post) pm sourceKeys).2
      (process { rt with scanOrder := so } [] (pre ++ (subs ++ post)) pm2 sourceKeys).2 := by
  have hA := processFields_sim rt so sourceKeys pre.length subs.length sfP pre [] 0 [] 0
    pm pm2 []
    (fun j hj rest => by
      simp only [List.nil_append, Nat.zero_add]
      exact ⟨hso1 j rest hj, PathSim.before _ _ _ j rest hj⟩) hpm
  have hB := processFields_sim rt so sourceKeys pre.length subs.length sfP subs [pre.length] 0
    [] pre.length _ _ []
    (fun j hj rest => by
      simp only [List.nil_append, Nat.zero_add, List.singleton_append]
      exact ⟨hso2 j rest hj, PathSim.inside _ _ _ j rest hj⟩) hA.2
  have hC := processFields_sim rt so sourceKeys pre.length subs.length sfP post []
    (pre.length + 1) [] (pre.length + subs.length) _ _ []
    (fun j _ rest => by
      simp only [List.nil_append]
      exact ⟨hso3 j rest, PathSim.after _ _ _ j rest⟩) hB.2
  simp only [process, processFields_nested, processFields_flat, ErrorOrNil_eq_none_iff]
  refine ⟨?_, hC.2⟩
  rw [← hA.1, ← hB.1, ← hC.1]
  rcases hsub : (processFields rt sourceKeys subs [pre.length] 0
    (processFields rt sourceKeys pre [] 0 pm []).2 []).1 with _ | ⟨e, es⟩
  · simp [ErrorOrNil]
  · simp [ErrorOrNil]

/-! ## Sources on related parameters -/

theorem setEach_sim {σ τ : Type} (Rel : σ → τ → Prop) (val : String)
    (ps : List (Parameter σ)) (qs : List (Parameter τ))
    (h : List.Forall₂ (Parameter.Sim Rel) ps qs) (w : σ) (v : τ) (hr : Rel w v) :
    (setEach val ps w).1 = (setEach val qs v).1 ∧
    Rel (setEach val ps w).2 (setEach val qs v).2 := by
  induction h generalizing w v with
  | nil => exact ⟨rfl, hr⟩
  | @cons P Q ps qs hPQ _ ih =>
    obtain ⟨h1, h2⟩ := (hPQ w v hr).2 val
    simp only [setEach]
    rcases hP : P.SetValue val w with ⟨_ | err, w1⟩ <;>
      rcases hQ : Q.SetValue val v with ⟨_ | err2, v1⟩ <;>
      rw [hP, hQ] at h1 h2 <;> simp only at h1 h2
    · exact ih w1 v1 h2
    · cases h1
    · cases h1
    · exact ⟨h1, h2⟩

theorem EnvSource_loop_sim {σ τ : Type} (Rel : σ → τ → Prop) (rt : Runtime) (e : EnvSource)
    (ps : List (String × List (Parameter σ))) (qs : List (String × List (Parameter τ)))
    (h : ParamsSim Rel ps qs) (w : σ) (v : τ) (hr : Rel w v) :
    (EnvSource.Process.loop rt e ps w).1 = (EnvSource.Process.loop rt e qs v).1 ∧
    Rel (EnvSource.Process.loop rt e ps w).2 (EnvSource.Process.loop rt e qs v).2 := by
  induction h generalizing w v with
  | nil => exact ⟨rfl, hr⟩
  | @cons a b ps qs hab _ ih =>
    obtain ⟨key, params⟩ := a
    obtain ⟨key2, params2⟩ := b
    obtain ⟨hk, hp⟩ := hab
    simp only at hk hp
    subst hk
    obtain ⟨h1, h2⟩ := setEach_sim Rel (e.getEnvVar rt key) params params2 hp w v hr
    simp only [EnvSource.Process.loop]
    rcases hP : setEach (e.getEnvVar rt key) params w with ⟨_ | err, w1⟩ <;>
      rcases hQ : setEach (e.getEnvVar rt key) params2 v with ⟨_ | err2, v1⟩ <;>
      rw [hP, hQ] at h1 h2 <;> simp only at h1 h2
    · exact ih w1 v1 h2
    · cases h1
    · cases h1
    · exact ⟨h1, h2⟩

theorem EnvSource_Process_scanOrder {σ : Type} (rt : Runtime)
    (so : List Nat → List String → List String) (e : EnvSource)
    (params : GoMap (List (Parameter σ))) (w : σ) :
    EnvSource.Process { rt with scanOrder := so } e params w = EnvSource.Process rt e params w := by
  have hloop : ∀ (entries : List (String × List (Parameter σ))) (w : σ),
      EnvSource.Process.loop { rt with scanOrder := so } e entries w =
        EnvSource.Process.loop rt e entries w := by
    intro entries
    induction entries with
    | nil => intro w; rfl
    | cons kv rest ih =>
      intro w
      obtain ⟨key, ps⟩ := kv
      have hv : e.getEnvVar { rt with scanOrder := so } key = e.getEnvVar rt key := rfl
      simp only [EnvSource.Process.loop, hv]
      rcases setEach (e.getEnvVar rt key) ps w with ⟨_ | err, w1⟩
      · exact ih w1
      · rfl
  exact hloop _ w

/-- An environment source treats related parameters and related states
alike, whatever the relation. -/
theorem Source.respects_env {X : Type} (rt : Runtime)
    (so : List Nat → List String → List String) (Rel : World X → World X → Prop)
    (e : EnvSource) : Source.Respects rt { rt with scanOrder := so } Rel (.env e) := by
  intro params params2 w v hp hr
  simp only [Source.Process, EnvSource_Process_scanOrder]
  exact EnvSource_loop_sim Rel rt e _ _ (GoMap.Rel.range hp rt.envOrder) w v hr

theorem processSources_loop_sim {X : Type} (rt rt2 : Runtime) (Rel : World X → World X → Prop)
    (sources : List (Source (World X))) (hs : ∀ s ∈ sources, s.Respects rt rt2 Rel)
    (pm pm2 : ParamMap X) (hpm : ParamMapSim Rel pm pm2) (errs : List Error) (w v : World X)
    (hr : Rel w v) :
    (processSources.loop rt pm sources errs w).1 = (processSources.loop rt2 pm2 sources errs v).1 ∧
    Rel (processSources.loop rt pm sources errs w).2
      (processSources.loop rt2 pm2 sources errs v).2 := by
  induction sources generalizing errs w v with
  | nil => exact ⟨rfl, hr⟩
  | cons s rest ih =>
    have ih' := ih (fun s hs' => hs s (List.mem_cons_of_mem _ hs'))
    simp only [processSources.loop]
    rcases GoMap.Rel.get? hpm s.TagKey with ⟨h1, h2⟩ | ⟨ps, qs, h1, h2, hp⟩
    · rw [h1, h2]
      exact ih' errs w v hr
    · rw [h1, h2]
      have hl : ps.length = qs.length := GoMap.Rel.length_eq hp
      by_cases h0 : ps.length = 0
      · simp only [h0, ← hl, if_true]
        exact ih' errs w v hr
      · obtain ⟨h3, h4⟩ := hs s (List.mem_cons_self _ _) ps qs w v hp hr
        simp only [h0, ← hl, if_false, ← h3]
        exact ih' _ _ _ h4

/-! ## Process on a record with a nested record and on the flattened record -/

theorem fieldAt?_skip (xs ys : Record) (i : Nat) (rest : List Nat) :
    fieldAt? (xs ++ ys) ((xs.length + i) :: rest) = fieldAt? ys (i :: rest) := by
  induction xs with
  | nil => simp
  | cons x xs ih =>
    have hlen : (x :: xs).length + i = (xs.length + i) + 1 := by
      simp only [List.length_cons]; omega
    rw [hlen, List.cons_append, fieldAt?]
    exact ih

theorem fieldAt?_within (xs ys : Record) (i : Nat) (rest : List Nat) (h : i < xs.length) :
    fieldAt? (xs ++ ys) (i :: rest) = fieldAt? xs (i :: rest) := by
  induction xs generalizing i with
  | nil => simp at h
  | cons x xs ih =>
    obtain ⟨sf, n⟩ := x
    cases i with
    | zero => cases rest <;> rfl
    | succ i =>
      simp only [List.length_cons, Nat.succ_lt_succ_iff] at h
      rw [List.cons_append, fieldAt?, fieldAt?]
      exact ih i h

/-- Sub-field `j` of the nested record and field `k + j` of the flattened
record are the same field holding the same value. -/
theorem Nests.fieldAt?_eq {k m : Nat} {sfP : StructField} {rn rf : Record}
    (h : Nests k m sfP rn rf) (j : Nat) (hj : j < m) :
    fieldAt? rn [k, j] = fieldAt? rf [k + j] := by
  obtain ⟨pre, subs, post, hk, hm, rfl, rfl⟩ := h
  have h1 := fieldAt?_skip pre ((sfP, .struct subs) :: post) 0 [j]
  have h2 := fieldAt?_skip pre (subs ++ post) j []
  rw [hk] at h1 h2
  rw [Nat.add_zero] at h1
  rw [h1, h2, fieldAt?_within subs post j [] (by omega)]
  rfl

theorem ParamMapSim.of_init {X : Type} (Rel : World X → World X → Prop)
    (sources : List (Source (World X))) (pm : ParamMap X)
    (h : initParamMap sources [] = .ok pm) : ParamMapSim Rel pm pm := by
  have hs := (initParamMap_spec sources [] pm h).2
  refine List.forall₂_same.2 ?_
  intro e he
  obtain ⟨key, sp⟩ := e
  rcases hs key sp he with h1 | h1
  · cases h1
  · subst h1
    exact ⟨rfl, List.Forall₂.nil⟩

theorem withEnvSource_respects {X : Type} (rt : Runtime)
    (so : List Nat → List String → List String) (Rel : World X → World X → Prop)
    (sources : List (Source (World X)))
    (h : ∀ s ∈ sources, s.Respects rt { rt with scanOrder := so } Rel) :
    ∀ s ∈ withEnvSource sources, s.Respects rt { rt with scanOrder := so } Rel := by
  intro s hs
  unfold withEnvSource at hs
  split at hs
  · exact h s hs
  · rcases List.mem_append.1 hs with hs | hs
    · exact h s hs
    · rw [List.mem_singleton.1 hs]
      exact Source.respects_env rt so Rel _

/-- C16. A record has a nested record `sfP` with the fields `subs` between
the fields `pre` and `post`; the flattened record declares `subs` in its
place, and its map ranges visit the source tag keys at each field in the
order they are visited at the same field of the nested record; the sources
passed treat related parameters alike, as environment sources do.  Traversal
registers for the two records the same source tag keys and lookup keys with as
many parameters each, corresponding parameters acting alike on the field they
belong to, and records an error for the one iff it does for the other.
`Process` returns nil on the one iff it does on the other, and leaves every
field of `pre`, `subs` and `post` holding the same value in both.  The nested
record itself registers nothing but what its fields register, and adds no
error when their traversal records none. -/
theorem Process_nested_as_flat {X : Type} (rt : Runtime)
    (so : List Nat → List String → List String) (sources : List (Source (World X)))
    (sfP : StructField) (pre subs post : List (StructField × Node)) (x : X)
    (hso1 : ∀ i rest, i < pre.length → so (i :: rest) = rt.scanOrder (i :: rest))
    (hso2 : ∀ j rest, j < subs.length →
      so ((pre.length + j) :: rest) = rt.scanOrder (pre.length :: j :: rest))
    (hso3 : ∀ i rest,
      so ((pre.length + subs.length + i) :: rest) = rt.scanOrder ((pre.length + 1 + i) :: rest))
    (hsrc : ∀ s ∈ sources,
      s.Respects rt { rt with scanOrder := so } (WorldNests pre.length subs.length sfP)) :
    (∀ pm0, initParamMap (withEnvSource sources) [] = .ok pm0 →
      ParamMapSim (WorldNests pre.length subs.length sfP)
        (process rt [] (pre ++ (sfP, .struct subs) :: post) pm0
          ((withEnvSource sources).map Source.TagKey)).2
        (process { rt with scanOrder := so } [] (pre ++ (subs ++ post)) pm0
          ((withEnvSource sources).map Source.TagKey)).2 ∧
      ((process rt [] (pre ++ (sfP, .struct subs) :: post) pm0
          ((withEnvSource sources).map Source.TagKey)).1 = none ↔
        (process { rt with scanOrder := so } [] (pre ++ (subs ++ post)) pm0
          ((withEnvSource sources).map Source.TagKey)).1 = none)) ∧
    ((Process rt sources { record := pre ++ (sfP, .struct subs) :: post, ext := x }).1 = none ↔
      (Process { rt with scanOrder := so } sources
        { record := pre ++ (subs ++ post), ext := x }).1 = none) ∧
    WorldNests pre.length subs.length sfP
      (Process rt sources { record := pre ++ (sfP, .struct subs) :: post, ext := x }).2
      (Process { rt with scanOrder := so } sources
        { record := pre ++ (subs ++ post), ext := x }).2 ∧
    (∀ j, j < subs.length →
      fieldAt? (Process rt sources
          { record := pre ++ (sfP, .struct subs) :: post, ext := x }).2.record [pre.length, j] =
        fieldAt? (Process { rt with scanOrder := so } sources
          { record := pre ++ (subs ++ post), ext := x }).2.record [pre.length + j]) ∧
    (∀ (sourceKeys : List String) (p : List Nat) (pm : ParamMap X) (errs : List Error),
      (processField rt sourceKeys sfP (.struct subs) p pm errs).2 =
        (processFields rt sourceKeys subs p 0 pm []).2 ∧
      ((processFields rt sourceKeys subs p 0 pm []).1 = [] →
        (processField rt sourceKeys sfP (.struct subs) p pm errs).1 = errs)) := by
  have htrav : ∀ pm0, initParamMap (withEnvSource sources) [] = .ok pm0 →
      ((process rt [] (pre ++ (sfP, .struct subs) :: post) pm0
          ((withEnvSource sources).map Source.TagKey)).1 = none ↔
        (process { rt with scanOrder := so } [] (pre ++ (subs ++ post)) pm0
          ((withEnvSource sources).map Source.TagKey)).1 = none) ∧
      ParamMapSim (WorldNests pre.length subs.length sfP)
        (process rt [] (pre ++ (sfP, .struct subs) :: post) pm0
          ((withEnvSource sources).map Source.TagKey)).2
        (process { rt with scanOrder := so } [] (pre ++ (subs ++ post)) pm0
          ((withEnvSource sources).map Source.TagKey)).2 :=
    fun pm0 h0 => process_nested_flat rt so _ sfP pre subs post pm0 pm0 hso1 hso2 hso3
      (ParamMapSim.of_init _ _ pm0 h0)
  have hw0 : WorldNests pre.length subs.length sfP
      ({ record := pre ++ (sfP, .struct subs) :: post, ext := x } : World X)
      { record := pre ++ (subs ++ post), ext := x } :=
    ⟨⟨pre, subs, post, rfl, rfl, rfl, rfl⟩, rfl⟩
  have hmain : ((Process rt sources
        { record := pre ++ (sfP, .struct subs) :: post, ext := x }).1 = none ↔
      (Process { rt with scanOrder := so } sources
        { record := pre ++ (subs ++ post), ext := x }).1 = none) ∧
    WorldNests pre.length subs.length sfP
      (Process rt sources { record := pre ++ (sfP, .struct subs) :: post, ext := x }).2
      (Process { rt with scanOrder := so } sources
        { record := pre ++ (subs ++ post), ext := x }).2 := by
    simp only [Process]
    cases hinit : initParamMap (withEnvSource sources) [] with
    | error key => exact ⟨by simp, hw0⟩
    | ok pm0 =>
      obtain ⟨hiff, hsim⟩ := htrav pm0 hinit
      simp only
      rcases hn : process rt [] (pre ++ (sfP, .struct subs) :: post) pm0
        ((withEnvSource sources).map Source.TagKey) with ⟨_ | en, pmn⟩ <;>
      rcases hf : process { rt with scanOrder := so } [] (pre ++ (subs ++ post)) pm0
        ((withEnvSource sources).map Source.TagKey) with ⟨_ | ef, pmf⟩ <;>
      rw [hn, hf] at hiff hsim <;> simp only at hiff hsim ⊢
      · obtain ⟨h1, h2⟩ := processSources_loop_sim rt { rt with scanOrder := so } _
          (withEnvSource sources) (withEnvSource_respects rt so _ sources hsrc)
          pmn pmf hsim [] _ _ hw0
        simp only [processSources, h1]
        exact ⟨trivial, h2⟩
      · exact absurd (hiff.1 trivial) (by simp)
      · exact absurd (hiff.2 trivial) (by simp)
      · exact ⟨by simp, hw0⟩
  refine ⟨fun pm0 h0 => ⟨(htrav pm0 h0).2, (htrav pm0 h0).1⟩, hmain.1, hmain.2, ?_, ?_⟩
  · intro j hj
    exact Nests.fieldAt?_eq hmain.2.1 j hj
  · intro sourceKeys p pm errs
    simp only [processField]
    refine ⟨trivial, ?_⟩
    intro h
    rw [h]
    rfl

/-- C16 at the record of the test `ComplexNestedFields` cut down to three
fields, with `HOST` and `TEST-STR` set: nested or flat, `Process` returns nil
and the fields hold the same values. -/
theorem Process_nested_as_flat_witness :
    Process (sampleRuntime [("HOST", "h"), ("TEST-STR", "v")]) []
        { record := nestedRecord, ext := () } =
      (none,
        { record :=
            [ ({ Name := "Host", Tag := [("env", "HOST")] }, .leaf .String (.String "h")),
              ({ Name := "TestStruct", Tag := [] },
                .struct
                  [ ({ Name := "NestedStr", Tag := [("env", "test-str"), ("required", "true")] },
                      .leaf .String (.String "v")) ]),
              ({ Name := "Port", Tag := [("env", "PORT"), ("default", "8080")] },
                .leaf (.Int .Int "" "int") (.Int 8080)) ],
          ext := () }) ∧
    Process (sampleRuntime [("HOST", "h"), ("TEST-STR", "v")]) []
        { record := flatRecord, ext := () } =
      (none,
        { record :=
            [ ({ Name := "Host", Tag := [("env", "HOST")] }, .leaf .String (.String "h")),
              ({ Name := "NestedStr", Tag := [("env", "test-str"), ("required", "true")] },
                .leaf .String (.String "v")),
              ({ Name := "Port", Tag := [("env", "PORT"), ("default", "8080")] },
                .leaf (.Int .Int "" "int") (.Int 8080)) ],
          ext := () }) ∧
    WorldNests 1 1 { Name := "TestStruct", Tag := [] }
      (Process (sampleRuntime [("HOST", "h"), ("TEST-STR", "v")]) []
        { record := nestedRecord, ext := () }).2
      (Process (sampleRuntime [("HOST", "h"), ("TEST-STR", "v")]) []
        { record := flatRecord, ext := () }).2 :=
  ⟨rfl, rfl,
    (Process_nested_as_flat (sampleRuntime [("HOST", "h"), ("TEST-STR", "v")])
      (sampleRuntime [("HOST", "h"), ("TEST-STR", "v")]).scanOrder []
      { Name := "TestStruct", Tag := [] }
      [ ({ Name := "Host", Tag := [("env", "HOST")] }, .leaf .String (.String "")) ]
      [ ({ Name := "NestedStr", Tag := [("env", "test-str"), ("required", "true")] },
          .leaf .String (.String "")) ]
      [ ({ Name := "Port", Tag := [("env", "PORT"), ("default", "8080")] },
          .leaf (.Int .Int "" "int") (.Int 0)) ]
      () (fun _ _ _ => rfl) (fun _ _ _ => rfl) (fun _ _ => rfl)
      (fun _ h => absurd h (List.not_mem_nil _))).2.2.1⟩

/-! ## Traversal: one parameter per field -/

theorem GoMap.total_set_of_some {V : Type} (f : V → Nat) (m : GoMap V) (key : String)
    (v v0 : V) (h : m.get? key = some v0) :
    GoMap.total f (m.set key v) + f v0 = GoMap.total f m + f v := by
  induction m with
  | nil => simp [GoMap.get?] at h
  | cons kv rest ih =>
    obtain ⟨k, x⟩ := kv
    by_cases hk : k = key
    · simp only [GoMap.get?, hk, if_true, Option.some.injEq] at h
      subst h
      simp only [GoMap.set, hk, if_true, GoMap.total, List.map_cons, List.sum_cons]
      omega
    · simp only [GoMap.get?, hk, if_false] at h
      have := ih h
      simp only [GoMap.total] at this
      simp only [GoMap.set, hk, if_false, GoMap.total, List.map_cons, List.sum_cons]
      omega

theorem GoMap.total_set_of_none {V : Type} (f : V → Nat) (m : GoMap V) (key : String)
    (v : V) (h : m.get? key = none) :
    GoMap.total f (m.set key v) = GoMap.total f m + f v := by
  induction m with
  | nil => simp [GoMap.set, GoMap.total]
  | cons kv rest ih =>
    obtain ⟨k, x⟩ := kv
    by_cases hk : k = key
    · simp [GoMap.get?, hk] at h
    · simp only [GoMap.get?, hk, if_false] at h
      have := ih h
      simp only [GoMap.total] at this
      simp only [GoMap.set, hk, if_false, GoMap.total, List.map_cons, List.sum_cons]
      omega

theorem paramCount_register {X : Type} (paramMap : ParamMap X) (tagKey tagValue : String)
    (P : Parameter (World X)) (sp : GoMap (List (Parameter (World X))))
    (h : paramMap.get? tagKey = some sp) :
    paramCount (register paramMap tagKey tagValue P) = paramCount paramMap + 1 := by
  have hsp : GoMap.total List.length
      (sp.set tagValue ((match sp.get? tagValue with | none => [] | some ps => ps) ++ [P])) =
      GoMap.total List.length sp + 1 := by
    cases hg : sp.get? tagValue with
    | none =>
      rw [GoMap.total_set_of_none _ _ _ _ hg]
      simp
    | some ps =>
      have := GoMap.total_set_of_some List.length sp tagValue (ps ++ [P]) ps hg
      simp only [List.length_append, List.length_singleton] at this
      simp only
      omega
  have := GoMap.total_set_of_some (GoMap.total List.length) paramMap tagKey
    (sp.set tagValue ((match sp.get? tagValue with | none => [] | some ps => ps) ++ [P])) sp h
  simp only [register, h, paramCount]
  omega

theorem register_get? {X : Type} (paramMap : ParamMap X) (tagKey tagValue : String)
    (P : Parameter (World X)) (sp : GoMap (List (Parameter (World X))))
    (h : paramMap.get? tagKey = some sp) (k : String) :
    (register paramMap tagKey tagValue P).get? k =
      if tagKey = k then
        some (sp.set tagValue ((match sp.get? tagValue with | none => [] | some ps => ps) ++ [P]))
      else paramMap.get? k := by
  simp only [register, h, GoMap.get?_set]

theorem findTag_ne_none (sf : StructField) (keys : List String) (key : String)
    (hk : key ∈ keys) (hl : sf.Lookup key ≠ none) : findTag sf keys ≠ none := by
  induction keys with
  | nil => cases hk
  | cons k ks ih =>
    simp only [findTag]
    cases hlk : sf.Lookup k with
    | some v => simp
    | none =>
      rcases List.mem_cons.1 hk with rfl | hk
      · exact absurd hlk hl
      · exact ih hk

theorem GoMap.mem_range_keys {V : Type} (order : List String → List String) (m : GoMap V)
    (key : String) (hk : key ∈ m.keys) (ho : key ∈ order m.keys) :
    key ∈ (m.range order).map Prod.fst := by
  cases hg : m.get? key with
  | none => exact absurd hk ((GoMap.get?_eq_none_iff m key).1 hg)
  | some v =>
    refine List.mem_map.2 ⟨(key, v), ?_, rfl⟩
    simp only [GoMap.range, List.mem_filterMap]
    exact ⟨key, ho, by rw [hg]⟩

/-- C21, amended. One iteration of `process` on a field that is not a
nested record and not a non-empty interface registers at most one parameter,
over all source groupings.  When the field is not ignored, has a converter
and has a tag for at least one configured source, and the `range` over
`paramMap` visits every tag key, it registers exactly one, whatever the order
of the visit: in the grouping of a configured source whose tag key the field
has, under the value of that tag, after the parameters already there; the
other groupings are as they were.  When the field is ignored, has no
converter, or has no tag for a configured source, it registers none. -/
theorem processField_registers_one {X : Type} (rt : Runtime) (sourceKeys : List String)
    (sf : StructField) (typ : Typ) (val : Value) (path : List Nat) (paramMap : ParamMap X)
    (errs : List Error) :
    (paramCount (processField rt sourceKeys sf (.leaf typ val) path paramMap errs).2 =
        paramCount paramMap ∨
      paramCount (processField rt sourceKeys sf (.leaf typ val) path paramMap errs).2 =
        paramCount paramMap + 1) ∧
    (ignored sf = false → ∀ setFn, getSetter rt typ = .ok setFn →
      (∀ key ∈ paramMap.keys, key ∈ rt.scanOrder path paramMap.keys) →
      (∃ key ∈ paramMap.keys, sf.Lookup key ≠ none) →
      ∃ tagKey tagValue sp, tagKey ∈ paramMap.keys ∧ sf.Lookup tagKey = some tagValue ∧
        paramMap.get? tagKey = some sp ∧
        (processField rt sourceKeys sf (.leaf typ val) path paramMap errs).2 =
          register paramMap tagKey tagValue
            (newParameter sf (fieldSetter path setFn) tagKey tagValue) ∧
        paramCount (processField rt sourceKeys sf (.leaf typ val) path paramMap errs).2 =
          paramCount paramMap + 1 ∧
        GoMap.get? (processField rt sourceKeys sf (.leaf typ val) path paramMap errs).2 tagKey =
          some (sp.set tagValue
            ((match sp.get? tagValue with
              | none => []
              | some ps => ps) ++
              [newParameter sf (fieldSetter path setFn) tagKey tagValue])) ∧
        ∀ k, k ≠ tagKey →
          GoMap.get? (processField rt sourceKeys sf (.leaf typ val) path paramMap errs).2 k =
            paramMap.get? k) ∧
    ((ignored sf = true ∨ (∃ err, getSetter rt typ = .error err) ∨
        ∀ key ∈ paramMap.keys, sf.Lookup key = none) →
      (processField rt sourceKeys sf (.leaf typ val) path paramMap errs).2 = paramMap) := by
  refine ⟨?_, ?_, ?_⟩
  · rcases processField_leaf_paramMap rt sourceKeys sf typ val path paramMap errs with
      h | ⟨setFn, tagKey, tagValue, h⟩
    · exact Or.inl (by rw [h])
    · rw [h]
      cases hg : paramMap.get? tagKey with
      | none => exact Or.inl (by simp only [register, hg])
      | some sp => exact Or.inr (paramCount_register _ _ _ _ sp hg)
  · intro hi setFn hc hscan ⟨key, hkey, hl⟩
    have hne : findTag sf ((GoMap.range (rt.scanOrder path) paramMap).map Prod.fst) ≠ none :=
      findTag_ne_none sf _ key (GoMap.mem_range_keys _ _ key hkey (hscan key hkey)) hl
    cases hf : findTag sf ((GoMap.range (rt.scanOrder path) paramMap).map Prod.fst) with
    | none => exact absurd hf hne
    | some kv =>
      obtain ⟨tagKey, tagValue⟩ := kv
      obtain ⟨hmem, hlook⟩ := findTag_some_mem sf _ tagKey tagValue hf
      have hk : tagKey ∈ paramMap.keys := GoMap.range_keys_subset _ _ tagKey hmem
      cases hg : paramMap.get? tagKey with
      | none => exact absurd hk ((GoMap.get?_eq_none_iff _ _).1 hg)
      | some sp =>
        have hR : (processField rt sourceKeys sf (.leaf typ val) path paramMap errs).2 =
            register paramMap tagKey tagValue
              (newParameter sf (fieldSetter path setFn) tagKey tagValue) := by
          simp only [processField, hi, hc, hf]
          rfl
        refine ⟨tagKey, tagValue, sp, hk, hlook, hg, hR, ?_, ?_, ?_⟩
        · rw [hR]
          exact paramCount_register _ _ _ _ sp hg
        · rw [hR, register_get? _ _ _ _ sp hg, if_pos rfl]
        · intro k hk'
          rw [hR, register_get? _ _ _ _ sp hg, if_neg (fun e => hk' e.symm)]
  · intro h
    rcases h with h | ⟨err, h⟩ | h
    · simp only [processField, h, if_true]
    · by_cases hi : ignored sf = true
      · simp only [processField, hi, if_true]
      · simp only [processField, hi, h]
        rfl
    · exact processField_leaf_noSourceTag rt sourceKeys paramMap.keys sf typ val path paramMap
        errs (fun _ hk => hk) (Or.inr h)

/-- C21, amended, at a string field tagged for `mock` and for `env`, both
configured: when the tag keys are visited in the order `mock`, `env` the one
parameter goes to the grouping of `mock` under `host`; when they are visited
in the reverse order it goes to the grouping of `env` under `HOST`. -/
theorem processField_registers_one_witness :
    paramCount (processField (sampleRuntime []) ["mock", "env"] twoTagField
        (.leaf .String (.String "")) [0]
        ([("mock", []), ("env", [])] : ParamMap Unit) []).2 = 1 ∧
    ((processField (sampleRuntime []) ["mock", "env"] twoTagField
        (.leaf .String (.String "")) [0]
        ([("mock", []), ("env", [])] : ParamMap Unit) []).2.map
      fun e => (e.1, e.2.map fun l => (l.1, l.2.length))) =
      [("mock", [("host", 1)]), ("env", [])] ∧
    paramCount (processField { sampleRuntime [] with scanOrder := fun _ keys => keys.reverse }
        ["mock", "env"] twoTagField (.leaf .String (.String "")) [0]
        ([("mock", []), ("env", [])] : ParamMap Unit) []).2 = 1 ∧
    ((processField { sampleRuntime [] with scanOrder := fun _ keys => keys.reverse }
        ["mock", "env"] twoTagField (.leaf .String (.String "")) [0]
        ([("mock", []), ("env", [])] : ParamMap Unit) []).2.map
      fun e => (e.1, e.2.map fun l => (l.1, l.2.length))) =
      [("mock", []), ("env", [("HOST", 1)])] := by
  obtain ⟨_, _, _, _, _, _, _, h1, _⟩ :=
    (processField_registers_one (sampleRuntime []) ["mock", "env"] twoTagField .String
      (.String "") [0] ([("mock", []), ("env", [])] : ParamMap Unit) []).2.1 rfl stringSetter rfl
      (by decide) ⟨"env", by decide, by decide⟩
  obtain ⟨_, _, _, _, _, _, _, h2, _⟩ :=
    (processField_registers_one { sampleRuntime [] with scanOrder := fun _ keys => keys.reverse }
      ["mock", "env"] twoTagField .String
      (.String "") [0] ([("mock", []), ("env", [])] : ParamMap Unit) []).2.1 rfl stringSetter rfl
      (by decide) ⟨"env", by decide, by decide⟩
  exact ⟨h1, rfl, h2, rfl⟩

/-- C21 fails as stated. A field tagged for the environment, a configured
source, registers no parameter when it is marked `ignore:"true"`, and none
when its type has no converter. -/
theorem processField_tagged_field_not_registered :
    ignoredEnvField.1.Lookup "env" = some "PORT" ∧
    processField (sampleRuntime []) ["env"] ignoredEnvField.1 ignoredEnvField.2 [0]
        ([("env", [])] : ParamMap Unit) [] = ([], [("env", [])]) ∧
    mapField.1.Lookup "env" = some "LABELS" ∧
    processField (sampleRuntime []) ["env"] mapField.1 mapField.2 [0]
        ([("env", [])] : ParamMap Unit) [] =
      ([.Wrap "error getting set function" .ErrUnsupportedType], [("env", [])]) :=
  ⟨rfl, rfl, rfl, rfl⟩

/-! ## Traversal: the errors recorded -/

theorem processField_leaf_specErrors {X : Type} (rt : Runtime) (sourceKeys : List String)
    (hscan : ∀ p, ∀ key ∈ sourceKeys, key ∈ rt.scanOrder p sourceKeys)
    (sf : StructField) (typ : Typ) (val : Value) (p : List Nat) (pm : ParamMap X)
    (hk : pm.keys = sourceKeys) :
    (processField rt sourceKeys sf (.leaf typ val) p pm []).1 =
      specFieldErrors rt sourceKeys sf (.leaf typ val) := by
  simp only [processField, specFieldErrors]
  by_cases hi : ignored sf = true
  · simp only [hi, if_true]
  · simp only [hi, if_false]
    rcases getSetter rt typ with err | setFn
    · rfl
    · simp only
      by_cases hany : sourceKeys.any (fun key => (sf.Lookup key).isSome) = true
      · obtain ⟨key, hkey, hl⟩ := List.any_eq_true.1 hany
        have hne : findTag sf ((GoMap.range (rt.scanOrder p) pm).map Prod.fst) ≠ none := by
          refine findTag_ne_none sf _ key
            (GoMap.mem_range_keys _ _ key (by rw [hk]; exact hkey)
              (by rw [hk]; exact hscan p key hkey)) ?_
          intro h
          rw [h] at hl
          cases hl
        rw [if_pos hany]
        cases hf : findTag sf ((GoMap.range (rt.scanOrder p) pm).map Prod.fst) with
        | none => exact absurd hf hne
        | some kv => rfl
      · have hnone : ∀ key ∈ sourceKeys, sf.Lookup key = none := by
          intro key hkey
          cases hl : sf.Lookup key with
          | none => rfl
          | some v =>
            exact absurd (List.any_eq_true.2 ⟨key, hkey, by rw [hl]; rfl⟩) hany
        have hf : findTag sf ((GoMap.range (rt.scanOrder p) pm).map Prod.fst) = none :=
          findTag_eq_none _ _ (fun key hkey =>
            hnone key (by rw [← hk]; exact GoMap.range_keys_subset _ _ key hkey))
        rw [if_neg hany, hf]
        simp only
        rcases ParseBool (sf.Get requiredTag) with e | b
        · rfl
        · cases b <;> rfl

mutual
/-- The errors traversal of a field records are those the specification
gives for the field. -/
theorem processField_specErrors {X : Type} (rt : Runtime) (sourceKeys : List String)
    (hscan : ∀ p, ∀ key ∈ sourceKeys, key ∈ rt.scanOrder p sourceKeys) :
    ∀ (n : Node) (sf : StructField) (p : List Nat) (pm : ParamMap X), pm.keys = sourceKeys →
      (processField rt sourceKeys sf n p pm []).1 = specFieldErrors rt sourceKeys sf n
  | .leaf typ val, sf, p, pm, hk =>
    processField_leaf_specErrors rt sourceKeys hscan sf typ val p pm hk
  | .struct fields, sf, p, pm, hk => by
    simp only [processField, specFieldErrors,
      processFields_specErrors rt sourceKeys hscan fields p 0 pm hk]
    rcases ErrorOrNil (specFieldsErrors rt sourceKeys fields) with _ | err <;> rfl
  | .iface held, sf, p, pm, hk => by
    simp only [processField, specFieldErrors,
      processFields_specErrors rt sourceKeys hscan held p 0 pm hk]
    rcases ErrorOrNil (specFieldsErrors rt sourceKeys held) with _ | err <;> rfl
/-- The same for the loop over the fields of a record. -/
theorem processFields_specErrors {X : Type} (rt : Runtime) (sourceKeys : List String)
    (hscan : ∀ p, ∀ key ∈ sourceKeys, key ∈ rt.scanOrder p sourceKeys) :
    ∀ (fields : List (StructField × Node)) (path : List Nat) (i : Nat) (pm : ParamMap X),
      pm.keys = sourceKeys →
      (processFields rt sourceKeys fields path i pm []).1 =
        specFieldsErrors rt sourceKeys fields
  | [], _, _, _, _ => by simp only [processFields, specFieldsErrors]
  | (sf, n) :: rest, path, i, pm, hk => by
    have h1 := processField_specErrors rt sourceKeys hscan n sf (path ++ [i]) pm hk
    have h2 := processFields_specErrors rt sourceKeys hscan rest path (i + 1)
      (processField rt sourceKeys sf n (path ++ [i]) pm []).2
      (by rw [processField_keys]; exact hk)
    simp only [processFields, specFieldsErrors]
    rw [(processFields_acc rt sourceKeys rest path (i + 1) _ _).1, h1, h2]
end

theorem specFieldsErrors_append (rt : Runtime) (sourceKeys : List String)
    (xs ys : List (StructField × Node)) :
    specFieldsErrors rt sourceKeys (xs ++ ys) =
      specFieldsErrors rt sourceKeys xs ++ specFieldsErrors rt sourceKeys ys := by
  induction xs with
  | nil => simp [specFieldsErrors]
  | cons x xs ih =>
    obtain ⟨sf, n⟩ := x
    rw [List.cons_append, specFieldsErrors, specFieldsErrors, ih, List.append_assoc]

theorem Error.chainList_append (xs ys : List Error) :
    Error.chainList (xs ++ ys) = Error.chainList xs ++ Error.chainList ys := by
  induction xs with
  | nil => simp [Error.chainList]
  | cons x xs ih =>
    rw [List.cons_append, Error.chainList, Error.chainList, ih, List.append_assoc]

theorem Error.chainList_ne_nil_of_mem (e : Error) (errs : List Error)
    (h : e ∈ Error.chainList errs) : errs ≠ [] := by
  intro hn
  subst hn
  simp [Error.chainList] at h

theorem Error.mem_chainList_wrap (e : Error) (msg : String) (errs : List Error)
    (h : e ∈ Error.chainList errs) :
    ∃ err, ErrorOrNil errs = some err ∧ e ∈ Error.chainList [.Wrap msg err] := by
  cases errs with
  | nil => simp [Error.chainList] at h
  | cons x xs =>
    refine ⟨.Multi (x :: xs), rfl, ?_⟩
    simp only [Error.chainList, Error.chain, List.append_nil, List.mem_cons]
    exact Or.inr (Or.inr h)

mutual
/-- A field without a converter that is not ignored, wherever it is below a
field, puts `ErrUnsupportedType` in the chain of the errors of that field. -/
theorem specFieldErrors_chain (rt : Runtime) (sourceKeys : List String) (sfT : StructField)
    (typT : Typ) (valT : Value) (err : Error) (hi : ignored sfT = false)
    (hc : getSetter rt typT = .error err) :
    ∀ (n : Node) (sf : StructField) (rel : List Nat),
      fieldBelow sf n rel = some (sfT, .leaf typT valT) →
      .ErrUnsupportedType ∈ Error.chainList (specFieldErrors rt sourceKeys sf n)
  | .leaf typ val, sf, rel, h => by
    cases rel with
    | nil =>
      simp only [fieldBelow, Option.some.injEq, Prod.mk.injEq, Node.leaf.injEq] at h
      obtain ⟨rfl, rfl, rfl⟩ := h
      have he := (getSetter_error rt typ err hc).1
      subst he
      simp only [specFieldErrors, hi, hc]
      simp [Error.chainList, Error.chain]
    | cons j rel => simp [fieldBelow, Node.fieldAt?] at h
  | .struct fields, sf, rel, h => by
    cases rel with
    | nil => simp [fieldBelow] at h
    | cons j rel =>
      have hin := specFieldsErrors_chain rt sourceKeys sfT typT valT err hi hc fields j rel
        (by simpa [fieldBelow, Node.fieldAt?] using h)
      obtain ⟨e, he, hmem⟩ := Error.mem_chainList_wrap _ "error processing struct" _ hin
      simp only [specFieldErrors, he]
      exact hmem
  | .iface held, sf, rel, h => by
    cases rel with
    | nil => simp [fieldBelow] at h
    | cons j rel =>
      have hin := specFieldsErrors_chain rt sourceKeys sfT typT valT err hi hc held j rel
        (by simpa [fieldBelow, Node.fieldAt?] using h)
      obtain ⟨e, he, hmem⟩ := Error.mem_chainList_wrap _ "error processing interface" _ hin
      simp only [specFieldErrors, he]
      exact hmem
/-- The same for the fields of a record. -/
theorem specFieldsErrors_chain (rt : Runtime) (sourceKeys : List String) (sfT : StructField)
    (typT : Typ) (valT : Value) (err : Error) (hi : ignored sfT = false)
    (hc : getSetter rt typT = .error err) :
    ∀ (fields : List (StructField × Node)) (j : Nat) (rel : List Nat),
      fieldAt? fields (j :: rel) = some (sfT, .leaf typT valT) →
      .ErrUnsupportedType ∈ Error.chainList (specFieldsErrors rt sourceKeys fields)
  | [], j, rel, h => by simp [fieldAt?] at h
  | (sf, n) :: rest, j, rel, h => by
    simp only [specFieldsErrors, Error.chainList_append, List.mem_append]
    cases j with
    | zero =>
      rw [fieldAt?_cons_zero] at h
      exact Or.inl (specFieldErrors_chain rt sourceKeys sfT typT valT err hi hc n sf rel h)
    | succ j =>
      exact Or.inr (specFieldsErrors_chain rt sourceKeys sfT typT valT err hi hc rest j rel
        (by simpa [fieldAt?] using h))
end

/-- C22, amended. The sources have distinct tag keys and a `range` over
`paramMap` visits every tag key.  When the record has, at any depth, a field
that is not ignored and whose type has no converter, whatever its tags,
`Process` returns the multi-error of the errors of all fields in order, whose
chain holds `ErrUnsupportedType`, and leaves the state as it was.  Every field
adds its own errors between those of the fields before and after it: a field
without a converter that is not ignored adds the wrapped `ErrUnsupportedType`,
a required field with a converter and no tag for a source adds the
required-field error. -/
theorem Process_unsupported_field {X : Type} (rt : Runtime)
    (sources : List (Source (World X))) (w : World X) (p : List Nat) (sf : StructField)
    (typ : Typ) (val : Value) (err : Error)
    (hnodup : ((withEnvSource sources).map Source.TagKey).Nodup)
    (hscan : ∀ q, ∀ key ∈ (withEnvSource sources).map Source.TagKey,
      key ∈ rt.scanOrder q ((withEnvSource sources).map Source.TagKey))
    (hw : fieldAt? w.record p = some (sf, .leaf typ val))
    (hi : ignored sf = false) (hc : getSetter rt typ = .error err) :
    Process rt sources w =
      (some (.Multi (specFieldsErrors rt ((withEnvSource sources).map Source.TagKey) w.record)),
        w) ∧
    .ErrUnsupportedType ∈
      (Error.Multi
        (specFieldsErrors rt ((withEnvSource sources).map Source.TagKey) w.record)).chain ∧
    (∀ pre sf2 n2 post, w.record = pre ++ (sf2, n2) :: post →
      specFieldsErrors rt ((withEnvSource sources).map Source.TagKey) w.record =
        specFieldsErrors rt ((withEnvSource sources).map Source.TagKey) pre ++
          specFieldErrors rt ((withEnvSource sources).map Source.TagKey) sf2 n2 ++
          specFieldsErrors rt ((withEnvSource sources).map Source.TagKey) post) ∧
    (∀ sf2 typ2 val2 e2, ignored sf2 = false → getSetter rt typ2 = .error e2 →
      specFieldErrors rt ((withEnvSource sources).map Source.TagKey) sf2 (.leaf typ2 val2) =
        [.Wrap "error getting set function" .ErrUnsupportedType]) ∧
    (∀ sf2 typ2 val2 setFn, ignored sf2 = false → getSetter rt typ2 = .ok setFn →
      (∀ key ∈ (withEnvSource sources).map Source.TagKey, sf2.Lookup key = none) →
      ParseBool (sf2.Get requiredTag) = .ok true →
      specFieldErrors rt ((withEnvSource sources).map Source.TagKey) sf2 (.leaf typ2 val2) =
        [.New ("error: the field " ++ sf2.Name ++
          " was marked as required, but did not specify a struct tag for one of the provided sources: "
          ++ String.intercalate ", " ((withEnvSource sources).map Source.TagKey))]) := by
  obtain ⟨pm, hpm, hkeys⟩ := initParamMap_of_nodup (X := X) (withEnvSource sources) hnodup
  have hmem : .ErrUnsupportedType ∈ Error.chainList
      (specFieldsErrors rt ((withEnvSource sources).map Source.TagKey) w.record) := by
    cases p with
    | nil => rw [fieldAt?_nil] at hw; cases hw
    | cons j rel => exact specFieldsErrors_chain rt _ sf typ val err hi hc w.record j rel hw
  have hne := Error.chainList_ne_nil_of_mem _ _ hmem
  have herrs := processFields_specErrors rt _ hscan w.record [] 0 pm hkeys
  have ht : (process rt [] w.record pm ((withEnvSource sources).map Source.TagKey)).1 =
      some (.Multi (specFieldsErrors rt ((withEnvSource sources).map Source.TagKey)
        w.record)) := by
    simp only [process, herrs]
    cases hl : specFieldsErrors rt ((withEnvSource sources).map Source.TagKey) w.record with
    | nil => exact absurd hl hne
    | cons e es => rfl
  refine ⟨Process_of_traversal_error rt sources w pm _ hpm ht, ?_, ?_, ?_, ?_⟩
  · simp only [Error.chain, List.mem_cons]
    exact Or.inr hmem
  · intro pre sf2 n2 post hrec
    rw [hrec, specFieldsErrors_append, specFieldsErrors, List.append_assoc]
  · intro sf2 typ2 val2 e2 hi2 hc2
    have he := (getSetter_error rt typ2 e2 hc2).1
    subst he
    simp only [specFieldErrors, hi2, hc2]
    rfl
  · intro sf2 typ2 val2 setFn hi2 hc2 hno hr
    have hany : ¬ ((withEnvSource sources).map Source.TagKey).any
        (fun key => (sf2.Lookup key).isSome) = true := by
      intro h
      obtain ⟨key, hkey, hl⟩ := List.any_eq_true.1 h
      rw [hno key hkey] at hl
      cases hl
    simp only [specFieldErrors, hi2, hc2, hany, hr]
    rfl

/-- C22, amended, at a record with a map, a tagged field whose variable is
set, a required field without a source tag and a nested record holding a
channel: `Process` returns the three errors in the order of the fields, the
one of the nested record wrapping that of the channel, and the tagged field
is not set. -/
theorem Process_unsupported_field_witness :
    Process (sampleRuntime [("HOST", "h")]) [] { record := unsupportedRecord, ext := () } =
      (some (.Multi
        [ .Wrap "error getting set function" .ErrUnsupportedType,
          .New "error: the field Name was marked as required, but did not specify a struct tag for one of the provided sources: env",
          .Wrap "error processing struct"
            (.Multi [.Wrap "error getting set function" .ErrUnsupportedType]) ]),
        { record := unsupportedRecord, ext := () }) ∧
    Error.ErrUnsupportedType ∈
      (Error.Multi (specFieldsErrors (sampleRuntime [("HOST", "h")]) ["env"]
        unsupportedRecord)).chain :=
  have h := Process_unsupported_field (sampleRuntime [("HOST", "h")]) []
    { record := unsupportedRecord, ext := () } [0] { Name := "Labels", Tag := [] }
    (.Other .Map) .Other .ErrUnsupportedType (by decide) (fun _ _ hk => hk) rfl rfl rfl
  ⟨h.1.trans rfl, h.2.1⟩

/-- C22 fails as stated. With two sources of the same tag key `Process`
returns the duplicate-key error before it looks at the record: the error it
returns for a record holding a map does not wrap `ErrUnsupportedType`. -/
theorem Process_duplicate_sources_hide_unsupported :
    Process (sampleRuntime []) [mockSource "dup" [], mockSource "dup" []]
        { record := mapRecord, ext := [] } =
      (some (.New "error: multiple sources provided with the tag key dup"),
        { record := mapRecord, ext := [] }) ∧
    (Error.New "error: multiple sources provided with the tag key dup").chain =
      [.New "error: multiple sources provided with the tag key dup"] :=
  ⟨rfl, rfl⟩

/-! ## Process: traversal errors abort the call -/

mutual
/-- Traversal of a field ends with an error recorded when one was recorded
before or when the field is, or holds, a leaf field without a converter that
is not ignored. -/
theorem processField_unsupported {X : Type} (rt : Runtime) (sourceKeys : List String)
    (sfT : StructField) (typT : Typ) (valT : Value) (err : Error)
    (hi : ignored sfT = false) (hc : getSetter rt typT = .error err) :
    ∀ (n : Node) (sf : StructField) (q : List Nat) (paramMap : ParamMap X) (errs : List Error),
      (errs ≠ [] ∨ ∃ rel, fieldBelow sf n rel = some (sfT, .leaf typT valT)) →
      (processField rt sourceKeys sf n q paramMap errs).1 ≠ []
  | .leaf typ val, sf, q, paramMap, errs, h => by
    rcases h with h | ⟨rel, h⟩
    · exact processField_leaf_errs rt sourceKeys sf typ val q paramMap errs h
    · cases rel with
      | nil =>
        simp only [fieldBelow, Option.some.injEq, Prod.mk.injEq, Node.leaf.injEq] at h
        obtain ⟨rfl, rfl, rfl⟩ := h
        simp only [processField, hi, hc]
        exact Append_Wrap_ne_nil _ _ _
      | cons j rel => simp [fieldBelow, Node.fieldAt?] at h
  | .struct fields, sf, q, paramMap, errs, h => by
    simp only [processField]
    rcases h with h | ⟨rel, h⟩
    · cases ErrorOrNil (processFields rt sourceKeys fields q 0 paramMap []).1 with
      | none => exact h
      | some err => exact Append_ne_nil_of_ne_nil _ _ h
    · cases rel with
      | nil => simp [fieldBelow] at h
      | cons j rel =>
        have hin := processFields_unsupported rt sourceKeys sfT typT valT err hi hc
          fields q 0 paramMap [] (Or.inr ⟨j, rel, by simpa [fieldBelow, Node.fieldAt?] using h⟩)
        cases he : ErrorOrNil (processFields rt sourceKeys fields q 0 paramMap []).1 with
        | none => exact absurd ((ErrorOrNil_eq_none_iff _).1 he) hin
        | some err => exact Append_Wrap_ne_nil _ _ _
  | .iface held, sf, q, paramMap, errs, h => by
    simp only [processField]
    rcases h with h | ⟨rel, h⟩
    · cases ErrorOrNil (processFields rt sourceKeys held q 0 paramMap []).1 with
      | none => exact h
      | some err => exact Append_ne_nil_of_ne_nil _ _ h
    · cases rel with
      | nil => simp [fieldBelow] at h
      | cons j rel =>
        have hin := processFields_unsupported rt sourceKeys sfT typT valT err hi hc
          held q 0 paramMap [] (Or.inr ⟨j, rel, by simpa [fieldBelow, Node.fieldAt?] using h⟩)
        cases he : ErrorOrNil (processFields rt sourceKeys held q 0 paramMap []).1 with
        | none => exact absurd ((ErrorOrNil_eq_none_iff _).1 he) hin
        | some err => exact Append_Wrap_ne_nil _ _ _
/-- The same for the loop over the fields of a record. -/
theorem processFields_unsupported {X : Type} (rt : Runtime) (sourceKeys : List String)
    (sfT : StructField) (typT : Typ) (valT : Value) (err : Error)
    (hi : ignored sfT = false) (hc : getSetter rt typT = .error err) :
    ∀ (fields : List (StructField × Node)) (q : List Nat) (i : Nat) (paramMap : ParamMap X)
      (errs : List Error),
      (errs ≠ [] ∨ ∃ j rel, fieldAt? fields (j :: rel) = some (sfT, .leaf typT valT)) →
      (processFields rt sourceKeys fields q i paramMap errs).1 ≠ []
  | [], _, _, paramMap, errs, h => by
    simp only [processFields]
    rcases h with h | ⟨j, rel, h⟩
    · exact h
    · simp [fieldAt?] at h
  | (sf, n) :: rest, q, i, paramMap, errs, h => by
    simp only [processFields]
    apply processFields_unsupported rt sourceKeys sfT typT valT err hi hc rest q (i + 1)
    rcases h with h | ⟨j, rel, h⟩
    · exact Or.inl (processField_unsupported rt sourceKeys sfT typT valT err hi hc
        n sf (q ++ [i]) paramMap errs (Or.inl h))
    · cases j with
      | zero =>
        rw [fieldAt?_cons_zero] at h
        exact Or.inl (processField_unsupported rt sourceKeys sfT typT valT err hi hc
          n sf (q ++ [i]) paramMap errs (Or.inr ⟨rel, h⟩))
      | succ j => exact Or.inr ⟨j, rel, by simpa [fieldAt?] using h⟩
end

/-- C23. The sources have distinct tag keys, so that `Process` reaches the
traversal of the record.  When traversal records an error, `Process` returns
that error and the state is the one before the call, whatever the sources'
`Process` methods would do: no state a source keeps has changed, so none was
invoked, and every field of the record, at any depth, holds what it held.
Traversal records an error when the record has, at any depth, a field that is
not ignored and has no converter, or one that is not ignored, has a converter,
is required and has no tag for any source. -/
theorem Process_traversal_error_aborts {X : Type} (rt : Runtime)
    (sources : List (Source (World X))) (w : World X) (paramMap : ParamMap X)
    (hinit : initParamMap (withEnvSource sources) [] = .ok paramMap) :
    (∀ err,
      (process rt [] w.record paramMap ((withEnvSource sources).map Source.TagKey)).1 =
        some err →
      Process rt sources w = (some err, w) ∧
      (Process rt sources w).2.ext = w.ext ∧
      ∀ p, fieldAt? (Process rt sources w).2.record p = fieldAt? w.record p) ∧
    (∀ p sf typ val e, fieldAt? w.record p = some (sf, .leaf typ val) →
      ignored sf = false → getSetter rt typ = .error e →
      (process rt [] w.record paramMap ((withEnvSource sources).map Source.TagKey)).1 ≠
        none) ∧
    (∀ p sf typ val setFn, fieldAt? w.record p = some (sf, .leaf typ val) →
      ignored sf = false → getSetter rt typ = .ok setFn →
      (∀ s ∈ withEnvSource sources, sf.Lookup s.TagKey = none) →
      ParseBool (sf.Get requiredTag) = .ok true →
      (process rt [] w.record paramMap ((withEnvSource sources).map Source.TagKey)).1 ≠
        none) := by
  refine ⟨?_, ?_, ?_⟩
  · intro err ht
    have h := Process_of_traversal_error rt sources w paramMap err hinit ht
    rw [h]
    exact ⟨rfl, rfl, fun _ => rfl⟩
  · intro p sf typ val e hw hi hc
    cases p with
    | nil => rw [fieldAt?_nil] at hw; cases hw
    | cons j rel =>
      have hne := processFields_unsupported rt ((withEnvSource sources).map Source.TagKey)
        sf typ val e hi hc w.record [] 0 paramMap [] (Or.inr ⟨j, rel, hw⟩)
      simp only [process, ne_eq, ErrorOrNil_eq_none_iff]
      exact hne
  · intro p sf typ val setFn hw hi hc hno hr
    have hkeys := (initParamMap_spec _ _ _ hinit).1
    cases p with
    | nil => rw [fieldAt?_nil] at hw; cases hw
    | cons j rel =>
      have hne := processFields_errs rt ((withEnvSource sources).map Source.TagKey)
        ((withEnvSource sources).map Source.TagKey) sf typ val setFn hi hc
        (fun key hkey => by
          obtain ⟨s, hs, rfl⟩ := List.mem_map.1 hkey
          exact hno s hs)
        hr w.record [] 0 paramMap []
        (fun key hkey => by
          rw [hkeys] at hkey
          simpa [GoMap.keys] using hkey)
        (Or.inr ⟨j, rel, hw⟩)
      simp only [process, ne_eq, ErrorOrNil_eq_none_iff]
      exact hne

/-- C23 at a record with a required field that names no source, a field
whose value the source `mock` has and a field whose variable is set: the
error of the first field is returned, the log of the mock source stays empty
and the two other fields keep their zero values. -/
theorem Process_traversal_error_aborts_witness :
    Process (sampleRuntime [("PORT", "9090")]) [mockSource "mock" [("host", "h")]]
        { record := abortRecord, ext := [] } =
      (some (.Multi [.New
          "error: the field Name was marked as required, but did not specify a struct tag for one of the provided sources: mock, env"]),
        { record := abortRecord, ext := [] }) :=
  ((Process_traversal_error_aborts (sampleRuntime [("PORT", "9090")])
    [mockSource "mock" [("host", "h")]] { record := abortRecord, ext := [] }
    [("mock", []), ("env", [])] rfl).1
    (.Multi [.New
      "error: the field Name was marked as required, but did not specify a struct tag for one of the provided sources: mock, env"])
    rfl).1

end GoConfig
